import Mathlib

/-!
# zeo_go_api: admission, caching and sandboxed execution

A shallow embedding of the Go sources of the gateway
(`internal/core/runner`, `internal/core/cache`, `internal/api/middleware`,
`internal/api/handlers`, `internal/utils/file`) together with the properties
its specification states about them.

Conventions.
* A Go `string` / `[]byte` is a byte sequence.  It is rendered as `List Char`
  (one character per byte); the operations used below are bytewise, and
  those of Go that read characters (`strings.Fields`, `strings.TrimSpace`)
  read their UTF-8 encoding.
* Go maps are finite association lists with pairwise distinct keys.
* The file system is a finite map from absolute, lexically cleaned paths to
  nodes; symbolic links are not modelled, so a path denotes the node stored
  at its lexical resolution against the working directory of the process.
* Library code that is not part of the repository (`path/filepath`,
  `strings`, `os`, `crypto/sha256`, gin, `x/time/rate`) is modelled by its
  documented behaviour; the external tool and the hash function are
  parameters.
-/

namespace ZeoApi

/-- Go strings and byte slices. -/
abbrev Str := List Char

/-! ## Go maps -/

/-- Finite map with string keys: the entries in some order, keys distinct. -/
structure GoMap (V : Type) where
  entries : List (Str × V)
  nodup : (entries.map Prod.fst).Nodup

namespace GoMap

variable {V : Type}

/-- The map created by `make(map[string]V)`. -/
def empty : GoMap V := ⟨[], List.nodup_nil⟩

/-- Entries of a list whose key differs from `k`. -/
def dropKey (k : Str) (l : List (Str × V)) : List (Str × V) :=
  l.filter (fun e => decide (e.1 ≠ k))

/-- The lookup `m[k]` with its presence flag. -/
def get (m : GoMap V) (k : Str) : Option V :=
  (m.entries.find? (fun e => decide (e.1 = k))).map Prod.snd

/-- The assignment `m[k] = v`. -/
def set (m : GoMap V) (k : Str) (v : V) : GoMap V :=
  ⟨(k, v) :: dropKey k m.entries, by
    simp only [List.map_cons, List.nodup_cons]
    refine ⟨?_, m.nodup.sublist ((List.filter_sublist m.entries).map Prod.fst)⟩
    intro hmem
    rcases List.mem_map.1 hmem with ⟨e, he, hk⟩
    have hne := (List.mem_filter.1 he).2
    simp [hk] at hne⟩

/-- The builtin `delete(m, k)`. -/
def delete (m : GoMap V) (k : Str) : GoMap V :=
  ⟨dropKey k m.entries, m.nodup.sublist ((List.filter_sublist m.entries).map Prod.fst)⟩

/-- The builtin `len(m)`. -/
def len (m : GoMap V) : Nat := m.entries.length

/-- The keys of the map. -/
def keys (m : GoMap V) : List Str := m.entries.map Prod.fst

/-- Whether `k` is a key of the map. -/
def contains (m : GoMap V) (k : Str) : Bool := (m.get k).isSome

/-- The map obtained by assigning the bindings of a list in order. -/
def ofList (l : List (Str × V)) : GoMap V :=
  l.foldl (fun m e => m.set e.1 e.2) empty

end GoMap

/-! ## `strings` and `path/filepath` (Unix) -/

namespace strings

/-- `strings.HasPrefix(s, prefix)`. -/
def HasPrefix (s pre : Str) : Bool := pre.isPrefixOf s

/-- `strings.Split(s, "/")`: the pieces between separators. -/
def splitSlash : Str → List Str
  | [] => [[]]
  | c :: cs =>
    if c = '/' then [] :: splitSlash cs
    else
      match splitSlash cs with
      | [] => [[c]]
      | x :: xs => (c :: x) :: xs

/-- `strings.Join(elems, "/")`. -/
def joinSlash : List Str → Str
  | [] => []
  | [x] => x
  | x :: y :: rest => x ++ '/' :: joinSlash (y :: rest)

end strings

namespace filepath

/-- `filepath.IsAbs` on Unix: the path starts with a slash. -/
def IsAbs (p : Str) : Bool :=
  match p with
  | '/' :: _ => true
  | _ => false

/-- One element of the path processed by `Clean`.  `out` holds the elements
written so far, innermost first.  Empty elements and `.` are skipped; `..`
removes the last written element when there is one that is not itself `..`,
is dropped at the root of a rooted path, and is kept otherwise. -/
def cleanStep (rooted : Bool) (out : List Str) (elem : Str) : List Str :=
  if elem = [] ∨ elem = ['.'] then out
  else if elem = ['.', '.'] then
    match out with
    | [] => if rooted then [] else [elem]
    | top :: rest => if top = ['.', '.'] then elem :: out else rest
  else elem :: out

/-- `filepath.Clean`: the shortest path equivalent to `p` by purely lexical
processing. -/
def Clean (p : Str) : Str :=
  if p = [] then ['.']
  else
    let rooted := IsAbs p
    let out := (strings.splitSlash p).foldl (cleanStep rooted) []
    let body := strings.joinSlash out.reverse
    if rooted then '/' :: body
    else if body = [] then ['.'] else body

/-- `filepath.Join(a, b)`: the non-empty elements joined by a slash and
cleaned; the empty string when both are empty. -/
def Join (a b : Str) : Str :=
  if a ≠ [] then Clean (a ++ '/' :: b)
  else if b ≠ [] then Clean b
  else []

/-- Strip trailing slashes (first loop of `filepath.Base`). -/
def stripTrailingSlashes (p : Str) : Str :=
  (p.reverse.dropWhile (fun c => decide (c = '/'))).reverse

/-- `filepath.Base`: the last element of the path. -/
def Base (p : Str) : Str :=
  if p = [] then ['.']
  else
    let q := stripTrailingSlashes p
    let last := (q.reverse.takeWhile (fun c => decide (c ≠ '/'))).reverse
    if last = [] then ['/'] else last

end filepath

/-! ## The operating system -/

/-- A node of the file system.  `size` is what `os.Stat` reports for a
regular file and `readable` tells whether `os.ReadFile` succeeds on it. -/
inductive Node where
  | file (content : Str) (size : Nat) (readable : Bool)
  | dir
  deriving DecidableEq

/-- `FileInfo.Size()`; system-dependent (and far below any ceiling used
here) for a directory. -/
def Node.size : Node → Nat
  | .file _ n _ => n
  | .dir => 0

/-- Whether the node is a regular file. -/
def Node.isFile : Node → Bool
  | .file _ _ _ => true
  | .dir => false

/-- State of the process environment: working directory, whether `os.Getwd`
succeeds, and the files keyed by absolute cleaned path. -/
structure Sys where
  cwd : Str
  getwdOk : Bool
  files : GoMap Node

namespace filepath

/-- `filepath.Abs`: an absolute path is cleaned, a relative one is joined to
the working directory; fails when the working directory is unavailable. -/
def Abs (s : Sys) (p : Str) : Option Str :=
  if IsAbs p then some (Clean p)
  else if s.getwdOk then some (Join s.cwd p)
  else none

end filepath

namespace Sys

/-- The node a path names for the kernel: resolved against the working
directory. -/
def resolve (s : Sys) (p : Str) : Str :=
  if filepath.IsAbs p then filepath.Clean p else filepath.Join s.cwd p

/-- `os.Stat`. -/
def Stat (s : Sys) (p : Str) : Option Node :=
  if s.resolve p = ['/'] then some Node.dir else s.files.get (s.resolve p)

/-- `os.ReadFile`: succeeds on a readable regular file. -/
def ReadFile (s : Sys) (p : Str) : Option Str :=
  match s.Stat p with
  | some (Node.file content _ true) => some content
  | _ => none

/-- The proper ancestors of an absolute cleaned path, the root excluded,
outermost first. -/
def ancestors (key : Str) : List Str :=
  let elems := (strings.splitSlash key).filter (fun e => decide (e ≠ []))
  (elems.inits.filter (fun pre => decide (pre ≠ [] ∧ pre ≠ elems))).map
    (fun pre => '/' :: strings.joinSlash pre)

/-- Whether a key names a directory. -/
def isDir (s : Sys) (key : Str) : Bool :=
  key = ['/'] ∨ s.files.get key = some Node.dir

/-- Whether every proper ancestor of `key` is a directory. -/
def parentsAreDirs (s : Sys) (key : Str) : Bool :=
  (ancestors key).all (fun a => s.isDir a)

/-- `os.WriteFile`: creates or truncates a regular file; fails when the
target is a directory or its parent directory does not exist. -/
def WriteFile (s : Sys) (p : Str) (data : Str) : Option Sys :=
  let key := s.resolve p
  if s.isDir key ∨ ¬ s.parentsAreDirs key then none
  else some { s with files := s.files.set key (Node.file data data.length true) }

/-- `os.MkdirAll`: creates the directory and the missing parents; fails on
the empty path, and when the path or one of its ancestors is a regular
file. -/
def MkdirAll (s : Sys) (p : Str) : Option Sys :=
  let key := s.resolve p
  let chain := ancestors key ++ [key]
  if p = [] then none
  else if chain.any (fun a => ((s.files.get a).map Node.isFile).getD false) then none
  else some { s with files := chain.foldl (fun m a => if a = ['/'] then m else m.set a Node.dir) s.files }

/-- `os.Remove`: removes a file or an empty directory; otherwise (nothing
there, or a non-empty directory) it fails and changes nothing. -/
def Remove (s : Sys) (p : Str) : Sys :=
  let key := s.resolve p
  match s.files.get key with
  | some (Node.file _ _ _) => { s with files := s.files.delete key }
  | some Node.dir =>
    if s.files.keys.any (fun k => strings.HasPrefix k (key ++ ['/'])) then s
    else { s with files := s.files.delete key }
  | none => s

end Sys

/-! ## `internal/utils/file` -/

namespace file

/-- `file.FileExists`: whether `os.Stat` returns no error. -/
def FileExists (s : Sys) (filePath : Str) : Bool := (s.Stat filePath).isSome

/-- `file.GetFileContent`: `os.ReadFile`. -/
def GetFileContent (s : Sys) (filePath : Str) : Option Str := s.ReadFile filePath

/-- `file.CleanupFile`: removes the file unless the path is empty. -/
def CleanupFile (s : Sys) (filePath : Str) : Sys :=
  if filePath ≠ [] then s.Remove filePath else s

end file

/-! ## `internal/core/runner` -/

/-- The fields of `config.ZeoConfig`; the timeout is in nanoseconds. -/
structure ZeoConfig where
  ExecutablePath : Str
  Workdir : Str
  Timeout : Int

/-- The result record of a run. -/
structure ZeoResult where
  Success : Bool
  ExitCode : Int
  Stdout : Str
  Stderr : Str
  OutputFiles : GoMap Str

/-- The error of `cmd.CombinedOutput`: the process ended with a non-zero
status (`*exec.ExitError`, status `-1` when it was killed, as on a timeout),
or it could not be run at all; `msg` is `err.Error()`. -/
inductive CmdError where
  | exit (code : Int) (msg : Str)
  | other (msg : Str)

/-- What `exec.CommandContext(ctx, path, args...)` with `cmd.Dir = dir` is
asked to run. -/
structure Invocation where
  path : Str
  args : List Str
  dir : Str
  deriving DecidableEq

/-- What a run of the external process leaves behind: the files, the
combined output and the error. -/
structure ToolRun where
  files : GoMap Node
  stdout : Str
  err : Option CmdError

/-- What `cmd.CombinedOutput()` does under the deadline: the process runs,
or it cannot be started (no such executable, a deadline that has passed)
and the error says so.  Any function of the invocation and of the state it
starts in. -/
abbrev Tool := Invocation → Sys → ToolRun

/-- The two hard errors of `RunCommand`. -/
inductive RunError where
  | createWorkspace
  | copyStructureFile
  deriving DecidableEq

/-- What `RunCommand` returns, the state it leaves, and the command on which
it called `cmd.CombinedOutput()` (none when it returned before the call);
whether a process was started is part of what the tool does. -/
structure RunOutcome where
  result : Except RunError ZeoResult
  sys : Sys
  invoked : Option Invocation

/-- The ceiling `maxFileSize`: 100MB. -/
def maxFileSize : Nat := 100 * 1024 * 1024

/-- `ZeoRunner.copyFile`: read the source, write the destination. -/
def copyFile (s : Sys) (src dst : Str) : Option Sys :=
  match s.ReadFile src with
  | none => none
  | some input => s.WriteFile dst input

/-- The guard of the collection loop: both absolute paths resolve and the
output path has the workdir path as a string prefix. -/
def withinWorkspace (cfg : ZeoConfig) (s : Sys) (outputFile : Str) : Bool :=
  let outputPath := filepath.Join cfg.Workdir outputFile
  match filepath.Abs s (filepath.Clean outputPath),
        filepath.Abs s (filepath.Clean cfg.Workdir) with
  | some absOutputPath, some absWorkdir => strings.HasPrefix absOutputPath absWorkdir
  | _, _ => false

/-- One iteration of the collection loop of `RunCommand`. -/
def collectOne (cfg : ZeoConfig) (st : Sys × GoMap Str) (outputFile : Str) :
    Sys × GoMap Str :=
  let outputPath := filepath.Join cfg.Workdir outputFile
  if ¬ withinWorkspace cfg st.1 outputFile then st
  else if file.FileExists st.1 outputPath then
    match st.1.Stat outputPath with
    | none => (st.1.Remove outputPath, st.2)
    | some info =>
      if info.size > maxFileSize then (st.1.Remove outputPath, st.2)
      else
        match file.GetFileContent st.1 outputPath with
        | none => st
        | some content => (st.1.Remove outputPath, st.2.set outputFile content)
  else st

/-- The collection loop of `RunCommand`. -/
def collect (cfg : ZeoConfig) (s : Sys) (outputFiles : List Str) : Sys × GoMap Str :=
  outputFiles.foldl (collectOne cfg) (s, GoMap.empty)

/-- `ZeoRunner.RunCommand`. -/
def RunCommand (cfg : ZeoConfig) (tool : Tool) (s : Sys) (structureFile : Str)
    (args : List Str) (outputFiles : List Str) : RunOutcome :=
  match s.MkdirAll cfg.Workdir with
  | none => ⟨.error .createWorkspace, s, none⟩
  | some s1 =>
    let workspaceFile := filepath.Join cfg.Workdir (filepath.Base structureFile)
    match copyFile s1 structureFile workspaceFile with
    | none => ⟨.error .copyStructureFile, s1, none⟩
    | some s2 =>
      let fullArgs := args ++ [workspaceFile]
      let inv : Invocation := ⟨cfg.ExecutablePath, fullArgs, cfg.Workdir⟩
      let run := tool inv s2
      let s3 : Sys := { s2 with files := run.files }
      let exitCode : Int :=
        match run.err with
        | none => 0
        | some (.exit code _) => code
        | some (.other _) => -1
      let stderr : Str :=
        match run.err with
        | none => []
        | some (.exit _ msg) => msg
        | some (.other msg) => msg
      let collected := collect cfg s3 outputFiles
      let result : ZeoResult :=
        { Success := run.err.isNone
          ExitCode := exitCode
          Stdout := run.stdout
          Stderr := stderr
          OutputFiles := collected.2 }
      ⟨.ok result, collected.1.Remove workspaceFile, some inv⟩

/-- The output map of an outcome; empty when the call returned an error. -/
def RunOutcome.outputs (o : RunOutcome) : GoMap Str :=
  match o.result with
  | .ok r => r.OutputFiles
  | .error _ => GoMap.empty

/-! ## `internal/core/cache` -/

/-- A hash function from byte strings to digests (`crypto/sha256`). -/
abbrev Hash := Str → Str

/-- The fields of `config.CacheConfig`; the TTL is in nanoseconds. -/
structure CacheConfig where
  Enabled : Bool
  TTL : Int
  MaxSizeMB : Int
  Shards : Int

/-- The value an `int64` holds after an arithmetic operation whose exact
result is `x`: `x` reduced modulo 2^64 into the range from -2^63 to
2^63 - 1. -/
def int64 (x : Int) : Int :=
  (x + 9223372036854775808) % 18446744073709551616 - 9223372036854775808

/-- A cache entry: the output blobs, the creation time (nanoseconds on the
process clock) and the hit counter, an `int64`. -/
structure cacheItem where
  Data : GoMap Str
  Created : Int
  HitCount : Int

/-- The cache: its shards (each the `items` map of a `shard`), its
configuration and base directory. -/
structure Cache where
  shards : List (GoMap cacheItem)
  config : CacheConfig
  baseDir : Str

/-- `NewCache`: `cfg.Shards` empty shards; `make` panics on a negative
length. -/
def NewCache (cfg : CacheConfig) (baseDir : Str) : Option Cache :=
  if cfg.Shards < 0 then none
  else some ⟨List.replicate cfg.Shards.toNat GoMap.empty, cfg, baseDir⟩

namespace Cache

/-- `Cache.getShard`, as the index of the shard it returns: the first digest
byte modulo the number of shards; the modulo panics when there is no
shard. -/
def getShard (h : Hash) (c : Cache) (key : Str) : Option Nat :=
  if c.shards.length = 0 then none
  else some (((h key).headD (Char.ofNat 0)).toNat % c.shards.length)

/-- `time.Since(item.Created) > TTL` under the guard `TTL > 0`. -/
def expired (c : Cache) (item : cacheItem) (now : Int) : Bool :=
  decide (c.config.TTL > 0 ∧ now - item.Created > c.config.TTL)

/-- `Cache.Get` at time `now`, run with no other call on the shard between
its statements: the data with the found flag (`none` for `nil, false`) and
the cache afterwards; the outer `none` is a panic.  `Cache.getStep` has the
lookup and the store as separate steps, for calls that hold the read lock
at the same time. -/
def Get (h : Hash) (c : Cache) (key : Str) (now : Int) :
    Option (Option (GoMap Str) × Cache) :=
  match c.getShard h key with
  | none => none
  | some i =>
    let items := c.shards.getD i GoMap.empty
    match items.get key with
    | none => some (none, c)
    | some item =>
      if c.expired item now then
        some (none, { c with shards := c.shards.set i (items.delete key) })
      else
        let item1 := { item with HitCount := int64 (item.HitCount + 1) }
        some (some item1.Data, { c with shards := c.shards.set i (items.set key item1) })

/-- `Cache.Set` at time `now`. -/
def Set (h : Hash) (c : Cache) (key : Str) (data : GoMap Str) (now : Int) :
    Option Cache :=
  match c.getShard h key with
  | none => none
  | some i =>
    let items := c.shards.getD i GoMap.empty
    some { c with shards := c.shards.set i (items.set key ⟨data, now, 0⟩) }

/-- `Cache.Delete`. -/
def Delete (h : Hash) (c : Cache) (key : Str) : Option Cache :=
  match c.getShard h key with
  | none => none
  | some i =>
    let items := c.shards.getD i GoMap.empty
    some { c with shards := c.shards.set i (items.delete key) }

/-- One shard after the loop body of `ClearExpired`: the expired entries are
deleted. -/
def clearShard (c : Cache) (now : Int) (items : GoMap cacheItem) : GoMap cacheItem :=
  ⟨items.entries.filter (fun e => ! c.expired e.2 now),
    items.nodup.sublist ((List.filter_sublist items.entries).map Prod.fst)⟩

/-- `Cache.ClearExpired` at time `now`. -/
def ClearExpired (c : Cache) (now : Int) : Cache :=
  { c with shards := c.shards.map (c.clearShard now) }

/-- `Cache.Stats`: the number of entries and the sum of the hit counters,
which is accumulated in an `int64`.  (The number of entries stays far below
2^63.) -/
def Stats (c : Cache) : Int × Int :=
  c.shards.foldl
    (fun acc items =>
      (acc.1 + (items.len : Int),
        items.entries.foldl (fun hits e => int64 (hits + e.2.HitCount)) acc.2))
    (0, 0)

/-- The entry stored for a key in the shard its key selects. -/
def entry (h : Hash) (c : Cache) (key : Str) : Option cacheItem :=
  match c.getShard h key with
  | none => none
  | some i => (c.shards.getD i GoMap.empty).get key

end Cache

/-- The bytes written to the hasher by `GenerateCacheKey`: the path, then
every argument in order. -/
def hashInput (filePath : Str) (args : List Str) : Str :=
  args.foldl (fun written arg => written ++ arg) filePath

/-- The lower-case hexadecimal digit of a value below sixteen. -/
def hexDigit (n : Nat) : Char :=
  if n < 10 then Char.ofNat (48 + n) else Char.ofNat (87 + n)

/-- `hex.EncodeToString`: two digits per byte. -/
def EncodeToString (b : Str) : Str :=
  b.flatMap (fun c => [hexDigit (c.toNat / 16 % 16), hexDigit (c.toNat % 16)])

/-- `GenerateCacheKey`: the hexadecimal digest of the written bytes. -/
def GenerateCacheKey (h : Hash) (filePath : Str) (args : List Str) : Str :=
  EncodeToString (h (hashInput filePath args))

/-! ## `internal/api/middleware` -/

/-- Modelled from the spec: the per-client token bucket (`rate.Limiter` of
`golang.org/x/time/rate`, which is not among the sources), "token-bucket
with configured refill rate and burst".  `limit` is the refill rate in
tokens per second, `tokens` the current content, `last` the time (in
nanoseconds) of the last accepted event, if any.  Arithmetic is exact. -/
structure Limiter where
  limit : ℚ
  burst : Int
  tokens : ℚ
  last : Option Int

/-- Modelled from the spec: `rate.NewLimiter(r, b)`, a bucket that starts
full. -/
def NewLimiter (r : ℚ) (b : Int) : Limiter := ⟨r, b, b, none⟩

/-- Modelled from the spec: `Limiter.Allow()` at time `now`, "non-blocking
and purely a check-and-consume": the bucket is refilled for the elapsed
time up to its burst, and one token is consumed when there is one. -/
def Limiter.Allow (l : Limiter) (now : Int) : Bool × Limiter :=
  let elapsed : Int :=
    match l.last with
    | none => 0
    | some t => max 0 (now - t)
  let refilled : ℚ := min (l.burst : ℚ) (l.tokens + (elapsed : ℚ) * l.limit / 1000000000)
  if 1 ≤ refilled then (true, { l with tokens := refilled - 1, last := some now })
  else (false, l)

/-- The per-client limiter state: the limiters by client address and the
configured rate and burst. -/
structure RateLimiter where
  limiters : GoMap Limiter
  rate : ℚ
  burst : Int

/-- `NewRateLimiter`. -/
def NewRateLimiter (r : ℚ) (burst : Int) : RateLimiter := ⟨GoMap.empty, r, burst⟩

/-- `RateLimiter.getLimiter`, run with no other goroutine between its two
critical sections: the limiter of the address, created and stored when
there is none.  `SharedLimiters.step` has the two sections as separate
steps, for requests served at the same time. -/
def RateLimiter.getLimiter (rl : RateLimiter) (ip : Str) : Limiter × RateLimiter :=
  match rl.limiters.get ip with
  | some limiter => (limiter, rl)
  | none =>
    let limiter := NewLimiter rl.rate rl.burst
    (limiter, { rl with limiters := rl.limiters.set ip limiter })

/-- The semaphore channel `sem`: a buffered channel of capacity `cap`
holding `held` elements. -/
structure GlobalSemaphore where
  cap : Nat
  held : Nat
  deriving DecidableEq

/-- `NewGlobalSemaphore`: `make` panics on a negative capacity. -/
def NewGlobalSemaphore (maxConcurrent : Int) : Option GlobalSemaphore :=
  if maxConcurrent < 0 then none else some ⟨maxConcurrent.toNat, 0⟩

namespace GlobalSemaphore

/-- `GlobalSemaphore.Acquire`: the non-blocking send; it succeeds when the
buffer has room. -/
def Acquire (gs : GlobalSemaphore) : Bool × GlobalSemaphore :=
  if gs.held < gs.cap then (true, { gs with held := gs.held + 1 })
  else (false, gs)

/-- `GlobalSemaphore.Release`: the receive; `none` when the buffer is empty
and the receive blocks. -/
def Release (gs : GlobalSemaphore) : Option GlobalSemaphore :=
  if 0 < gs.held then some { gs with held := gs.held - 1 } else none

end GlobalSemaphore

/-- A response written by `c.JSON` or `c.AbortWithStatus`: the status and
the fields of the body. -/
structure Response where
  status : Nat
  body : List (Str × Str)
  deriving DecidableEq

/-- The request context of gin together with the state shared by the
middleware: the handler index, the request method and client address, the
response headers and the responses written; the semaphore, the rate limiter
and the clock; whether the request goroutine is panicking or blocked. -/
structure Env where
  index : Int
  method : Str
  clientIP : Str
  headers : List (Str × Str)
  written : List Response
  sem : GlobalSemaphore
  rl : RateLimiter
  now : Int
  panicking : Bool
  blocked : Bool

/-- A gin handler; its first argument is what `c.Next()` does when the
handler calls it. -/
abbrev Handler := (Env → Env) → Env → Env

namespace gin

/-- The index `abortIndex` of gin. -/
def abortIndex : Int := 63

/-- `c.Abort()`. -/
def Abort (e : Env) : Env := { e with index := abortIndex }

/-- `c.JSON(status, body)`. -/
def JSON (e : Env) (status : Nat) (body : List (Str × Str)) : Env :=
  { e with written := e.written ++ [⟨status, body⟩] }

/-- `c.AbortWithStatus(code)`. -/
def AbortWithStatus (e : Env) (code : Nat) : Env :=
  Abort { e with written := e.written ++ [⟨code, []⟩] }

/-- `c.Header(key, value)`. -/
def Header (e : Env) (key value : Str) : Env :=
  { e with headers := e.headers ++ [(key, value)] }

/-- The loop of `c.Next()`, `for c.index < len(handlers)`, over the handlers
from position `pos` on: the handler at the current index runs, then the
index is incremented.  A handler that calls `c.Next()` increments the index
and runs this loop over the handlers after it.  A panicking or blocked
goroutine runs nothing more. -/
def loop : List Handler → Int → Env → Env
  | [], _, e => e
  | h :: rest, pos, e =>
    if e.panicking ∨ e.blocked then e
    else if e.index = pos then
      let e1 := h (fun e2 => loop rest (pos + 1) { e2 with index := e2.index + 1 }) e
      if e1.panicking ∨ e1.blocked then e1
      else loop rest (pos + 1) { e1 with index := e1.index + 1 }
    else loop rest (pos + 1) e

/-- Serving a request: the index is reset to `-1` and `c.Next()` is
called. -/
def serve (handlers : List Handler) (e : Env) : Env :=
  loop handlers 0 { e with index := (-1) + 1 }

/-- `gin.Logger()`: runs the rest of the chain, then logs. -/
def Logger : Handler := fun next e => next e

/-- `gin.Recovery()`: runs the rest of the chain; a panic is recovered and
answered with status 500. -/
def Recovery : Handler := fun next e =>
  let e1 := next e
  if e1.panicking then AbortWithStatus { e1 with panicking := false } 500 else e1

end gin

/-- The CORS middleware of `main`. -/
def cors : Handler := fun next e =>
  let e1 := gin.Header e "Access-Control-Allow-Origin".toList "*".toList
  let e2 := gin.Header e1 "Access-Control-Allow-Methods".toList
    "GET, POST, PUT, DELETE, OPTIONS".toList
  let e3 := gin.Header e2 "Access-Control-Allow-Headers".toList
    "Origin, Content-Type, Content-Length, Accept-Encoding, X-CSRF-Token, Authorization".toList
  if e3.method = "OPTIONS".toList then gin.AbortWithStatus e3 204
  else next e3

/-- The body of the 429 answer. -/
def rateLimitBody : List (Str × Str) :=
  [("error".toList, "Rate limit exceeded".toList), ("retry_after".toList, "1s".toList)]

/-- The body of the 503 answer. -/
def overloadedBody : List (Str × Str) :=
  [("error".toList, "Server overloaded".toList), ("retry_after".toList, "5s".toList)]

/-- `RateLimiter.RateLimit`: the handler it returns.  The limiter of the
client is shared, so the state `Allow` leaves is the state stored. -/
def RateLimit : Handler := fun next e =>
  let ip := e.clientIP
  let got := e.rl.getLimiter ip
  let allowed := got.1.Allow e.now
  let e1 := { e with rl := { got.2 with limiters := got.2.limiters.set ip allowed.2 } }
  if ¬ allowed.1 then gin.Abort (gin.JSON e1 429 rateLimitBody)
  else next e1

/-- `GlobalSemaphore.Middleware`: the handler it returns.  The deferred
`Release` runs when the rest of the chain returns or panics. -/
def Middleware : Handler := fun next e =>
  let acquired := e.sem.Acquire
  if ¬ acquired.1 then gin.Abort (gin.JSON { e with sem := acquired.2 } 503 overloadedBody)
  else
    let e1 := next { e with sem := acquired.2 }
    if e1.blocked then e1
    else
      match e1.sem.Release with
      | some gs => { e1 with sem := gs }
      | none => { e1 with blocked := true }

/-- The handlers of a route of the `/api` group in the order `main`
registers them: the router middleware, `api.Use(rateLimiter.RateLimit())`,
`api.Use(globalLimiter.Middleware())`, then the endpoint. -/
def apiChain (endpoint : Handler) : List Handler :=
  [gin.Logger, gin.Recovery, cors, RateLimit, Middleware, endpoint]

/-! ## `internal/utils/file`: uploads -/

namespace strings

/-- `strings.HasSuffix(s, suffix)`. -/
def HasSuffix (s suf : Str) : Bool := suf.isSuffixOf s

/-- `strings.TrimSuffix(s, suffix)`. -/
def TrimSuffix (s suf : Str) : Str :=
  if HasSuffix s suf then s.take (s.length - suf.length) else s

/-- `strings.ToLower` on the letters of ASCII.  The bytes of a letter
outside ASCII are left as they are, where Go lowers the letter. -/
def ToLower (s : Str) : Str := s.map Char.toLower

end strings

namespace filepath

/-- `filepath.Ext`: the suffix beginning at the final dot of the final
element; empty when there is no dot. -/
def Ext (p : Str) : Str :=
  let last := (p.reverse.takeWhile (fun c => decide (c ≠ '/'))).reverse
  if '.' ∈ last then
    '.' :: (last.reverse.takeWhile (fun c => decide (c ≠ '.'))).reverse
  else []

end filepath

namespace file

/-- The keys of `validExtensions`. -/
def validExtensions : List Str :=
  [".cif".toList, ".cssr".toList, ".v1".toList, ".arc".toList, ".cif.gz".toList,
    ".cssr.gz".toList]

/-- `file.IsValidStructureFile`. -/
def IsValidStructureFile (filename : Str) : Bool :=
  validExtensions.any (fun ext => strings.HasSuffix (strings.ToLower filename) ext)

/-- The character map of `sanitizeFilename`. -/
def sanitizeChar (r : Char) : Char :=
  if (r ≥ 'a' ∧ r ≤ 'z') ∨ (r ≥ 'A' ∧ r ≤ 'Z') ∨ (r ≥ '0' ∧ r ≤ '9') ∨
      r = '.' ∨ r = '-' ∨ r = '_' then r
  else '_'

/-- `file.sanitizeFilename`. -/
def sanitizeFilename (filename : Str) : Str :=
  let mapped := (filepath.Base filename).map sanitizeChar
  if mapped = [] ∨ mapped = ['.'] then "uploaded_file".toList else mapped

/-- An uploaded form file: its name, its bytes, and whether it can be
opened. -/
structure FileHeader where
  Filename : Str
  content : Str
  opens : Bool

/-- The errors of `SaveUploadedFile`. -/
inductive SaveError where
  | open
  | mkdir
  | invalidPath
  | create
  deriving DecidableEq

/-- The directory `workspace` of `SaveUploadedFile`. -/
def workspace : Str := "./workspace".toList

/-- The decimal rendering of `%d`. -/
def formatInt (n : Int) : Str := (toString n).toList

/-- The path `fullPath` of `SaveUploadedFile` for a prefix, the clock
reading `nano` of `time.Now().UnixNano()` and the draw `rnd` of
`rand.Intn(10000)`. -/
def uploadPath (f : FileHeader) (pre : Str) (nano : Int) (rnd : Nat) : Str :=
  let safeName := sanitizeFilename f.Filename
  let uniqueID := pre ++ '_' :: formatInt nano ++ '_' :: formatInt rnd
  let ext :=
    if strings.HasSuffix (strings.ToLower safeName) ".gz".toList then
      filepath.Ext (strings.TrimSuffix safeName ".gz".toList) ++ ".gz".toList
    else filepath.Ext safeName
  filepath.Join workspace (uniqueID ++ ext)

/-- `file.SaveUploadedFile`: the saved path or the error, and the state
afterwards. -/
def SaveUploadedFile (s : Sys) (f : FileHeader) (pre : Str) (nano : Int) (rnd : Nat) :
    Except SaveError Str × Sys :=
  if ¬ f.opens then (.error .open, s)
  else
    match s.MkdirAll workspace with
    | none => (.error .mkdir, s)
    | some s1 =>
      let fullPath := uploadPath f pre nano rnd
      if ¬ strings.HasPrefix fullPath workspace then (.error .invalidPath, s1)
      else
        match s1.WriteFile fullPath f.content with
        | none => (.error .create, s1)
        | some s2 => (.ok fullPath, s2)

end file

/-! ## `internal/api/handlers` -/

/-- `getOutputFiles`. -/
def getOutputFiles (analysisType : Str) : List Str :=
  if analysisType = "pore_diameter".toList then ["output.res".toList]
  else if analysisType = "surface_area".toList then ["output.sa".toList]
  else if analysisType = "accessible_volume".toList then ["output.vol".toList]
  else if analysisType = "probe_volume".toList then ["output.volpo".toList]
  else if analysisType = "channel_analysis".toList then ["output.chan".toList]
  else if analysisType = "framework_info".toList then ["output.strinfo".toList]
  else if analysisType = "blocking_spheres".toList then ["output.block".toList]
  else if analysisType = "open_metal_sites".toList then ["output.oms".toList]
  else if analysisType = "pore_size_dist".toList then ["output.psd".toList]
  else ["output".toList]

/-- Why a request was answered with a failure. -/
inductive AnalysisError where
  | missingFile
  | invalidFormat
  | saveFailed (e : file.SaveError)
  | invalidParameters
  | executionFailed (e : RunError)
  | zeoError (stderr stdout : Str)
  | parseFailed
  | noOutput
  deriving DecidableEq

/-- The answer of `ProcessAnalysis`: status 200 with the parsed data and
the `cached` flag, or a failure status with its reason. -/
inductive AnalysisResponse (R : Type) where
  | success (data : R) (cached : Bool)
  | failure (status : Nat) (reason : AnalysisError)
  deriving DecidableEq

/-- What the handler works on: the files, the cache, and the number of
times the external tool has been started. -/
structure App where
  sys : Sys
  cache : Cache
  toolRuns : Nat

/-- What a handler needs besides the request: the hash function, the runner
configuration, the external tool, the argument builder and the output
parser. -/
structure Deps (P R : Type) where
  hash : Hash
  zeo : ZeoConfig
  tool : Tool
  BuildZeoArgs : Str → P → Option (List Str)
  ParseOutputFile : Str → Str → Option R

/-- The part of `ProcessAnalysis` after the cache lookup: run the tool,
parse the main output, store it. The outer `none` is a panic. -/
def runAndStore {P R : Type} (d : Deps P R) (app : App) (analysisType savedPath : Str)
    (zeoArgs : List Str) (cacheKey : Str) (now : Int) :
    Option (AnalysisResponse R × App) :=
  let outputFiles := getOutputFiles analysisType
  let o := RunCommand d.zeo d.tool app.sys savedPath zeoArgs outputFiles
  let app1 : App :=
    { app with sys := o.sys, toolRuns := app.toolRuns + (if o.invoked.isSome then 1 else 0) }
  match o.result with
  | .error e => some (.failure 500 (.executionFailed e), app1)
  | .ok result =>
    if ¬ result.Success then some (.failure 500 (.zeoError result.Stderr result.Stdout), app1)
    else
      let mainOutput := outputFiles.headD []
      match result.OutputFiles.get mainOutput with
      | none => some (.failure 500 .noOutput, app1)
      | some outputData =>
        match d.ParseOutputFile analysisType outputData with
        | none => some (.failure 500 .parseFailed, app1)
        | some parsedResult =>
          if app1.cache.config.Enabled then
            match app1.cache.Set d.hash cacheKey (GoMap.empty.set mainOutput outputData) now with
            | none => none
            | some c => some (.success parsedResult false, { app1 with cache := c })
          else some (.success parsedResult false, app1)

/-- The part of `ProcessAnalysis` after the upload was saved: build the
arguments, consult the cache, otherwise run. -/
def analyseSaved {P R : Type} (d : Deps P R) (app : App) (analysisType : Str) (params : P)
    (savedPath : Str) (now : Int) : Option (AnalysisResponse R × App) :=
  match d.BuildZeoArgs analysisType params with
  | none => some (.failure 400 .invalidParameters, app)
  | some zeoArgs =>
    let outputFiles := getOutputFiles analysisType
    let cacheKey := GenerateCacheKey d.hash savedPath zeoArgs
    if app.cache.config.Enabled then
      match app.cache.Get d.hash cacheKey now with
      | none => none
      | some (found, c) =>
        let app1 := { app with cache := c }
        match found.bind (fun cachedData => cachedData.get (outputFiles.headD [])) with
        | some parsed =>
          match d.ParseOutputFile analysisType parsed with
          | some result => some (.success result true, app1)
          | none => runAndStore d app1 analysisType savedPath zeoArgs cacheKey now
        | none => runAndStore d app1 analysisType savedPath zeoArgs cacheKey now
    else runAndStore d app analysisType savedPath zeoArgs cacheKey now

/-- `BaseHandler.ProcessAnalysis` for a request with form file `form`, at
clock reading `now`, with `rnd` the random draw of the upload name.  The
deferred `CleanupFile` runs once the upload has been saved. -/
def ProcessAnalysis {P R : Type} (d : Deps P R) (app : App) (form : Option file.FileHeader)
    (analysisType : Str) (params : P) (now : Int) (rnd : Nat) :
    Option (AnalysisResponse R × App) :=
  match form with
  | none => some (.failure 400 .missingFile, app)
  | some fileHeader =>
    if ¬ file.IsValidStructureFile fileHeader.Filename then
      some (.failure 400 .invalidFormat, app)
    else
      match file.SaveUploadedFile app.sys fileHeader analysisType now rnd with
      | (.error e, s) => some (.failure 500 (.saveFailed e), { app with sys := s })
      | (.ok savedPath, s) =>
        match analyseSaved d { app with sys := s } analysisType params savedPath now with
        | none => none
        | some (resp, app1) =>
          some (resp, { app1 with sys := file.CleanupFile app1.sys savedPath })

/-! ## Sequences of calls -/

/-- A call on the cache. -/
inductive CacheOp where
  | set (key : Str) (data : GoMap Str) (now : Int)
  | get (key : Str) (now : Int)
  | delete (key : Str)
  | clearExpired (now : Int)

/-- The cache after one call; `none` when the call panics. -/
def Cache.step (h : Hash) (c : Cache) : CacheOp → Option Cache
  | .set key data now => c.Set h key data now
  | .get key now => (c.Get h key now).map Prod.snd
  | .delete key => c.Delete h key
  | .clearExpired now => some (c.ClearExpired now)

/-- The cache after a sequence of calls. -/
def Cache.run (h : Hash) (c : Cache) : List CacheOp → Option Cache
  | [] => some c
  | op :: ops => (c.step h op).bind (fun c1 => c1.run h ops)

/-- The caches reachable from `NewCache cfg baseDir` by a sequence of
calls. -/
def Cache.Reachable (h : Hash) (cfg : CacheConfig) (baseDir : Str) (c : Cache) : Prop :=
  ∃ ops : List CacheOp, (NewCache cfg baseDir).bind (fun c0 => c0.run h ops) = some c

/-- A call on the semaphore. -/
inductive SemOp where
  | acquire
  | release
  deriving DecidableEq

/-- A sequence of calls on the semaphore: the semaphore afterwards and the
values the `Acquire` calls returned, in order; `none` when a `Release` is
made while no slot is held. -/
def GlobalSemaphore.run (gs : GlobalSemaphore) : List SemOp →
    Option (GlobalSemaphore × List Bool)
  | [] => some (gs, [])
  | .acquire :: ops =>
    (gs.Acquire.2.run ops).map (fun r => (r.1, gs.Acquire.1 :: r.2))
  | .release :: ops =>
    match gs.Release with
    | none => none
    | some gs1 => gs1.run ops

/-- The limiter of a client of burst `b` after `j` requests of a burst
at time `now` were accepted: `b - j` tokens are left. -/
def burstLimiter (r : ℚ) (b : Nat) (now : Int) (j : Nat) : Limiter :=
  ⟨r, b, (b : ℚ) - j, if j = 0 then none else some now⟩

/-- The limiter state `rl` with the limiter of client `ip` replaced by its
limiter after `j` accepted requests of a burst. -/
def burstState (rl : RateLimiter) (ip : Str) (b : Nat) (now : Int) (j : Nat) : RateLimiter :=
  { rl with limiters := rl.limiters.set ip (burstLimiter rl.rate b now j) }

/-- The requests of a burst served in turn: `n` times the request `req`,
each served to its end by `RateLimit` in front of `next` before the next
one starts, from the limiter state the previous one left.  The
environments returned, in order.  (`SharedLimiters.run` serves requests at
the same time.) -/
def serveBurst (next : Env → Env) (req : Env) : Nat → RateLimiter → List Env
  | 0, _ => []
  | n + 1, rl =>
    let out := RateLimit next { req with rl := rl }
    out :: serveBurst next req n out.rl

/-! ## Concrete situations -/

namespace Example

/-- A tool that exits with status 0 and writes nothing. -/
def idleTool : Tool := fun _ s => ⟨s.files, [], none⟩

/-- A runner whose workdir is `/e`. -/
def shortWorkdir : ZeoConfig := ⟨"network".toList, "/e".toList, 300000000000⟩

/-- A machine with `/etc/passwd` and an uploaded structure file. -/
def machine : Sys :=
  ⟨"/srv".toList, true,
    GoMap.ofList
      [("/etc".toList, Node.dir),
        ("/etc/passwd".toList, Node.file "root:x:0:0".toList 10 true),
        ("/up".toList, Node.dir),
        ("/up/a.cif".toList, Node.file "data_a".toList 6 true)]⟩

/-- A runner whose workdir is `/ws`. -/
def wsConfig : ZeoConfig := ⟨"network".toList, "/ws".toList, 300000000000⟩

/-- A tool that writes `output.res` into its working directory with a mode
that does not let the server read it, and exits with status 0. -/
def unreadableTool : Tool := fun inv s =>
  ⟨s.files.set (s.resolve (filepath.Join inv.dir "output.res".toList))
      (Node.file "1.0 2.0 3.0".toList 11 false),
    [], none⟩

/-- A stand-in hash function: the digest is the input. -/
def sampleHash : Hash := fun key => key

/-- A cache configuration with a TTL of one hour and 32 shards. -/
def hourCache : CacheConfig := ⟨true, 3600000000000, 1024, 32⟩

/-- A cache configuration whose TTL is zero. -/
def zeroTTL : CacheConfig := ⟨true, 0, 1024, 4⟩

/-- An endpoint that answers 200 and touches nothing else. -/
def okEndpoint : Env → Env := fun e => gin.JSON e 200 []

/-- A request of client `10.0.0.1` at time 0 on a server with two slots, one
of them held, and a limiter of rate 10 and burst 2 that has seen no
client. -/
def request : Env :=
  { index := 0, method := "POST".toList, clientIP := "10.0.0.1".toList, headers := [],
    written := [], sem := ⟨2, 1⟩, rl := NewRateLimiter 10 2, now := 0,
    panicking := false, blocked := false }

/-- A request of a client at time 0 on a server whose limiter has rate 10
and burst 0, with two free slots. -/
def zeroBurstRequest : Env :=
  { index := 0, method := "POST".toList, clientIP := "10.0.0.1".toList, headers := [],
    written := [], sem := ⟨2, 0⟩, rl := NewRateLimiter 10 0, now := 0,
    panicking := false, blocked := false }

/-- The request `zeroBurstRequest` repeated one second later, after the first
one was served. -/
def zeroBurstLater : Env :=
  { zeroBurstRequest with
    rl := (RateLimit okEndpoint zeroBurstRequest).rl, now := 1000000000 }

/-- An uploaded structure file `a.cif`. -/
def uploadA : file.FileHeader := ⟨"a.cif".toList, "data_a".toList, true⟩

/-- A tool that writes `output.res` into its working directory and exits
with status 0. -/
def resTool : Tool := fun inv s =>
  ⟨s.files.set (s.resolve (filepath.Join inv.dir "output.res".toList))
      (Node.file "1.0 2.0 3.0".toList 11 true),
    [], none⟩

/-- The handler dependencies: the default runner configuration, the tool
`resTool`, fixed arguments for every request, and a parser that accepts
every output. -/
def deps : Deps Unit Str :=
  { hash := sampleHash
    zeo := ⟨"network".toList, "./workspace".toList, 300000000000⟩
    tool := resTool
    BuildZeoArgs := fun _ _ => some ["-res".toList, "output.res".toList]
    ParseOutputFile := fun _ data => some data }

/-- A server started in `/srv` with an empty cache (enabled, TTL of one hour,
32 shards) that has not run the tool yet. -/
def server : App :=
  { sys := ⟨"/srv".toList, true, GoMap.ofList [("/srv".toList, Node.dir)]⟩
    cache := ⟨List.replicate 32 GoMap.empty, hourCache, "./workspace".toList⟩
    toolRuns := 0 }

/-- The first request: `a.cif` for `pore_diameter`. -/
def firstRequest : Option (AnalysisResponse Str × App) :=
  ProcessAnalysis deps server (some uploadA) "pore_diameter".toList ()
    1700000000000000000 42

/-- The second request: the same upload and parameters one second later, on
the server as the first request left it. -/
def secondRequest : Option (AnalysisResponse Str × App) :=
  firstRequest.bind (fun r =>
    ProcessAnalysis deps r.2 (some uploadA) "pore_diameter".toList ()
      1700000001000000000 7)

/-- An entry map with one output. -/
def oneOutput : GoMap Str := GoMap.ofList [("output.res".toList, "1.0 2.0 3.0".toList)]

/-- The cache of configuration `hourCache` after `Set("k", oneOutput)` at
time 0. -/
def staleCache : Cache :=
  ⟨(List.replicate 32 GoMap.empty).set 11 (GoMap.ofList [("k".toList, ⟨oneOutput, 0, 0⟩)]),
    hourCache, []⟩

end Example

/-! ## Second part: further notions of the runner, the cache, the sweep and the pool -/

/-- The preparation steps of `RunCommand`: the workdir is ensured and the
structure file copied into it; the state in which the tool starts, or the
hard error. -/
def prepare (cfg : ZeoConfig) (s : Sys) (structureFile : Str) : Except RunError Sys :=
  match s.MkdirAll cfg.Workdir with
  | none => .error .createWorkspace
  | some s1 =>
    match copyFile s1 structureFile
        (filepath.Join cfg.Workdir (filepath.Base structureFile)) with
    | none => .error .copyStructureFile
    | some s2 => .ok s2

/-- The invocation `RunCommand` makes for a structure file and arguments. -/
def invocationOf (cfg : ZeoConfig) (structureFile : Str) (args : List Str) : Invocation :=
  ⟨cfg.ExecutablePath, args ++ [filepath.Join cfg.Workdir (filepath.Base structureFile)],
    cfg.Workdir⟩

/-- The state the collection loop starts in: the prepared state with the
files as the tool left them. -/
def afterTool (cfg : ZeoConfig) (tool : Tool) (s2 : Sys) (structureFile : Str)
    (args : List Str) : Sys :=
  { s2 with files := (tool (invocationOf cfg structureFile args) s2).files }

namespace Example

/-- A tool that writes nothing and exits with status 2. -/
def failingTool : Tool := fun _ s => ⟨s.files, "bad input".toList, some (.exit 2 "exit status 2".toList)⟩

end Example

namespace Example

/-- A tool that writes an `output.res` of 104857601 bytes, one more than the
ceiling, into its working directory and exits with status 0. -/
def hugeTool : Tool := fun inv s =>
  ⟨s.files.set (s.resolve (filepath.Join inv.dir "output.res".toList))
      (Node.file (List.replicate 104857601 'x') 104857601 true),
    [], none⟩

end Example

namespace Example

/-- The machine after the preparation steps of a run on `/up/a.cif` with
workdir `/ws`. -/
def preparedMachine : Sys :=
  match prepare wsConfig machine "/up/a.cif".toList with
  | .ok s2 => s2
  | .error _ => machine

end Example

namespace Example

/-- The server with an upload saved as `workspace/x.cif`. -/
def savedServer : App :=
  { server with
    sys :=
      ((server.sys.MkdirAll file.workspace).bind
        (fun s => s.WriteFile "workspace/x.cif".toList "data_a".toList)).getD server.sys }

/-- The fingerprint of the saved upload with the arguments of `deps`. -/
def savedKey : Str :=
  GenerateCacheKey sampleHash "workspace/x.cif".toList ["-res".toList, "output.res".toList]

/-- The server after the analysis of the saved upload was run and stored at
time 5. -/
def storedServer : App :=
  ((runAndStore deps savedServer "pore_diameter".toList "workspace/x.cif".toList
      ["-res".toList, "output.res".toList] savedKey 5).map Prod.snd).getD savedServer

end Example

namespace Cache

/-- Every key stored in a shard is stored in the shard `getShard` selects
for it. -/
def keysInPlace (h : Hash) (c : Cache) : Prop :=
  ∀ (i : Nat) (items : GoMap cacheItem), c.shards[i]? = some items →
    ∀ k ∈ items.keys, c.getShard h k = some i

/-- The number of entries stored for the key `k`, over all shards. -/
def countKey (c : Cache) (k : Str) : Nat :=
  (c.shards.map (fun items => items.keys.countP (fun k1 => decide (k1 = k)))).sum

/-- The number of entries stored, over all shards. -/
def totalEntries (c : Cache) : Int :=
  (c.shards.map (fun items => (items.len : Int))).sum

/-- The sum of the hit counters of the entries stored, over all shards. -/
def totalHits (c : Cache) : Int :=
  (c.shards.map (fun items => (items.entries.map (fun e => e.2.HitCount)).sum)).sum

end Cache

/-! ## The sweep of the rate limiter (`RateLimiter.Cleanup`) -/

/-- The loop `for ip := range rl.limiters` of one tick of `Cleanup`, over
the addresses in the order the runtime visits them: the first address
visited while the map has more than 1000 entries is deleted and the loop
is left (`break`). -/
def RateLimiter.cleanupLoop (m : GoMap Limiter) : List Str → GoMap Limiter
  | [] => m
  | ip :: rest => if m.len > 1000 then m.delete ip else cleanupLoop m rest

/-- The body of `for range ticker.C` in `Cleanup`: one pass of the sweep,
made under the lock.  `order` is the order in which `range` visits the
keys of the map. -/
def RateLimiter.cleanupTick (rl : RateLimiter) (order : List Str) : RateLimiter :=
  { rl with limiters := RateLimiter.cleanupLoop rl.limiters order }

/-- `Cleanup`, up to the given number of ticks of its ticker.  `order` is
the order in which the runtime visits the keys of a map. -/
def RateLimiter.Cleanup (order : GoMap Limiter → List Str) : Nat → RateLimiter → RateLimiter
  | 0, rl => rl
  | ticks + 1, rl => RateLimiter.Cleanup order ticks (rl.cleanupTick (order rl.limiters))

namespace Example

/-- The address of the client number `i`. -/
def client (i : Nat) : Str := List.replicate (i + 1) 'x'

/-- A limiter map that tracks `n` clients. -/
def crowd (n : Nat) : GoMap Limiter :=
  ⟨(List.range n).map (fun i => (client i, NewLimiter 10 20)), by
    rw [List.map_map]
    refine (List.nodup_range n).map (fun i j hij => ?_)
    have hlen := congrArg List.length hij
    simpa [client] using hlen⟩

/-- A rate limiter that tracks 1002 clients. -/
def crowded : RateLimiter := ⟨crowd 1002, 10, 20⟩

end Example

/-! ## The worker pool (`internal/core/pool/worker.go`) -/

namespace pool

/-- `Task`.  `Func` is given by what a call of it returns: `none` for
`nil`, `some msg` for an error. -/
structure Task where
  ID : Str
  Func : Option Str
  Priority : Int
deriving DecidableEq

/-- Where a goroutine running `worker()` stands. -/
inductive Worker where
  /-- at the `select` of the loop -/
  | selecting
  /-- inside `task.Func()`, after the counter was raised -/
  | running (task : Task)
  /-- left `worker()`; the deferred `wg.Done()` has run -/
  | returned
deriving DecidableEq

/-- Whether the goroutine is still inside `worker()`. -/
def Worker.alive : Worker → Bool
  | .returned => false
  | _ => true

/-- How far the call of `Stop` has come. -/
inductive StopPhase where
  | notCalled
  /-- after `wp.cancel()` -/
  | cancelled
  /-- after `close(wp.taskQueue)` -/
  | closed
  /-- after `wp.wg.Wait()` -/
  | returned
deriving DecidableEq

/-- The case a `select` takes. -/
inductive SelectCase where
  /-- the communication on `wp.taskQueue` -/
  | queue
  /-- the receive from `wp.ctx.Done()` -/
  | done
deriving DecidableEq

/-- What a call of `Submit` does. -/
inductive SubmitResult where
  /-- returns `nil` -/
  | nil
  /-- returns `context.Canceled` -/
  | Canceled
  /-- panics: send on a closed channel -/
  | panics
deriving DecidableEq

/-- `WorkerPool`.  The channel `taskQueue` is its capacity, its buffered
tasks and whether it is closed; the context is whether it is cancelled;
the wait group is its counter.  `goroutines` are the goroutines started
by `Start`, and `executed` lists the tasks whose `Func` has returned. -/
structure WorkerPool where
  workers : Int
  capacity : Int
  taskQueue : List Task
  closed : Bool
  ctxDone : Bool
  wg : Int
  activeWorkers : Int
  goroutines : List Worker
  executed : List Task
  stop : StopPhase
deriving DecidableEq

/-- `NewWorkerPool`; `numCPU` is `runtime.NumCPU()`. -/
def NewWorkerPool (numCPU workers : Int) : WorkerPool :=
  let workers := if workers ≤ 0 then numCPU else workers
  { workers := workers, capacity := workers * 2, taskQueue := [], closed := false,
    ctxDone := false, wg := 0, activeWorkers := 0, goroutines := [], executed := [],
    stop := .notCalled }

/-- `Start`: `wg.Add(1)` and `go wp.worker()`, `wp.workers` times. -/
def WorkerPool.Start (wp : WorkerPool) : WorkerPool :=
  { wp with
    wg := wp.wg + wp.workers.toNat,
    goroutines := wp.goroutines ++ List.replicate wp.workers.toNat Worker.selecting }

/-- `Submit`, with the case its `select` takes; `none` when that case
cannot proceed.  The send proceeds when the buffer has room, and panics
on a closed channel; the other case proceeds once the context is
cancelled. -/
def WorkerPool.Submit (wp : WorkerPool) (task : Task) :
    SelectCase → Option (SubmitResult × WorkerPool)
  | .queue =>
    if wp.closed then some (.panics, wp)
    else if (wp.taskQueue.length : Int) < wp.capacity then
      some (.nil, { wp with taskQueue := wp.taskQueue ++ [task] })
    else none
  | .done => if wp.ctxDone then some (.Canceled, wp) else none

/-- One step of the goroutine number `w` running `worker()`; `none` when
it cannot move.  At the `select`, the receive takes the first buffered
task (`ok` true) and raises the counter, or finds the channel closed and
drained (`ok` false) and returns; the other case returns once the context
is cancelled.  Inside a task, `task.Func()` returns, its error is dropped
and the counter is lowered. -/
def WorkerPool.worker (wp : WorkerPool) (w : Nat) (c : SelectCase) : Option WorkerPool :=
  match wp.goroutines[w]? with
  | some .selecting =>
    match c with
    | .queue =>
      match wp.taskQueue with
      | task :: rest =>
        some { wp with
          taskQueue := rest,
          activeWorkers := wp.activeWorkers + 1,
          goroutines := wp.goroutines.set w (.running task) }
      | [] =>
        if wp.closed then
          some { wp with goroutines := wp.goroutines.set w .returned, wg := wp.wg - 1 }
        else none
    | .done =>
      if wp.ctxDone then
        some { wp with goroutines := wp.goroutines.set w .returned, wg := wp.wg - 1 }
      else none
  | some (.running task) =>
    some { wp with
      activeWorkers := wp.activeWorkers - 1,
      goroutines := wp.goroutines.set w .selecting,
      executed := wp.executed ++ [task] }
  | _ => none

/-- The next statement of the call of `Stop`: `wp.cancel()`, then
`close(wp.taskQueue)`, then `wp.wg.Wait()`, which returns when the
counter is zero.  `none` when the call cannot move (it waits, it has
returned, or the channel is closed already). -/
def WorkerPool.Stop (wp : WorkerPool) : Option WorkerPool :=
  match wp.stop with
  | .notCalled => some { wp with ctxDone := true, stop := .cancelled }
  | .cancelled => if wp.closed then none else some { wp with closed := true, stop := .closed }
  | .closed => if wp.wg = 0 then some { wp with stop := .returned } else none
  | .returned => none

/-- `AvailableWorkers`. -/
def WorkerPool.AvailableWorkers (wp : WorkerPool) : Int := wp.workers - wp.activeWorkers

/-- `QueueSize`. -/
def WorkerPool.QueueSize (wp : WorkerPool) : Int := wp.taskQueue.length

/-- A step of the program around the pool. -/
inductive Event where
  /-- a call of `Start` -/
  | Start
  /-- a call of `Submit` that returns, by the given case of its `select` -/
  | Submit (task : Task) (c : SelectCase)
  /-- a step of a worker goroutine -/
  | worker (w : Nat) (c : SelectCase)
  /-- the next statement of the call of `Stop` -/
  | Stop
deriving DecidableEq

/-- One step of the pool; `none` when the step cannot be made (a `Submit`
that panics ends the program). -/
def WorkerPool.step (wp : WorkerPool) : Event → Option WorkerPool
  | .Start => some wp.Start
  | .Submit task c =>
    match wp.Submit task c with
    | some (.panics, _) => none
    | some (_, wp1) => some wp1
    | none => none
  | .worker w c => wp.worker w c
  | .Stop => wp.Stop

/-- A schedule: the steps in the order they are made. -/
def WorkerPool.run (wp : WorkerPool) : List Event → Option WorkerPool
  | [] => some wp
  | e :: es => (wp.step e).bind (fun wp1 => WorkerPool.run wp1 es)

/-- The tasks a schedule enqueues before `Stop` is called: those of its
calls of `Submit` that return `nil`, up to the first statement of
`Stop`. -/
def enqueuedBeforeStop (wp : WorkerPool) : List Event → List Task
  | [] => []
  | .Stop :: _ => []
  | .Submit task c :: es =>
    match wp.Submit task c with
    | some (.nil, wp1) => task :: enqueuedBeforeStop wp1 es
    | some (_, wp1) => enqueuedBeforeStop wp1 es
    | none => []
  | e :: es =>
    match wp.step e with
    | some wp1 => enqueuedBeforeStop wp1 es
    | none => []

end pool

namespace Example

def task1 : pool.Task := ⟨"t1".toList, none, 0⟩

def task2 : pool.Task := ⟨"t2".toList, none, 0⟩

/-- A pool of one worker is started, two tasks are enqueued, `Stop` is
called; the worker takes the case of the cancelled context; `Stop`
returns. -/
def stopSchedule : List pool.Event :=
  [.Start, .Submit task1 .queue, .Submit task2 .queue, .Stop, .Stop, .worker 0 .done, .Stop]

end Example

/-! ## Third part: submission to the pool, argument construction, the
configuration and the parser of the tool's output -/

namespace pool

/-- The error of a context that has ended: `context.Canceled` or
`context.DeadlineExceeded`. -/
inductive ContextError where
  | Canceled
  | DeadlineExceeded
deriving DecidableEq

/-- The case the `select` of `SubmitWithContext` takes. -/
inductive SubmitCase where
  /-- the send on `wp.taskQueue` -/
  | queue
  /-- the receive from `ctx.Done()`, the context of the caller -/
  | ctx
  /-- the receive from `wp.ctx.Done()` -/
  | done
deriving DecidableEq

/-- What a call of `SubmitWithContext` does. -/
inductive SubmitCtxResult where
  /-- returns `nil` -/
  | nil
  /-- returns the error -/
  | err (e : ContextError)
  /-- panics: send on a closed channel -/
  | panics
deriving DecidableEq

/-- `SubmitWithContext`, with the case its `select` takes; `none` when that
case cannot proceed.  `ctxErr` is `ctx.Err()` of the caller's context:
`none` while that context has not ended. -/
def WorkerPool.SubmitWithContext (wp : WorkerPool) (ctxErr : Option ContextError)
    (task : Task) : SubmitCase → Option (SubmitCtxResult × WorkerPool)
  | .queue =>
    if wp.closed then some (.panics, wp)
    else if (wp.taskQueue.length : Int) < wp.capacity then
      some (.nil, { wp with taskQueue := wp.taskQueue ++ [task] })
    else none
  | .ctx =>
    match ctxErr with
    | some e => some (.err e, wp)
    | none => none
  | .done => if wp.ctxDone then some (.err .Canceled, wp) else none

/-- The pool without the record of the tasks that have run: what the
fields of `WorkerPool` hold. -/
def WorkerPool.fields (wp : WorkerPool) : WorkerPool := { wp with executed := [] }

end pool

namespace Example

/-- A pool of one worker is started and stopped: the worker leaves at the
cancelled context and `Stop` returns. -/
def shutdownSchedule : List pool.Event := [.Start, .Stop, .Stop, .worker 0 .done, .Stop]

/-- The pool after `Stop` has returned. -/
def stoppedPool : pool.WorkerPool :=
  { workers := 1, capacity := 2, taskQueue := [], closed := true, ctxDone := true, wg := 0,
    activeWorkers := 0, goroutines := [.returned], executed := [], stop := .returned }

/-- A task whose `Func` returns an error. -/
def failingTask : pool.Task := ⟨"t1".toList, some "boom".toList, 0⟩

/-- A started pool of one worker in which the task is enqueued, received
and run to its end. -/
def taskSchedule (task : pool.Task) : List pool.Event :=
  [.Start, .Submit task .queue, .worker 0 .queue, .worker 0 .queue]

end Example

/-! ## Argument construction (`runner.BuildZeoArgs`) -/

/-- A `float64`: a finite value, an infinity or NaN.  A finite `float64` is
a rational number; the sign of zero is not kept. -/
inductive Float64 where
  | finite (q : ℚ)
  | inf (negative : Bool)
  | NaN
deriving DecidableEq

namespace Float64

/-- The comparison `x < y` of Go on `float64`: false when an operand is
NaN. -/
def lt : Float64 → Float64 → Bool
  | finite a, finite b => decide (a < b)
  | finite _, inf negative => !negative
  | inf negative, finite _ => negative
  | inf a, inf b => a && !b
  | _, _ => false

/-- The conversion `int(x)`: the fraction is discarded.  For a value that
does not fit (NaN, an infinity, a magnitude of 2^63 or more) Go leaves the
result to the implementation; the least `int`, which amd64 gives, is
taken. -/
def toInt : Float64 → Int
  | finite q =>
    let t := Int.tdiv q.num q.den
    if -9223372036854775808 ≤ t ∧ t < 9223372036854775808 then t else -9223372036854775808
  | _ => -9223372036854775808

end Float64

namespace fmt

/-- `fmt.Sprintf("%d", n)`. -/
def d (n : Int) : Str :=
  if n < 0 then '-' :: (Nat.repr n.natAbs).toList else (Nat.repr n.natAbs).toList

/-- The nearest integer to `num / den`, ties to the even one. -/
def roundHalfEven (num den : Nat) : Nat :=
  let fl := num / den
  let twice := 2 * (num % den)
  if twice < den then fl
  else if den < twice then fl + 1
  else if fl % 2 = 0 then fl else fl + 1

/-- `fmt.Sprintf("%.2f", x)`: two decimals, correctly rounded. -/
def f2 : Float64 → Str
  | .NaN => "NaN".toList
  | .inf false => "+Inf".toList
  | .inf true => "-Inf".toList
  | .finite q =>
    let hundredths := roundHalfEven (q.num.natAbs * 100) q.den
    let cents := hundredths % 100
    (if q < 0 then ['-'] else []) ++ (Nat.repr (hundredths / 100)).toList ++ '.' ::
      (if cents < 10 then '0' :: (Nat.repr cents).toList else (Nat.repr cents).toList)

end fmt

/-- A value held in a `map[string]interface{}`, by its dynamic type;
`other` is a value of any type the code does not assert. -/
inductive Value where
  | bool (b : Bool)
  | float64 (x : Float64)
  | float32 (x : Float64)
  | int (n : Int)
  | other
deriving DecidableEq

/-- `validateFloatParam`: the error, if any. -/
def validateFloatParam (value min max : Float64) (name : Str) : Option Str :=
  if value.lt min || max.lt value then
    some (name ++ " must be between ".toList ++ fmt.f2 min ++ " and ".toList ++ fmt.f2 max)
  else none

/-- `validateIntParam`: the error, if any. -/
def validateIntParam (value min max : Int) (name : Str) : Option Str :=
  if value < min ∨ value > max then
    some (name ++ " must be between ".toList ++ fmt.d min ++ " and ".toList ++ fmt.d max)
  else none

/-- `getFloatParam`. -/
def getFloatParam (params : GoMap Value) (key : Str) (defaultValue : Float64) : Float64 :=
  match params.get key with
  | some (.float64 val) => val
  | some (.float32 val) => val
  | _ => defaultValue

/-- `getIntParam`. -/
def getIntParam (params : GoMap Value) (key : Str) (defaultValue : Int) : Int :=
  match params.get key with
  | some (.int val) => val
  | some (.float64 val) => val.toInt
  | _ => defaultValue

/-- `BuildZeoArgs`: the arguments, or the error. -/
def BuildZeoArgs (analysisType : Str) (params : GoMap Value) : Except Str (List Str) :=
  let args : List Str :=
    match params.get "ha".toList with
    | some (.bool true) => ["-ha".toList]
    | _ => []
  if analysisType = "pore_diameter".toList then
    .ok (args ++ ["-res".toList, "output.res".toList])
  else if analysisType = "surface_area".toList then
    let probeRadius := getFloatParam params "probe_radius".toList (.finite (121 / 100))
    match validateFloatParam probeRadius (.finite (1 / 10)) (.finite 10)
      "probe_radius".toList with
    | some err => .error err
    | none =>
      let samples := getIntParam params "samples".toList 2000
      match validateIntParam samples 100 1000000 "samples".toList with
      | some err => .error err
      | none =>
        .ok (args ++ ["-sa".toList, fmt.f2 probeRadius, fmt.d samples, "output.sa".toList])
  else if analysisType = "accessible_volume".toList then
    let probeRadius := getFloatParam params "probe_radius".toList (.finite (121 / 100))
    match validateFloatParam probeRadius (.finite (1 / 10)) (.finite 10)
      "probe_radius".toList with
    | some err => .error err
    | none =>
      let chanRadius := getFloatParam params "chan_radius".toList (.finite (121 / 100))
      match validateFloatParam chanRadius (.finite (1 / 10)) (.finite 10)
        "chan_radius".toList with
      | some err => .error err
      | none =>
        let samples := getIntParam params "samples".toList 2000
        match validateIntParam samples 100 1000000 "samples".toList with
        | some err => .error err
        | none =>
          .ok (args ++ ["-vol".toList, fmt.f2 probeRadius, fmt.f2 chanRadius, fmt.d samples,
            "output.vol".toList])
  else if analysisType = "probe_volume".toList then
    let probeRadius := getFloatParam params "probe_radius".toList (.finite (121 / 100))
    match validateFloatParam probeRadius (.finite (1 / 10)) (.finite 10)
      "probe_radius".toList with
    | some err => .error err
    | none =>
      let chanRadius := getFloatParam params "chan_radius".toList (.finite (121 / 100))
      match validateFloatParam chanRadius (.finite (1 / 10)) (.finite 10)
        "chan_radius".toList with
      | some err => .error err
      | none =>
        let samples := getIntParam params "samples".toList 2000
        match validateIntParam samples 100 1000000 "samples".toList with
        | some err => .error err
        | none =>
          .ok (args ++ ["-volpo".toList, fmt.f2 probeRadius, fmt.f2 chanRadius, fmt.d samples,
            "output.volpo".toList])
  else if analysisType = "channel_analysis".toList then
    let probeRadius := getFloatParam params "probe_radius".toList (.finite (121 / 100))
    match validateFloatParam probeRadius (.finite (1 / 10)) (.finite 10)
      "probe_radius".toList with
    | some err => .error err
    | none => .ok (args ++ ["-chan".toList, fmt.f2 probeRadius, "output.chan".toList])
  else if analysisType = "framework_info".toList then
    .ok (args ++ ["-strinfo".toList, "output.strinfo".toList])
  else if analysisType = "pore_size_dist".toList then
    let probeRadius := getFloatParam params "probe_radius".toList (.finite (121 / 100))
    match validateFloatParam probeRadius (.finite (1 / 10)) (.finite 10)
      "probe_radius".toList with
    | some err => .error err
    | none =>
      let chanRadius := getFloatParam params "chan_radius".toList probeRadius
      match validateFloatParam chanRadius (.finite (1 / 10)) (.finite 10)
        "chan_radius".toList with
      | some err => .error err
      | none =>
        let samples := getIntParam params "samples".toList 50000
        match validateIntParam samples 1000 1000000 "samples".toList with
        | some err => .error err
        | none =>
          .ok (args ++ ["-psd".toList, fmt.f2 probeRadius, fmt.f2 chanRadius, "100".toList,
            fmt.d samples, "output.psd".toList])
  else if analysisType = "blocking_spheres".toList then
    let probeRadius := getFloatParam params "probe_radius".toList (.finite (186 / 100))
    match validateFloatParam probeRadius (.finite (1 / 10)) (.finite 10)
      "probe_radius".toList with
    | some err => .error err
    | none => .ok (args ++ ["-block".toList, fmt.f2 probeRadius, "output.block".toList])
  else if analysisType = "open_metal_sites".toList then
    .ok (args ++ ["-oms".toList, "output.oms".toList])
  else .error ("unsupported analysis type: ".toList ++ analysisType)

/-- The nine analysis types of the `switch` in `BuildZeoArgs`. -/
def analysisTypes : List Str :=
  ["pore_diameter".toList, "surface_area".toList, "accessible_volume".toList,
    "probe_volume".toList, "channel_analysis".toList, "framework_info".toList,
    "pore_size_dist".toList, "blocking_spheres".toList, "open_metal_sites".toList]

namespace Example

/-- The form field `probe_radius=NaN`, as `strconv.ParseFloat` reads it. -/
def nanParams : GoMap Value := GoMap.empty.set "probe_radius".toList (.float64 .NaN)

/-- The parameters `ha = true`, `samples = 5000` (an `int`). -/
def haParams : GoMap Value :=
  (GoMap.empty.set "ha".toList (.bool true)).set "samples".toList (.int 5000)

end Example

/-! ## The configuration (`internal/config`) -/

namespace config

/-- `ServerConfig`; durations in nanoseconds. -/
structure ServerConfig where
  Port : Str
  Host : Str
  ReadTimeout : Int
  WriteTimeout : Int
  MaxMultipartMemory : Int

/-- `ConcurrencyConfig`. -/
structure ConcurrencyConfig where
  MaxWorkers : Int
  MaxQueueSize : Int
  RateLimitPerIP : Int
  MaxFileSize : Int
  MaxConcurrentUploads : Int

/-- `LoggingConfig`. -/
structure LoggingConfig where
  Level : Str
  Format : Str
  Output : Str

/-- `Config`. -/
structure Config where
  Server : ServerConfig
  Zeo : ZeoConfig
  Concurrency : ConcurrencyConfig
  Cache : CacheConfig
  Logging : LoggingConfig

/-- `LoadConfig`; `none` is the return with an error.  `Unmarshal` is
`yaml.Unmarshal` into a zero `Config` and `numCPU` is
`runtime.NumCPU()`. -/
def LoadConfig (Unmarshal : Str → Option Config) (numCPU : Int) (s : Sys) (path : Str) :
    Option Config :=
  match s.ReadFile path with
  | none => none
  | some data =>
    match Unmarshal data with
    | none => none
    | some cfg =>
      let cfg :=
        if cfg.Concurrency.MaxWorkers ≤ 0 then
          { cfg with Concurrency := { cfg.Concurrency with MaxWorkers := numCPU } }
        else cfg
      let cfg :=
        if cfg.Cache.Shards ≤ 0 then { cfg with Cache := { cfg.Cache with Shards := 32 } }
        else cfg
      let cfg :=
        if cfg.Cache.TTL < 0 then
          { cfg with Cache := { cfg.Cache with TTL := 3600 * 1000000000 } }
        else cfg
      some cfg

/-- `LoadDefaultConfig`. -/
def LoadDefaultConfig (numCPU : Int) : Config :=
  { Server :=
      { Port := "8080".toList, Host := "0.0.0.0".toList, ReadTimeout := 30 * 1000000000,
        WriteTimeout := 30 * 1000000000, MaxMultipartMemory := 32 * 2 ^ 20 },
    Zeo :=
      { ExecutablePath := "network".toList, Workdir := "./workspace".toList,
        Timeout := 5 * 60 * 1000000000 },
    Concurrency :=
      { MaxWorkers := numCPU, MaxQueueSize := 1000, RateLimitPerIP := 10,
        MaxFileSize := 100 * 2 ^ 20, MaxConcurrentUploads := 50 },
    Cache := { Enabled := true, TTL := 3600 * 1000000000, MaxSizeMB := 1024, Shards := 32 },
    Logging := { Level := "info".toList, Format := "json".toList, Output := "stdout".toList } }

/-- The configuration `main` uses: that of the file, and the default one
when loading the file fails. -/
def mainConfig (Unmarshal : Str → Option Config) (numCPU : Int) (s : Sys) : Config :=
  match LoadConfig Unmarshal numCPU s "config/config.yaml".toList with
  | some cfg => cfg
  | none => LoadDefaultConfig numCPU

end config

/-! ## The parser of the tool's output (`internal/core/parser`) -/

namespace unicode

/-- The white space of `unicode.IsSpace` at the head of a byte string: the
number of bytes of the UTF-8 encoding of the white space character the
string starts with, and 0 when it starts with none.  The characters are
U+0009 to U+000D, U+0020, U+0085, U+00A0, U+1680, U+2000 to U+200A, U+2028,
U+2029, U+202F, U+205F and U+3000. -/
def spaceWidth : Str → Nat
  | [] => 0
  | b0 :: rest =>
    if (9 ≤ b0.toNat ∧ b0.toNat ≤ 13) ∨ b0.toNat = 32 then 1
    else
      match rest with
      | [] => 0
      | b1 :: rest1 =>
        if b0.toNat = 0xC2 ∧ (b1.toNat = 0x85 ∨ b1.toNat = 0xA0) then 2
        else
          match rest1 with
          | [] => 0
          | b2 :: _ =>
            if (b0.toNat = 0xE1 ∧ b1.toNat = 0x9A ∧ b2.toNat = 0x80) ∨
                (b0.toNat = 0xE2 ∧ b1.toNat = 0x80 ∧
                  ((0x80 ≤ b2.toNat ∧ b2.toNat ≤ 0x8A) ∨ b2.toNat = 0xA8 ∨ b2.toNat = 0xA9 ∨
                    b2.toNat = 0xAF)) ∨
                (b0.toNat = 0xE2 ∧ b1.toNat = 0x81 ∧ b2.toNat = 0x9F) ∨
                (b0.toNat = 0xE3 ∧ b1.toNat = 0x80 ∧ b2.toNat = 0x80) then 3
            else 0

/-- The same at the end of a byte string, which is given last byte
first. -/
def spaceWidthLast : Str → Nat
  | [] => 0
  | b0 :: rest =>
    if (9 ≤ b0.toNat ∧ b0.toNat ≤ 13) ∨ b0.toNat = 32 then 1
    else
      match rest with
      | [] => 0
      | b1 :: rest1 => if spaceWidth [b1, b0] = 2 then 2
        else
          match rest1 with
          | [] => 0
          | b2 :: _ => if spaceWidth [b2, b1, b0] = 3 then 3 else 0

end unicode

namespace strings

/-- The bytes left when the white space characters at the head are
dropped; `skip` bytes of a white space character are still to be
dropped. -/
def dropSpace : Nat → Str → Str
  | _, [] => []
  | skip + 1, _ :: cs => dropSpace skip cs
  | 0, c :: cs =>
    match unicode.spaceWidth (c :: cs) with
    | 0 => c :: cs
    | w + 1 => dropSpace w cs

/-- The same from the end, on the bytes last byte first. -/
def dropSpaceLast : Nat → Str → Str
  | _, [] => []
  | skip + 1, _ :: cs => dropSpaceLast skip cs
  | 0, c :: cs =>
    match unicode.spaceWidthLast (c :: cs) with
    | 0 => c :: cs
    | w + 1 => dropSpaceLast w cs

/-- `strings.TrimSpace`: the white space characters at both ends are
removed. -/
def TrimSpace (s : Str) : Str :=
  (dropSpaceLast 0 (dropSpace 0 s).reverse).reverse

/-- `strings.Split(s, sep)` for a separator of one character: the pieces
between the separators. -/
def Split (sep : Char) : Str → List Str
  | [] => [[]]
  | c :: cs =>
    if c = sep then [] :: Split sep cs
    else
      match Split sep cs with
      | [] => [[c]]
      | x :: xs => (c :: x) :: xs

/-- The loop of `strings.Fields`: `cur` holds the field being read, its
bytes in reverse; `skip` bytes of a white space character are still to be
passed over. -/
def fieldsFrom : Nat → Str → Str → List Str
  | _, cur, [] => if cur = [] then [] else [cur.reverse]
  | skip + 1, cur, _ :: cs => fieldsFrom skip cur cs
  | 0, cur, c :: cs =>
    match unicode.spaceWidth (c :: cs) with
    | 0 => fieldsFrom 0 (c :: cur) cs
    | w + 1 => if cur = [] then fieldsFrom w [] cs else cur.reverse :: fieldsFrom w [] cs

/-- `strings.Fields`: the maximal runs of bytes between white space
characters. -/
def Fields (s : Str) : List Str := fieldsFrom 0 [] s

end strings

namespace parser

/-- `PoreDiameterResult`. -/
structure PoreDiameterResult where
  IncludedDiameter : Float64
  FreeDiameter : Float64
  IncludedAlongFree : Float64
deriving DecidableEq

/-- The text `%v` prints for the error of a conversion: `<nil>` when there
is none. -/
def errText : Except Str Float64 → Str
  | .ok _ => "<nil>".toList
  | .error e => e

/-- `ParsePoreDiameter`; the outer `none` is an index out of range.
`ParseFloat` is `strconv.ParseFloat(s, 64)`, with the text of its error. -/
def ParsePoreDiameter (ParseFloat : Str → Except Str Float64) (data : Str) :
    Option (Except Str PoreDiameterResult) :=
  let lines := strings.Split '\n' (strings.TrimSpace data)
  if lines.length = 0 then some (.error "empty output".toList)
  else
    match lines[lines.length - 1]? with
    | none => none
    | some last =>
      let parts := strings.Fields last
      if parts.length < 3 then
        some (.error ("invalid format: expected 3 values, got ".toList ++ fmt.d parts.length))
      else
        match parts[0]?, parts[1]?, parts[2]? with
        | some p0, some p1, some p2 =>
          match ParseFloat p0, ParseFloat p1, ParseFloat p2 with
          | .ok included, .ok free, .ok includedAlong =>
            some (.ok ⟨included, free, includedAlong⟩)
          | r1, r2, r3 =>
            some (.error ("failed to parse values: ".toList ++ errText r1 ++ ", ".toList ++
              errText r2 ++ ", ".toList ++ errText r3))
        | _, _, _ => none

end parser

namespace Example

/-- A reader of decimal numbers that knows the three values of the sample
output. -/
def sampleParseFloat : Str → Except Str Float64 := fun s =>
  if s = "4.5".toList then .ok (.finite (9 / 2))
  else if s = "3.25".toList then .ok (.finite (13 / 4))
  else if s = "4".toList then .ok (.finite 4)
  else .error "invalid syntax".toList

end Example

/-! ## Fourth part: calls that run at the same time, and slices -/

/-- A call of `Cache.Get` in progress: it has yet to read the map, it holds
the copy `item` it read, or it has returned (`none` for `nil, false`). -/
inductive GetCall where
  | start
  | found (item : cacheItem)
  | returned (data : Option (GoMap Str))

/-- One step of a call `Get(key)` at time `now` that holds the read lock of
its shard: first the lookup `item, exists := shard.items[key]`; then the
rest of the body, on the copy that was read: the expiry test with the
`delete`, or the increment and the store `shard.items[key] = item`.  The
outer `none`: a panic, or a call that has returned. -/
def Cache.getStep (h : Hash) (c : Cache) (key : Str) (now : Int) :
    GetCall → Option (GetCall × Cache)
  | .start =>
    match c.getShard h key with
    | none => none
    | some i =>
      match (c.shards.getD i GoMap.empty).get key with
      | none => some (.returned none, c)
      | some item => some (.found item, c)
  | .found item =>
    match c.getShard h key with
    | none => none
    | some i =>
      let items := c.shards.getD i GoMap.empty
      if c.expired item now then
        some (.returned none, { c with shards := c.shards.set i (items.delete key) })
      else
        let item1 := { item with HitCount := int64 (item.HitCount + 1) }
        some (.returned (some item1.Data),
          { c with shards := c.shards.set i (items.set key item1) })
  | .returned _ => none

/-- Calls of `Get(key)` at time `now` that run at the same time, each under
the read lock of the shard, which admits any number of holders: the calls
move in the order of the schedule, one step at a time. -/
def Cache.getCalls (h : Hash) (key : Str) (now : Int) :
    Cache × List GetCall → List Nat → Option (Cache × List GetCall)
  | st, [] => some st
  | (c, calls), g :: schedule =>
    match calls[g]? with
    | none => none
    | some call =>
      match c.getStep h key now call with
      | none => none
      | some (call1, c1) => Cache.getCalls h key now (c1, calls.set g call1) schedule

/-- The data the calls have returned; `none` for a call still running. -/
def GetCall.result : GetCall → Option (Option (GoMap Str))
  | .returned data => some data
  | _ => none

/-- The rate limiter with its limiters as the objects they are: the map
holds the addresses of the `*rate.Limiter` values, `objects` the limiters
allocated so far. -/
structure SharedLimiters where
  limiters : GoMap Nat
  objects : List Limiter
  rate : ℚ
  burst : Int

/-- Where the goroutine of a request stands in the handler of `RateLimit`:
before the lookup of `getLimiter`; after a lookup that found no limiter,
the read lock released; with the limiter `getLimiter` returned; after
`limiter.Allow()`. -/
inductive RateLimitCall where
  | start
  | missing
  | holding (limiter : Nat)
  | answered (allowed : Bool)
deriving DecidableEq

/-- One step of the goroutine of a request of client `ip` at time `now`:
the lookup under `RLock`; the creation under `Lock`, which does not look
the address up again; the call of `Allow` on the limiter held. -/
def SharedLimiters.step (sl : SharedLimiters) (ip : Str) (now : Int) :
    RateLimitCall → RateLimitCall × SharedLimiters
  | .start =>
    match sl.limiters.get ip with
    | some limiter => (.holding limiter, sl)
    | none => (.missing, sl)
  | .missing =>
    (.holding sl.objects.length,
      { sl with
        objects := sl.objects ++ [NewLimiter sl.rate sl.burst],
        limiters := sl.limiters.set ip sl.objects.length })
  | .holding limiter =>
    match sl.objects[limiter]? with
    | some l =>
      (.answered (l.Allow now).1, { sl with objects := sl.objects.set limiter (l.Allow now).2 })
    | none => (.answered false, sl)
  | .answered allowed => (.answered allowed, sl)

/-- Requests of client `ip` that arrive at the instant `now` and are served
at the same time: their goroutines move in the order of the schedule, one
step at a time. -/
def SharedLimiters.run (ip : Str) (now : Int) :
    SharedLimiters × List RateLimitCall → List Nat → SharedLimiters × List RateLimitCall
  | st, [] => st
  | (sl, calls), g :: schedule =>
    match calls[g]? with
    | none => SharedLimiters.run ip now (sl, calls) schedule
    | some call =>
      SharedLimiters.run ip now ((sl.step ip now call).2, calls.set g (sl.step ip now call).1)
        schedule

/-- `NewRateLimiter`, with the limiters as objects. -/
def NewSharedLimiters (r : ℚ) (burst : Int) : SharedLimiters := ⟨GoMap.empty, [], r, burst⟩

/-- The arrays of strings allocated so far, by address. -/
abbrev Arrays := List (List Str)

/-- A slice of strings: the address of its backing array, the offset of its
first element in that array, its length and its capacity. -/
structure Slice where
  array : Nat
  off : Nat
  len : Nat
  cap : Nat
deriving DecidableEq

/-- The elements of a slice. -/
def Slice.elems (mem : Arrays) (s : Slice) : List Str :=
  ((mem.getD s.array []).drop s.off).take s.len

/-- The builtin `append(s, xs...)`: the slice it returns and the arrays
after it.  Nothing appended leaves `s`.  With room in the capacity of `s`
the values are written into the backing array of `s`, behind its last
element.  Otherwise a new array is allocated, of the length needed or of
the larger capacity `grow` that the runtime chooses, and the elements of
`s` and the values are copied to it. -/
def goAppend (grow : Nat → Nat) (mem : Arrays) (s : Slice) (xs : List Str) : Slice × Arrays :=
  if xs = [] then (s, mem)
  else if s.len + xs.length ≤ s.cap then
    let arr := mem.getD s.array []
    ({ s with len := s.len + xs.length },
      mem.set s.array
        (arr.take (s.off + s.len) ++ xs ++ arr.drop (s.off + s.len + xs.length)))
  else
    let needed := s.len + xs.length
    (⟨mem.length, 0, needed, max needed (grow needed)⟩,
      mem ++ [s.elems mem ++ xs ++ List.replicate (max needed (grow needed) - needed) []])

/-- The slice `[]string{}`: no element and no capacity. -/
def emptySlice : Slice := ⟨0, 0, 0, 0⟩

/-- The argument vector of `RunCommand`, as it is built from the caller's
slice: `fullArgs := append([]string{}, args...)`, then
`fullArgs = append(fullArgs, workspaceFile)`. -/
def fullArgs (grow : Nat → Nat) (mem : Arrays) (args : Slice) (workspaceFile : Str) :
    Slice × Arrays :=
  let copied := goAppend grow mem emptySlice (args.elems mem)
  goAppend grow copied.2 copied.1 [workspaceFile]

namespace Example

/-- A tool that prints what it is asked to run: the path, the working
directory and the arguments, one per line. -/
def echoTool : Tool := fun inv s =>
  ⟨s.files, (inv.path :: inv.dir :: inv.args).flatMap (fun a => a ++ ['\n']), none⟩

/-- The caller's arguments as a slice of length 2 and capacity 3 of the
only array allocated. -/
def callerArgs : Slice := ⟨0, 0, 2, 3⟩

/-- The array behind `callerArgs`: two arguments and a third string, which
the caller's slice does not show. -/
def callerArrays : Arrays := [["-res".toList, "output.res".toList, "kept".toList]]

/-- Two requests of one client that has no limiter yet, each lookup made
before either limiter is created. -/
def racingSchedule : List Nat := [0, 1, 0, 1, 0, 1]

/-- Two calls of `Get` on one key, each lookup made before either call
stores the entry. -/
def racingGets : List Nat := [0, 1, 0, 1]

end Example

/-! ## The execution engine -/

/-- C1, at a failing input.  With workdir `/e` the expected output name
`../../etc/passwd` resolves to `/etc/passwd`, which has the workdir path as
a string prefix although it lies outside the workdir: `RunCommand` returns
the content of `/etc/passwd` under that name and removes the file. -/
theorem RunCommand_collects_path_outside_workdir :
    filepath.Abs Example.machine
        (filepath.Clean (filepath.Join Example.shortWorkdir.Workdir "../../etc/passwd".toList))
      = some "/etc/passwd".toList ∧
    filepath.Abs Example.machine (filepath.Clean Example.shortWorkdir.Workdir)
      = some "/e".toList ∧
    (RunCommand Example.shortWorkdir Example.idleTool Example.machine "/up/a.cif".toList
        ["-res".toList, "output.res".toList] ["../../etc/passwd".toList]).outputs.get
        "../../etc/passwd".toList
      = some "root:x:0:0".toList ∧
    (RunCommand Example.shortWorkdir Example.idleTool Example.machine "/up/a.cif".toList
        ["-res".toList, "output.res".toList] ["../../etc/passwd".toList]).sys.files.get
        "/etc/passwd".toList
      = none := by
  refine ⟨by decide, by decide, by decide, by decide⟩

/-- C10, at a failing input.  The tool produces the expected output
`output.res` in the workdir `/ws` but the server cannot read it: the call
returns without that output, and the file is still in the workdir
afterwards (the copy of the input artifact is gone). -/
theorem RunCommand_leaves_unreadable_output :
    (RunCommand Example.wsConfig Example.unreadableTool Example.machine "/up/a.cif".toList
        ["-res".toList, "output.res".toList] ["output.res".toList]).sys.files.get
        "/ws/output.res".toList
      = some (Node.file "1.0 2.0 3.0".toList 11 false) ∧
    (RunCommand Example.wsConfig Example.unreadableTool Example.machine "/up/a.cif".toList
        ["-res".toList, "output.res".toList] ["output.res".toList]).sys.files.get
        "/ws/a.cif".toList
      = none ∧
    (RunCommand Example.wsConfig Example.unreadableTool Example.machine "/up/a.cif".toList
        ["-res".toList, "output.res".toList] ["output.res".toList]).outputs.get
        "output.res".toList
      = none ∧
    (RunCommand Example.wsConfig Example.unreadableTool Example.machine "/up/a.cif".toList
        ["-res".toList, "output.res".toList] ["output.res".toList]).invoked
      = some ⟨"network".toList, ["-res".toList, "output.res".toList, "/ws/a.cif".toList],
          "/ws".toList⟩ := by
  refine ⟨by decide, by decide, by decide, by decide⟩

/-! ## Fingerprints -/

theorem hashInput_cons (f a : Str) (args : List Str) :
    hashInput f (a :: args) = hashInput (f ++ a) args := rfl

theorem hashInput_ne_of_same_shape :
    ∀ (args args' : List Str) (f f' : Str), f.length = f'.length →
      args.map List.length = args'.map List.length → (f, args) ≠ (f', args') →
      hashInput f args ≠ hashInput f' args'
  | [], [], f, f', _, _, hne => by
    intro heq
    apply hne
    simpa [hashInput] using heq
  | [], _ :: _, _, _, _, ha, _ => by simp at ha
  | _ :: _, [], _, _, _, ha, _ => by simp at ha
  | a :: as, a' :: as', f, f', hf, ha, hne => by
    simp only [List.map_cons, List.cons.injEq] at ha
    rw [hashInput_cons, hashInput_cons]
    apply hashInput_ne_of_same_shape as as' (f ++ a) (f' ++ a')
    · simp [hf, ha.1]
    · exact ha.2
    · intro heq
      simp only [Prod.mk.injEq] at heq
      obtain ⟨h1, h2⟩ := List.append_inj heq.1 hf
      apply hne
      rw [h1, h2, heq.2]

/-- C2, counterexample.  Requests that differ in the artifact identity and a
token, in the number of tokens, or in the order of the tokens are written to
the hasher as the same bytes, so they have the same fingerprint whatever the
hash function is. -/
theorem GenerateCacheKey_same_bytes_for_different_requests :
    (("ab".toList, ["c".toList]) ≠ ("a".toList, ["bc".toList]) ∧
      hashInput "ab".toList ["c".toList] = hashInput "a".toList ["bc".toList]) ∧
    (("f".toList, ["b".toList, "c".toList]) ≠ ("f".toList, ["bc".toList]) ∧
      hashInput "f".toList ["b".toList, "c".toList] = hashInput "f".toList ["bc".toList]) ∧
    (("f".toList, ["a".toList, "aa".toList]) ≠ ("f".toList, ["aa".toList, "a".toList]) ∧
      hashInput "f".toList ["a".toList, "aa".toList]
        = hashInput "f".toList ["aa".toList, "a".toList]) ∧
    (∀ h : Hash, GenerateCacheKey h "ab".toList ["c".toList]
        = GenerateCacheKey h "a".toList ["bc".toList]) := by
  refine ⟨⟨by decide, by decide⟩, ⟨by decide, by decide⟩, ⟨by decide, by decide⟩, ?_⟩
  intro h
  rfl

/-- C2, amended.  The fingerprint is the hexadecimal digest of the plain
concatenation of the path and the tokens.  Two requests whose paths have the
same length and whose token lists have the same number of tokens with the
same lengths, position by position, and which differ in the path or in any
token (so also by the order of two different tokens) are written to the
hasher as different bytes; identical requests have the identical
fingerprint. -/
theorem GenerateCacheKey_bytes_differ_of_same_shape (f f' : Str) (args args' : List Str)
    (hf : f.length = f'.length)
    (ha : args.map List.length = args'.map List.length)
    (hne : (f, args) ≠ (f', args')) :
    hashInput f args ≠ hashInput f' args' ∧
    (∀ h : Hash, GenerateCacheKey h f args = EncodeToString (h (hashInput f args))) ∧
    (∀ (h : Hash) (g : Str) (bs : List Str), g = f → bs = args →
      GenerateCacheKey h g bs = GenerateCacheKey h f args) := by
  refine ⟨hashInput_ne_of_same_shape args args' f f' hf ha hne, fun _ => rfl, ?_⟩
  intro h g bs hg hbs
  rw [hg, hbs]

theorem GenerateCacheKey_bytes_differ_of_same_shape_witness :
    ("a.cif".toList, ["-r".toList, "-s".toList]) ≠ ("a.cif".toList, ["-s".toList, "-r".toList]) ∧
    hashInput "a.cif".toList ["-r".toList, "-s".toList]
      ≠ hashInput "a.cif".toList ["-s".toList, "-r".toList] :=
  ⟨by decide,
    (GenerateCacheKey_bytes_differ_of_same_shape "a.cif".toList "a.cif".toList
      ["-r".toList, "-s".toList] ["-s".toList, "-r".toList] rfl rfl (by decide)).1⟩

/-! ## Go maps: lookups and sizes -/

namespace GoMap

variable {V : Type}

theorem ext_entries {m m' : GoMap V} (h : m.entries = m'.entries) : m = m' := by
  cases m; cases m'; cases h; rfl

theorem dropKey_idem (k : Str) (l : List (Str × V)) : dropKey k (dropKey k l) = dropKey k l := by
  simp [dropKey, List.filter_filter]

theorem find_dropKey_self (k : Str) (l : List (Str × V)) :
    (dropKey k l).find? (fun e => decide (e.1 = k)) = none := by
  simp only [List.find?_eq_none, dropKey, List.mem_filter]
  rintro e ⟨_, he⟩
  simpa using he

theorem get_set_self (m : GoMap V) (k : Str) (v : V) : (m.set k v).get k = some v := by
  simp [get, set]

theorem get_delete_self (m : GoMap V) (k : Str) : (m.delete k).get k = none := by
  simp [get, delete, find_dropKey_self]

theorem set_set (m : GoMap V) (k : Str) (v w : V) : (m.set k v).set k w = m.set k w := by
  apply ext_entries
  show (k, w) :: dropKey k ((k, v) :: dropKey k m.entries) = (k, w) :: dropKey k m.entries
  have h : dropKey k ((k, v) :: dropKey k m.entries) = dropKey k (dropKey k m.entries) := by
    simp [dropKey]
  rw [h, dropKey_idem]

theorem dropKey_eq_self_of_not_mem (k : Str) :
    ∀ l : List (Str × V), k ∉ l.map Prod.fst → dropKey k l = l
  | [], _ => rfl
  | e :: t, h => by
    simp only [List.map_cons, List.mem_cons, not_or] at h
    have ht := dropKey_eq_self_of_not_mem k t h.2
    have he : e.1 ≠ k := fun hk => h.1 hk.symm
    simp only [dropKey] at ht ⊢
    rw [List.filter_cons_of_pos (by simpa using he), ht]

theorem length_dropKey_of_find (k : Str) :
    ∀ (l : List (Str × V)), (l.map Prod.fst).Nodup →
      (l.find? (fun e => decide (e.1 = k))).isSome → (dropKey k l).length + 1 = l.length
  | [], _, h => by simp at h
  | e :: t, hnd, h => by
    simp only [List.map_cons, List.nodup_cons] at hnd
    by_cases hk : e.1 = k
    · have hdrop : dropKey k (e :: t) = dropKey k t := by simp [dropKey, hk]
      rw [hdrop, dropKey_eq_self_of_not_mem k t (hk ▸ hnd.1)]
      rfl
    · have hdrop : dropKey k (e :: t) = e :: dropKey k t := by simp [dropKey, hk]
      have hfind : (t.find? (fun e => decide (e.1 = k))).isSome := by
        rw [List.find?_cons_of_neg _ (by simpa using hk)] at h
        exact h
      rw [hdrop, List.length_cons, List.length_cons,
        length_dropKey_of_find k t hnd.2 hfind]

theorem len_delete_of_get {m : GoMap V} {k : Str} {v : V} (h : m.get k = some v) :
    (m.delete k).len + 1 = m.len := by
  apply length_dropKey_of_find k m.entries m.nodup
  unfold get at h
  cases hf : m.entries.find? (fun e => decide (e.1 = k)) with
  | none => simp [hf] at h
  | some e => rfl

end GoMap

/-! ## The result cache -/

theorem getD_set_self {α : Type} (x d : α) :
    ∀ (l : List α) (i : Nat), i < l.length → (l.set i x).getD i d = x
  | [], _, h => by simp at h
  | _ :: _, 0, _ => rfl
  | _ :: t, i + 1, h => by
    simpa using getD_set_self x d t i (by simpa using h)

theorem sum_map_set {α : Type} (f : α → Int) (x d : α) :
    ∀ (l : List α) (i : Nat), i < l.length →
      ((l.set i x).map f).sum = (l.map f).sum - f (l.getD i d) + f x
  | [], _, h => by simp at h
  | a :: t, 0, _ => by
    simp only [List.set_cons_zero, List.map_cons, List.sum_cons, List.getD_cons_zero]
    ring
  | a :: t, i + 1, h => by
    have ih := sum_map_set f x d t i (by simpa using h)
    simp only [List.set_cons_succ, List.map_cons, List.sum_cons, List.getD_cons_succ, ih]
    ring

namespace Cache

theorem shardIndex_lt {h : Hash} {c : Cache} {k : Str} {i : Nat}
    (hi : c.getShard h k = some i) : i < c.shards.length := by
  unfold getShard at hi
  split at hi
  · cases hi
  · cases hi
    exact Nat.mod_lt _ (Nat.pos_of_ne_zero (by assumption))

theorem shardIndex_isSome (h : Hash) (c : Cache) (k : Str) (hs : 1 ≤ c.shards.length) :
    ∃ i, c.getShard h k = some i := by
  unfold getShard
  rw [if_neg (by omega)]
  exact ⟨_, rfl⟩

theorem shardIndex_congr (h : Hash) (c c' : Cache) (k : Str)
    (hlen : c'.shards.length = c.shards.length) : c'.getShard h k = c.getShard h k := by
  unfold getShard
  rw [hlen]

theorem stats_fst_foldl (l : List (GoMap cacheItem)) :
    ∀ acc : Int × Int,
      (l.foldl
        (fun acc items =>
          (acc.1 + (items.len : Int),
            items.entries.foldl (fun hits e => int64 (hits + e.2.HitCount)) acc.2)) acc).1
        = acc.1 + (l.map (fun items => (items.len : Int))).sum := by
  induction l with
  | nil => intro acc; simp
  | cons a t ih =>
    intro acc
    rw [List.foldl_cons, ih]
    simp only [List.map_cons, List.sum_cons]
    ring

theorem Stats_fst (c : Cache) :
    c.Stats.1 = (c.shards.map (fun items => (items.len : Int))).sum := by
  unfold Stats
  rw [stats_fst_foldl]
  simp

theorem step_preserves {h : Hash} {c c' : Cache} {op : CacheOp} (hstep : c.step h op = some c') :
    c'.shards.length = c.shards.length ∧ c'.config = c.config := by
  cases op with
  | set key data now =>
    simp only [step, Set] at hstep
    split at hstep
    · cases hstep
    · cases hstep
      simp
  | get key now =>
    simp only [step, Get] at hstep
    split at hstep
    · simp at hstep
    · split at hstep
      · simp only [Option.map_some', Option.some.injEq] at hstep
        subst hstep
        simp
      · split at hstep
        · simp only [Option.map_some', Option.some.injEq] at hstep
          subst hstep
          simp
        · simp only [Option.map_some', Option.some.injEq] at hstep
          subst hstep
          simp
  | delete key =>
    simp only [step, Delete] at hstep
    split at hstep
    · cases hstep
    · cases hstep
      simp
  | clearExpired now =>
    simp only [step, ClearExpired, Option.some.injEq] at hstep
    subst hstep
    simp

theorem run_preserves {h : Hash} :
    ∀ (ops : List CacheOp) {c c' : Cache}, c.run h ops = some c' →
      c'.shards.length = c.shards.length ∧ c'.config = c.config
  | [], c, c', hrun => by
    simp only [run, Option.some.injEq] at hrun
    subst hrun
    exact ⟨rfl, rfl⟩
  | op :: ops, c, c', hrun => by
    simp only [run] at hrun
    cases hs : c.step h op with
    | none => simp [hs] at hrun
    | some c1 =>
      rw [hs] at hrun
      have h1 := step_preserves hs
      have h2 := run_preserves ops hrun
      exact ⟨h2.1.trans h1.1, h2.2.trans h1.2⟩

theorem Reachable.shape {h : Hash} {cfg : CacheConfig} {baseDir : Str} {c : Cache}
    (hc : c.Reachable h cfg baseDir) :
    c.shards.length = cfg.Shards.toNat ∧ c.config = cfg := by
  obtain ⟨ops, hops⟩ := hc
  unfold NewCache at hops
  split at hops
  · simp at hops
  · simp only [Option.bind_eq_bind, Option.some_bind] at hops
    have := run_preserves ops hops
    simpa using this

end Cache

namespace Cache

theorem Set_eq {h : Hash} {c : Cache} {k : Str} {i : Nat} (v : GoMap Str) (t0 : Int)
    (hi : c.getShard h k = some i) :
    c.Set h k v t0
      = some { c with shards := c.shards.set i ((c.shards.getD i GoMap.empty).set k ⟨v, t0, 0⟩) } := by
  unfold Set
  rw [hi]

theorem Get_hit {h : Hash} {c : Cache} {k : Str} {i : Nat} {item : cacheItem} {now : Int}
    (hi : c.getShard h k = some i)
    (hitem : (c.shards.getD i GoMap.empty).get k = some item)
    (hexp : c.expired item now = false) :
    c.Get h k now
      = some (some item.Data,
          { c with
            shards := c.shards.set i ((c.shards.getD i GoMap.empty).set k
                        { item with HitCount := int64 (item.HitCount + 1) }) }) := by
  unfold Get
  rw [hi]
  dsimp only
  rw [hitem]
  dsimp only
  rw [hexp]
  rfl

theorem Get_expired {h : Hash} {c : Cache} {k : Str} {i : Nat} {item : cacheItem} {now : Int}
    (hi : c.getShard h k = some i)
    (hitem : (c.shards.getD i GoMap.empty).get k = some item)
    (hexp : c.expired item now = true) :
    c.Get h k now
      = some (none,
          { c with shards := c.shards.set i ((c.shards.getD i GoMap.empty).delete k) }) := by
  unfold Get
  rw [hi]
  dsimp only
  rw [hitem]
  dsimp only
  rw [hexp]
  rfl

theorem Get_miss {h : Hash} {c : Cache} {k : Str} {i : Nat} {now : Int}
    (hi : c.getShard h k = some i)
    (hitem : (c.shards.getD i GoMap.empty).get k = none) :
    c.Get h k now = some (none, c) := by
  unfold Get
  rw [hi]
  dsimp only
  rw [hitem]

end Cache

/-- C3.  For a cache created by `NewCache` with at least one shard, in any
state reached by later calls: `Set(k, v)` at time `t0` followed by `Get(k)`
at a time `t1` not more than the TTL later returns `(v, true)`. -/
theorem Cache_Set_then_Get_returns_value (h : Hash) (cfg : CacheConfig) (baseDir : Str)
    (c : Cache) (k : Str) (v : GoMap Str) (t0 t1 : Int)
    (hshards : 1 ≤ cfg.Shards) (hc : c.Reachable h cfg baseDir)
    (hfresh : t1 - t0 ≤ cfg.TTL) :
    ∃ c1 c2, c.Set h k v t0 = some c1 ∧ c1.Get h k t1 = some (some v, c2) := by
  obtain ⟨hlen, hcfg⟩ := hc.shape
  have hpos : 1 ≤ c.shards.length := by omega
  obtain ⟨i, hi⟩ := Cache.shardIndex_isSome h c k hpos
  have hilt := Cache.shardIndex_lt hi
  have hi' : Cache.getShard h
      { c with shards := c.shards.set i ((c.shards.getD i GoMap.empty).set k ⟨v, t0, 0⟩) } k
      = some i := by
    rw [Cache.shardIndex_congr h c _ k (by simp), hi]
  have hexp : Cache.expired
      { c with shards := c.shards.set i ((c.shards.getD i GoMap.empty).set k ⟨v, t0, 0⟩) }
      ⟨v, t0, 0⟩ t1 = false := by
    have hno : ¬ (cfg.TTL > 0 ∧ t1 - t0 > cfg.TTL) := by
      rintro ⟨_, hgt⟩
      omega
    simp only [Cache.expired, hcfg]
    exact decide_eq_false hno
  have hitem : (List.getD (c.shards.set i ((c.shards.getD i GoMap.empty).set k ⟨v, t0, 0⟩)) i
      GoMap.empty).get k = some ⟨v, t0, 0⟩ := by
    rw [getD_set_self _ _ _ _ hilt, GoMap.get_set_self]
  exact ⟨_, _, Cache.Set_eq v t0 hi, Cache.Get_hit hi' hitem hexp⟩

/-- C3, at a concrete cache: the fresh cache of 32 shards with a TTL of one
hour, value stored at time 0 and read five nanoseconds later. -/
theorem Cache_Set_then_Get_returns_value_witness :
    (1 : Int) ≤ Example.hourCache.Shards ∧
    (5 : Int) - 0 ≤ Example.hourCache.TTL ∧
    ∃ c1 c2,
      Cache.Set Example.sampleHash
          ⟨List.replicate 32 GoMap.empty, Example.hourCache, []⟩ "k".toList
          Example.oneOutput 0 = some c1 ∧
        c1.Get Example.sampleHash "k".toList 5 = some (some Example.oneOutput, c2) :=
  ⟨by decide, by decide,
    Cache_Set_then_Get_returns_value Example.sampleHash Example.hourCache []
      ⟨List.replicate 32 GoMap.empty, Example.hourCache, []⟩ "k".toList Example.oneOutput 0 5
      (by decide) ⟨[], rfl⟩ (by decide)⟩

/-- C4, counterexample.  With a configured TTL of zero an entry never
expires: an entry stored at time 0 is older than the TTL at time 5, yet
`Get` returns it and `Stats` counts one entry before and after. -/
theorem Cache_Get_zero_TTL_keeps_entry :
    (5 : Int) - 0 > Example.zeroTTL.TTL ∧
    ((NewCache Example.zeroTTL []).bind (fun c =>
      (c.Set Example.sampleHash "k".toList Example.oneOutput 0).bind (fun c1 =>
        (c1.Get Example.sampleHash "k".toList 5).map (fun r =>
          (r.1.map GoMap.entries, c1.Stats.1, r.2.Stats.1)))))
      = some (some [("output.res".toList, "1.0 2.0 3.0".toList)], 1, 1) := by
  refine ⟨by decide, by decide⟩

/-- C4, amended.  For a configured TTL greater than zero: `Get(k)` at a time
when the entry stored for `k` is older than the TTL returns `(nil, false)`
and removes the entry, and the entry count of `Stats` is one less than
before the `Get`. -/
theorem Cache_Get_expired_removes_entry (h : Hash) (c : Cache) (k : Str) (item : cacheItem)
    (now : Int) (hTTL : 0 < c.config.TTL) (hentry : c.entry h k = some item)
    (hold : now - item.Created > c.config.TTL) :
    ∃ c1, c.Get h k now = some (none, c1) ∧ c1.entry h k = none ∧
      c1.Stats.1 = c.Stats.1 - 1 := by
  unfold Cache.entry at hentry
  cases hi : c.getShard h k with
  | none => simp [hi] at hentry
  | some i =>
    rw [hi] at hentry
    dsimp only at hentry
    have hilt := Cache.shardIndex_lt hi
    have hexp : c.expired item now = true := by
      simp only [Cache.expired]
      exact decide_eq_true ⟨hTTL, hold⟩
    refine ⟨_, Cache.Get_expired hi hentry hexp, ?_, ?_⟩
    · have hi' : Cache.getShard h
          { c with shards := c.shards.set i ((c.shards.getD i GoMap.empty).delete k) } k
          = some i := by
        rw [Cache.shardIndex_congr h c _ k (by simp), hi]
      unfold Cache.entry
      rw [hi']
      dsimp only
      rw [getD_set_self _ _ _ _ hilt, GoMap.get_delete_self]
    · rw [Cache.Stats_fst, Cache.Stats_fst]
      dsimp only
      rw [sum_map_set (fun items : GoMap cacheItem => (items.len : Int)) _ GoMap.empty _ _ hilt]
      have hlen := GoMap.len_delete_of_get hentry
      omega

/-- C4, amended, at a concrete cache: TTL of one hour, 32 shards, an entry
stored for `k` at time 0 (in shard 11, which its key selects) and read two
hours later. -/
theorem Cache_Get_expired_removes_entry_witness :
    (0 : Int) < Example.hourCache.TTL ∧
    Cache.entry Example.sampleHash Example.staleCache "k".toList
      = some ⟨Example.oneOutput, 0, 0⟩ ∧
    (7200000000000 : Int) - 0 > Example.hourCache.TTL ∧
    ∃ c1,
      Cache.Get Example.sampleHash Example.staleCache "k".toList 7200000000000
          = some (none, c1) ∧
        c1.entry Example.sampleHash "k".toList = none ∧
        c1.Stats.1 = Example.staleCache.Stats.1 - 1 :=
  ⟨by decide, rfl, by decide,
    Cache_Get_expired_removes_entry Example.sampleHash Example.staleCache "k".toList
      ⟨Example.oneOutput, 0, 0⟩ 7200000000000 (by decide) rfl (by decide)⟩

/-! ## The global semaphore -/

namespace GlobalSemaphore

theorem Acquire_spec (gs : GlobalSemaphore) :
    gs.Acquire.2.cap = gs.cap ∧
    gs.Acquire.2.held = gs.held + (if gs.Acquire.1 then 1 else 0) ∧
    (gs.Acquire.1 = true ↔ gs.held < gs.cap) := by
  unfold Acquire
  by_cases hlt : gs.held < gs.cap
  · simp [hlt]
  · simp [hlt]

theorem Release_spec {gs gs1 : GlobalSemaphore} (hrel : gs.Release = some gs1) :
    gs1.cap = gs.cap ∧ gs1.held + 1 = gs.held := by
  unfold Release at hrel
  split at hrel
  · cases hrel
    exact ⟨rfl, by simp only; omega⟩
  · cases hrel

theorem run_invariant :
    ∀ (ops : List SemOp) (gs0 gs : GlobalSemaphore) (rs : List Bool),
      gs0.held ≤ gs0.cap → gs0.run ops = some (gs, rs) →
      gs.cap = gs0.cap ∧ gs.held ≤ gs.cap ∧
      (gs.held : Int) = gs0.held + rs.count true - ops.count SemOp.release
  | [], gs0, gs, rs, hle, hrun => by
    simp only [run, Option.some.injEq, Prod.mk.injEq] at hrun
    obtain ⟨rfl, rfl⟩ := hrun
    simp [hle]
  | .acquire :: ops, gs0, gs, rs, hle, hrun => by
    simp only [run, Option.map_eq_some'] at hrun
    obtain ⟨r, hr, hgs⟩ := hrun
    simp only [Prod.mk.injEq] at hgs
    obtain ⟨rfl, rfl⟩ := hgs
    obtain ⟨hcap, hheld, hiff⟩ := Acquire_spec gs0
    have hle1 : gs0.Acquire.2.held ≤ gs0.Acquire.2.cap := by
      rw [hcap, hheld]
      by_cases hb : gs0.Acquire.1 = true
      · have := hiff.1 hb
        simp only [hb, if_true]
        omega
      · simp only [hb, Bool.false_eq_true, if_false]
        omega
    obtain ⟨h1, h2, h3⟩ := run_invariant ops gs0.Acquire.2 r.1 r.2 hle1 hr
    refine ⟨h1.trans hcap, h2, ?_⟩
    rw [h3, hheld]
    by_cases hb : gs0.Acquire.1 = true
    · simp [hb, List.count_cons]
      ring
    · have hb' : gs0.Acquire.1 = false := by simpa using hb
      simp [hb', List.count_cons]
  | .release :: ops, gs0, gs, rs, hle, hrun => by
    simp only [run] at hrun
    cases hrel : gs0.Release with
    | none => simp [hrel] at hrun
    | some gs1 =>
      rw [hrel] at hrun
      obtain ⟨hcap, hheld⟩ := Release_spec hrel
      obtain ⟨h1, h2, h3⟩ := run_invariant ops gs1 gs rs (by omega) hrun
      refine ⟨h1.trans hcap, h2, ?_⟩
      rw [h3]
      simp only [List.count_cons, beq_self_eq_true, if_true]
      push_cast
      omega

end GlobalSemaphore

/-- C6.  For a semaphore created with capacity `C` and any sequence of
`Acquire` and `Release` calls in which no `Release` is made while no slot is
held: the number of held slots is the number of accepted `Acquire` calls
minus the number of `Release` calls and never exceeds `C`; the next
`Acquire` returns true exactly when fewer than `C` slots are held; so it
returns false while `C` slots are held, and true once a holder has
released. -/
theorem GlobalSemaphore_Acquire_iff_below_capacity (C : Int) (gs0 : GlobalSemaphore)
    (ops : List SemOp) (gs : GlobalSemaphore) (rs : List Bool)
    (hnew : NewGlobalSemaphore C = some gs0)
    (hrun : gs0.run ops = some (gs, rs)) :
    (gs.held : Int) = rs.count true - ops.count SemOp.release ∧
    (gs.held : Int) ≤ C ∧
    (gs.Acquire.1 = true ↔ (gs.held : Int) < C) ∧
    ((gs.held : Int) = C → gs.Acquire.1 = false) ∧
    ((gs.held : Int) = C → ∀ gs1, gs.Release = some gs1 → gs1.Acquire.1 = true) := by
  unfold NewGlobalSemaphore at hnew
  split at hnew
  · cases hnew
  · rename_i hC
    cases hnew
    obtain ⟨hcap, hle, hheld⟩ :=
      GlobalSemaphore.run_invariant ops ⟨C.toNat, 0⟩ gs rs (Nat.zero_le _) hrun
    simp only at hcap hheld
    have hCnat : ((C.toNat : Nat) : Int) = C := Int.toNat_of_nonneg (by omega)
    have hiff := (GlobalSemaphore.Acquire_spec gs).2.2
    refine ⟨by simpa using hheld, by omega, ?_, ?_, ?_⟩
    · rw [hiff]
      omega
    · intro hfull
      have : ¬ gs.held < gs.cap := by omega
      cases hb : gs.Acquire.1 with
      | false => rfl
      | true => exact absurd (hiff.1 hb) this
    · intro hfull gs1 hrel
      obtain ⟨hcap1, hheld1⟩ := GlobalSemaphore.Release_spec hrel
      exact (GlobalSemaphore.Acquire_spec gs1).2.2.2 (by omega)

/-- C6, at capacity 2: two accepted calls, a refused one, a release. -/
theorem GlobalSemaphore_Acquire_iff_below_capacity_witness :
    NewGlobalSemaphore 2 = some ⟨2, 0⟩ ∧
    GlobalSemaphore.run ⟨2, 0⟩ [.acquire, .acquire, .acquire, .release]
      = some (⟨2, 1⟩, [true, true, false]) ∧
    (((⟨2, 1⟩ : GlobalSemaphore).held : Int)
        = ([true, true, false].count true : Int)
          - ([SemOp.acquire, .acquire, .acquire, .release].count SemOp.release : Int) ∧
      (((⟨2, 1⟩ : GlobalSemaphore).held : Int) ≤ 2) ∧
      ((⟨2, 1⟩ : GlobalSemaphore).Acquire.1 = true ↔ (((⟨2, 1⟩ : GlobalSemaphore).held : Int) < 2)) ∧
      ((((⟨2, 1⟩ : GlobalSemaphore).held : Int) = 2) → (⟨2, 1⟩ : GlobalSemaphore).Acquire.1 = false) ∧
      ((((⟨2, 1⟩ : GlobalSemaphore).held : Int) = 2) →
        ∀ gs1, (⟨2, 1⟩ : GlobalSemaphore).Release = some gs1 → gs1.Acquire.1 = true)) :=
  ⟨by decide, by decide,
    GlobalSemaphore_Acquire_iff_below_capacity 2 ⟨2, 0⟩ [.acquire, .acquire, .acquire, .release]
      ⟨2, 1⟩ [true, true, false] (by decide) (by decide)⟩

/-- C7.  A request passing through the semaphore middleware in front of a
rest of the chain `next` that does not touch the semaphore.  When a slot is
free, `next` runs with exactly one more slot held, and when it returns
(normally or panicking) the slot is released once: the result is the result
of `next` with the held count back to its value before the request.  When
no slot is free the request is aborted with status 503 and a `retry_after`
field, `next` does not run, and the held count is unchanged. -/
theorem Middleware_releases_slot_once (next : Env → Env) (e : Env)
    (hframe : ∀ x, (next x).sem = x.sem) :
    (e.sem.held < e.sem.cap →
      (next { e with sem := ⟨e.sem.cap, e.sem.held + 1⟩ }).blocked = false →
      Middleware next e
          = { next { e with sem := ⟨e.sem.cap, e.sem.held + 1⟩ } with sem := e.sem } ∧
        (next { e with sem := ⟨e.sem.cap, e.sem.held + 1⟩ }).sem.Release
          = some (Middleware next e).sem ∧
        (Middleware next e).sem.held = e.sem.held) ∧
    (¬ e.sem.held < e.sem.cap →
      Middleware next e = gin.Abort (gin.JSON e 503 overloadedBody) ∧
        (Middleware next e).written
          = e.written ++ [⟨503, [("error".toList, "Server overloaded".toList),
              ("retry_after".toList, "5s".toList)]⟩] ∧
        (Middleware next e).sem = e.sem) := by
  constructor
  · intro hfree hnb
    have hacq : e.sem.Acquire = (true, ⟨e.sem.cap, e.sem.held + 1⟩) := by
      simp [GlobalSemaphore.Acquire, hfree]
    have hsem := hframe { e with sem := ⟨e.sem.cap, e.sem.held + 1⟩ }
    have hrel : (next { e with sem := ⟨e.sem.cap, e.sem.held + 1⟩ }).sem.Release = some e.sem := by
      rw [hsem]
      simp [GlobalSemaphore.Release]
    have hmid : Middleware next e
        = { next { e with sem := ⟨e.sem.cap, e.sem.held + 1⟩ } with sem := e.sem } := by
      unfold Middleware
      simp only [hacq, not_true_eq_false, if_false, hnb, Bool.false_eq_true, hrel]
    rw [hmid]
    exact ⟨rfl, hrel, rfl⟩
  · intro hfull
    have hacq : e.sem.Acquire = (false, e.sem) := by
      simp [GlobalSemaphore.Acquire, hfull]
    have hmid : Middleware next e = gin.Abort (gin.JSON e 503 overloadedBody) := by
      unfold Middleware
      simp only [hacq, Bool.false_eq_true, not_false_eq_true, if_true]
    rw [hmid]
    exact ⟨rfl, rfl, rfl⟩

/-- C7, at a request that finds one of two slots held. -/
theorem Middleware_releases_slot_once_witness :
    (∀ x, (Example.okEndpoint x).sem = x.sem) ∧
    Example.request.sem.held < Example.request.sem.cap ∧
    (Middleware Example.okEndpoint Example.request).sem.held = Example.request.sem.held ∧
    (Middleware Example.okEndpoint Example.request).written = [⟨200, []⟩] :=
  ⟨fun _ => rfl, by decide,
    ((Middleware_releases_slot_once Example.okEndpoint Example.request (fun _ => rfl)).1
      (by decide) rfl).2.2,
    by
      rw [((Middleware_releases_slot_once Example.okEndpoint Example.request (fun _ => rfl)).1
        (by decide) rfl).1]
      rfl⟩

/-! ## The middleware chain -/

theorem loop_past :
    ∀ (hs : List Handler) (pos : Int) (e : Env), pos + hs.length ≤ e.index →
      gin.loop hs pos e = e
  | [], _, _, _ => rfl
  | h :: rest, pos, e, hle => by
    have hne : ¬ e.index = pos := by
      simp only [List.length_cons, Nat.cast_add, Nat.cast_one] at hle
      omega
    unfold gin.loop
    by_cases hpb : e.panicking = true ∨ e.blocked = true
    · rw [if_pos hpb]
    · rw [if_neg hpb, if_neg hne]
      apply loop_past rest (pos + 1) e
      simp only [List.length_cons, Nat.cast_add, Nat.cast_one] at hle
      omega

theorem serve_rate_limited (rest : List Handler) (e : Env)
    (hm : e.method ≠ "OPTIONS".toList) (hp : e.panicking = false) (hb : e.blocked = false)
    (hrej : ((e.rl.getLimiter e.clientIP).1.Allow e.now).1 = false)
    (hlen : rest.length < 59) :
    gin.serve (gin.Logger :: gin.Recovery :: cors :: RateLimit :: rest) e
      = { index := 67, method := e.method, clientIP := e.clientIP,
          headers :=
            e.headers ++ [("Access-Control-Allow-Origin".toList, "*".toList)] ++
                [("Access-Control-Allow-Methods".toList,
                  "GET, POST, PUT, DELETE, OPTIONS".toList)] ++
              [("Access-Control-Allow-Headers".toList,
                "Origin, Content-Type, Content-Length, Accept-Encoding, X-CSRF-Token, Authorization".toList)],
          written := e.written ++ [⟨429, rateLimitBody⟩],
          sem := e.sem,
          rl :=
            { limiters :=
                (e.rl.getLimiter e.clientIP).2.limiters.set e.clientIP
                  ((e.rl.getLimiter e.clientIP).1.Allow e.now).2,
              rate := (e.rl.getLimiter e.clientIP).2.rate,
              burst := (e.rl.getLimiter e.clientIP).2.burst },
          now := e.now, panicking := false, blocked := false } := by
  have hskip : ∀ x : Env, 63 ≤ x.index → gin.loop rest 4 x = x := by
    intro x hx
    apply loop_past
    omega
  simp only [gin.serve, gin.loop, gin.Logger, gin.Recovery,
    cors, gin.Header, RateLimit, hrej, hp, hb, hm, gin.Abort, gin.JSON, gin.abortIndex,
    Bool.false_eq_true, or_self, if_false, if_true, not_false_eq_true, Int.reduceNeg,
    Int.reduceAdd, hskip, Int.reduceLE, Int.reduceEq]

theorem Allow_zero_burst (r : ℚ) (now : Int) : ((NewLimiter r 0).Allow now).1 = false := by
  have h10 : ¬ ((1 : ℚ) ≤ 0) := by norm_num
  simp [NewLimiter, Limiter.Allow, h10]

/-- C9.  In the chain `main` registers for a route of the `/api` group the
rate limiter stands before the semaphore middleware.  A request the limiter
rejects is answered 429 and aborted there: the semaphore is left as it was,
and the outcome is the same whatever handlers follow the rate limiter, so
the semaphore middleware and the endpoint do not run. -/
theorem rate_limited_request_does_not_reach_semaphore (endpoint : Handler) (e : Env)
    (hm : e.method ≠ "OPTIONS".toList) (hp : e.panicking = false) (hb : e.blocked = false)
    (hrej : ((e.rl.getLimiter e.clientIP).1.Allow e.now).1 = false) :
    apiChain endpoint = [gin.Logger, gin.Recovery, cors, RateLimit] ++ [Middleware, endpoint] ∧
    (gin.serve (apiChain endpoint) e).sem = e.sem ∧
    (gin.serve (apiChain endpoint) e).written = e.written ++ [⟨429, rateLimitBody⟩] ∧
    (∀ rest : List Handler, rest.length < 59 →
      gin.serve ([gin.Logger, gin.Recovery, cors, RateLimit] ++ rest) e
        = gin.serve (apiChain endpoint) e) := by
  have hmain := serve_rate_limited [Middleware, endpoint] e hm hp hb hrej (by simp)
  refine ⟨rfl, ?_, ?_, ?_⟩
  · show (gin.serve (gin.Logger :: gin.Recovery :: cors :: RateLimit :: [Middleware, endpoint])
      e).sem = e.sem
    rw [hmain]
  · show (gin.serve (gin.Logger :: gin.Recovery :: cors :: RateLimit :: [Middleware, endpoint])
      e).written = _
    rw [hmain]
  · intro rest hlen
    show gin.serve (gin.Logger :: gin.Recovery :: cors :: RateLimit :: rest) e
      = gin.serve (gin.Logger :: gin.Recovery :: cors :: RateLimit :: [Middleware, endpoint]) e
    rw [hmain, serve_rate_limited rest e hm hp hb hrej hlen]

/-- C9, at a request to a server whose limiter has burst 0. -/
theorem rate_limited_request_does_not_reach_semaphore_witness :
    Example.zeroBurstRequest.method ≠ "OPTIONS".toList ∧
    ((Example.zeroBurstRequest.rl.getLimiter Example.zeroBurstRequest.clientIP).1.Allow
      Example.zeroBurstRequest.now).1 = false ∧
    (gin.serve (apiChain (fun _ => Example.okEndpoint)) Example.zeroBurstRequest).sem
      = Example.zeroBurstRequest.sem ∧
    (gin.serve (apiChain (fun _ => Example.okEndpoint)) Example.zeroBurstRequest).written
      = [⟨429, rateLimitBody⟩] :=
  ⟨by decide, Allow_zero_burst 10 0,
    (rate_limited_request_does_not_reach_semaphore (fun _ => Example.okEndpoint)
      Example.zeroBurstRequest (by decide) rfl rfl (Allow_zero_burst 10 0)).2.1,
    (rate_limited_request_does_not_reach_semaphore (fun _ => Example.okEndpoint)
      Example.zeroBurstRequest (by decide) rfl rfl (Allow_zero_burst 10 0)).2.2.1⟩

/-! ## The per-client rate limiter -/

theorem Allow_burstLimiter (r : ℚ) (b j : Nat) (now : Int) (hj : j ≤ b) :
    (burstLimiter r b now j).Allow now
      = if j < b then (true, burstLimiter r b now (j + 1)) else (false, burstLimiter r b now j) := by
  have helapsed : (match (burstLimiter r b now j).last with
      | none => (0 : Int)
      | some t => max 0 (now - t)) = 0 := by
    unfold burstLimiter
    by_cases hj0 : j = 0
    · simp [hj0]
    · simp [hj0]
  unfold Limiter.Allow
  simp only [helapsed]
  have hrefill : min (((burstLimiter r b now j).burst : Int) : ℚ)
      ((burstLimiter r b now j).tokens + ((0 : Int) : ℚ) * (burstLimiter r b now j).limit / 1000000000)
      = (b : ℚ) - j := by
    simp [burstLimiter]
  rw [hrefill]
  by_cases hlt : j < b
  · have h1 : (1 : ℚ) ≤ (b : ℚ) - j := by
      have : ((j + 1 : Nat) : ℚ) ≤ (b : ℚ) := by exact_mod_cast hlt
      push_cast at this
      linarith
    rw [if_pos h1, if_pos hlt]
    simp only [burstLimiter, Nat.add_eq_zero, one_ne_zero, and_false, if_false, Prod.mk.injEq,
      true_and, Limiter.mk.injEq, and_true]
    push_cast
    ring
  · have hjb : j = b := by omega
    have h1 : ¬ (1 : ℚ) ≤ (b : ℚ) - j := by
      rw [hjb]
      norm_num
    rw [if_neg h1, if_neg hlt]

theorem getLimiter_burstState (rl : RateLimiter) (ip : Str) (b : Nat) (now : Int) (j : Nat) :
    (burstState rl ip b now j).getLimiter ip
      = (burstLimiter rl.rate b now j, burstState rl ip b now j) := by
  unfold RateLimiter.getLimiter
  have hget : (burstState rl ip b now j).limiters.get ip = some (burstLimiter rl.rate b now j) := by
    simp only [burstState, GoMap.get_set_self]
  rw [hget]

theorem burstState_store (rl : RateLimiter) (ip : Str) (b : Nat) (now : Int) (j i : Nat) :
    ({ burstState rl ip b now j with
        limiters := (burstState rl ip b now j).limiters.set ip (burstLimiter rl.rate b now i) }
      : RateLimiter) = burstState rl ip b now i := by
  simp only [burstState, GoMap.set_set]

theorem RateLimit_burstState (next : Env → Env) (req : Env) (rl : RateLimiter) (b j : Nat)
    (hj : j ≤ b) :
    RateLimit next { req with rl := burstState rl req.clientIP b req.now j }
      = if j < b then next { req with rl := burstState rl req.clientIP b req.now (j + 1) }
        else gin.Abort (gin.JSON { req with rl := burstState rl req.clientIP b req.now j } 429
          rateLimitBody) := by
  unfold RateLimit
  simp only [getLimiter_burstState, Allow_burstLimiter _ _ _ _ hj]
  by_cases hlt : j < b
  · simp only [hlt, if_true, not_true_eq_false, if_false, burstState_store]
  · simp only [hlt, if_false, Bool.false_eq_true, not_false_eq_true, if_true, burstState_store]

theorem getLimiter_fresh (rl : RateLimiter) (ip : Str) (b : Nat) (now : Int)
    (hb : rl.burst = b) (hnew : rl.limiters.get ip = none) :
    rl.getLimiter ip = (burstLimiter rl.rate b now 0, burstState rl ip b now 0) := by
  unfold RateLimiter.getLimiter
  rw [hnew]
  have hl : NewLimiter rl.rate rl.burst = burstLimiter rl.rate b now 0 := by
    simp [NewLimiter, burstLimiter, hb]
  simp only [hl, burstState]

theorem RateLimit_fresh (next : Env → Env) (req : Env) (b : Nat)
    (hb : req.rl.burst = b) (hnew : req.rl.limiters.get req.clientIP = none) :
    RateLimit next req
      = RateLimit next { req with rl := burstState req.rl req.clientIP b req.now 0 } := by
  unfold RateLimit
  simp only [getLimiter_fresh req.rl req.clientIP b req.now hb hnew, getLimiter_burstState]

theorem serveBurst_burstState (next : Env → Env) (req : Env) (rl : RateLimiter) (b : Nat)
    (hframe : ∀ x, (next x).rl = x.rl) :
    ∀ (n j : Nat), j + n = b →
      serveBurst next req (n + 1) (burstState rl req.clientIP b req.now j)
        = (List.range' j n).map
            (fun i => next { req with rl := burstState rl req.clientIP b req.now (i + 1) })
          ++ [gin.Abort (gin.JSON { req with rl := burstState rl req.clientIP b req.now b } 429
                rateLimitBody)]
  | 0, j, hjn => by
    have hjb : j = b := by omega
    subst hjb
    simp only [serveBurst, RateLimit_burstState next req rl j j (le_refl _), lt_irrefl, if_false,
      List.range'_zero, List.map_nil, List.nil_append]
  | n + 1, j, hjn => by
    have hlt : j < b := by omega
    have hstep := RateLimit_burstState next req rl b j (by omega)
    rw [if_pos hlt] at hstep
    have ih := serveBurst_burstState next req rl b hframe n (j + 1) (by omega)
    conv_lhs => unfold serveBurst
    simp only [hstep, hframe, ih, List.range'_succ, List.map_cons, List.cons_append]

theorem GoMap.len_set_of_get_none {V : Type} (m : GoMap V) (k : Str) (v : V)
    (hnone : m.get k = none) : (m.set k v).len = m.len + 1 := by
  have hnot : k ∉ m.entries.map Prod.fst := by
    intro hmem
    rcases List.mem_map.1 hmem with ⟨e, he, hk⟩
    unfold GoMap.get at hnone
    simp only [Option.map_eq_none', List.find?_eq_none] at hnone
    have := hnone e he
    simp [hk] at this
  show ((k, v) :: GoMap.dropKey k m.entries).length = m.entries.length + 1
  rw [GoMap.dropKey_eq_self_of_not_mem k m.entries hnot, List.length_cons]

theorem RateLimit_reject (next : Env → Env) (e : Env)
    (hrej : ((e.rl.getLimiter e.clientIP).1.Allow e.now).1 = false) :
    RateLimit next e
      = gin.Abort (gin.JSON
          { e with
            rl :=
              { (e.rl.getLimiter e.clientIP).2 with
                limiters := (e.rl.getLimiter e.clientIP).2.limiters.set e.clientIP
                  ((e.rl.getLimiter e.clientIP).1.Allow e.now).2 } } 429 rateLimitBody) := by
  unfold RateLimit
  simp only [hrej, Bool.false_eq_true, not_false_eq_true, if_true]

theorem RateLimit_accept (next : Env → Env) (e : Env)
    (hacc : ((e.rl.getLimiter e.clientIP).1.Allow e.now).1 = true) :
    RateLimit next e
      = next
          { e with
            rl :=
              { (e.rl.getLimiter e.clientIP).2 with
                limiters := (e.rl.getLimiter e.clientIP).2.limiters.set e.clientIP
                  ((e.rl.getLimiter e.clientIP).1.Allow e.now).2 } } := by
  unfold RateLimit
  simp only [hacc, not_true_eq_false, if_false]

theorem Allow_after_refill (r : ℚ) (b : Nat) (now d : Int) (hb : 1 ≤ b) (hr : 0 < r)
    (hd : (1000000000 : ℚ) ≤ (d : ℚ) * r) :
    ((burstLimiter r b now b).Allow (now + d)).1 = true := by
  have hb0 : b ≠ 0 := by omega
  have hdpos : (0 : ℚ) < (d : ℚ) := by
    by_contra hneg
    have hle : (d : ℚ) ≤ 0 := le_of_not_lt hneg
    have : (d : ℚ) * r ≤ 0 := mul_nonpos_of_nonpos_of_nonneg hle hr.le
    linarith
  have hd0 : (0 : Int) ≤ d := by
    have : ((0 : Int) : ℚ) < (d : ℚ) := by simpa using hdpos
    exact le_of_lt (by exact_mod_cast this)
  have hrefill : (1 : ℚ) ≤ min ((b : Int) : ℚ)
      ((b : ℚ) - b + ((max 0 (now + d - now) : Int) : ℚ) * r / 1000000000) := by
    have hmax : max 0 (now + d - now) = d := by
      rw [add_sub_cancel_left]
      exact max_eq_right hd0
    rw [hmax]
    apply le_min
    · have : ((1 : Nat) : ℚ) ≤ (b : ℚ) := by exact_mod_cast hb
      simpa using this
    · rw [sub_self, zero_add, le_div_iff₀ (by norm_num)]
      linarith
  unfold Limiter.Allow
  simp only [burstLimiter, hb0, if_false]
  rw [if_pos hrefill]

theorem Allow_of_burst_zero (l : Limiter) (now : Int) (hl : l.burst = 0) :
    l.Allow now = (false, l) := by
  unfold Limiter.Allow
  have hno : ∀ x : ℚ, ¬ (1 : ℚ) ≤ min ((l.burst : Int) : ℚ) x := by
    intro x hx
    have h1 := le_trans hx (min_le_left _ _)
    rw [hl] at h1
    norm_num at h1
  simp only [hno, if_false]

/-- A limiter created with rate 10 and burst 0: the single request of the
burst is rejected, and the same client is rejected again one second (ten
refill intervals) later. -/
theorem RateLimit_zero_burst_never_accepts :
    Example.zeroBurstRequest.rl.burst = 0 ∧
    (RateLimit Example.okEndpoint Example.zeroBurstRequest).written = [⟨429, rateLimitBody⟩] ∧
    Example.zeroBurstLater.now = 1000000000 ∧
    (RateLimit Example.okEndpoint Example.zeroBurstLater).written = [⟨429, rateLimitBody⟩] := by
  have h1 : ((Example.zeroBurstRequest.rl.getLimiter Example.zeroBurstRequest.clientIP).1.Allow
      Example.zeroBurstRequest.now) = (false, NewLimiter 10 0) :=
    Allow_of_burst_zero _ _ rfl
  have hstep1 := RateLimit_reject Example.okEndpoint Example.zeroBurstRequest
    (by rw [h1])
  have hrl : Example.zeroBurstLater.rl.limiters.get Example.zeroBurstLater.clientIP
      = some (NewLimiter 10 0) := by
    show (RateLimit Example.okEndpoint Example.zeroBurstRequest).rl.limiters.get _ = _
    rw [hstep1, h1]
    exact GoMap.get_set_self _ _ _
  have h2 : ((Example.zeroBurstLater.rl.getLimiter Example.zeroBurstLater.clientIP).1.Allow
      Example.zeroBurstLater.now).1 = false := by
    unfold RateLimiter.getLimiter
    rw [hrl]
    simp only [Allow_of_burst_zero (NewLimiter 10 0) _ rfl]
  refine ⟨rfl, ?_, rfl, ?_⟩
  · rw [hstep1]
    rfl
  · rw [RateLimit_reject Example.okEndpoint Example.zeroBurstLater h2]
    rfl

/-- Requests served one after the other, over the token bucket: `b + 1`
requests issued at the same instant by a client the limiter has not seen,
each served by `RateLimit` in front of a handler `next` that does not touch
the limiter, and each served to its end before the next one starts.  The
first `b` are passed to `next` and the last is aborted with status 429 and
`retry_after` "1s"; all are checked against the one limiter stored for the
client by the first request, which loses a token per accepted request.  When
`b ≥ 1` and the refill rate is positive, a request of that client arriving
at least one refill interval later is passed to `next`. -/
theorem RateLimit_burst_accepts_then_rejects (next : Env → Env) (req : Env) (b : Nat)
    (hb : req.rl.burst = b) (hnew : req.rl.limiters.get req.clientIP = none)
    (hframe : ∀ x, (next x).rl = x.rl) :
    serveBurst next req (b + 1) req.rl
      = (List.range b).map
          (fun j => next { req with rl := burstState req.rl req.clientIP b req.now (j + 1) })
        ++ [gin.Abort (gin.JSON { req with rl := burstState req.rl req.clientIP b req.now b }
              429 rateLimitBody)] ∧
    (gin.Abort (gin.JSON { req with rl := burstState req.rl req.clientIP b req.now b }
        429 rateLimitBody)).written
      = req.written ++ [⟨429, [("error".toList, "Rate limit exceeded".toList),
          ("retry_after".toList, "1s".toList)]⟩] ∧
    (∀ j, (burstState req.rl req.clientIP b req.now j).limiters.len = req.rl.limiters.len + 1 ∧
      (burstState req.rl req.clientIP b req.now j).limiters.get req.clientIP
        = some (burstLimiter req.rl.rate b req.now j)) ∧
    (1 ≤ b → 0 < req.rl.rate → ∀ d : Int, (1000000000 : ℚ) ≤ (d : ℚ) * req.rl.rate →
      ∃ rl1, RateLimit next
          { req with rl := burstState req.rl req.clientIP b req.now b, now := req.now + d }
        = next { req with rl := rl1, now := req.now + d }) := by
  refine ⟨?_, rfl, ?_, ?_⟩
  · have hfirst : serveBurst next req (b + 1) req.rl
        = serveBurst next req (b + 1) (burstState req.rl req.clientIP b req.now 0) := by
      have hreq : ({ req with rl := req.rl } : Env) = req := rfl
      unfold serveBurst
      rw [hreq, RateLimit_fresh next req b hb hnew]
    rw [hfirst, serveBurst_burstState next req req.rl b hframe b 0 (by omega),
      List.range_eq_range']
  · intro j
    exact ⟨GoMap.len_set_of_get_none _ _ _ hnew, GoMap.get_set_self _ _ _⟩
  · intro hb1 hr d hd
    have hacc := Allow_after_refill req.rl.rate b req.now d hb1 hr hd
    refine ⟨_, RateLimit_accept next _ ?_⟩
    show (((burstState req.rl req.clientIP b req.now b).getLimiter req.clientIP).1.Allow
      (req.now + d)).1 = true
    rw [getLimiter_burstState]
    exact hacc

/-- At a limiter of rate 10 and burst 2: of three requests at time 0, served
one after the other, two are answered by the endpoint and the third with
429. -/
theorem RateLimit_burst_accepts_then_rejects_witness :
    Example.request.rl.burst = ((2 : Nat) : Int) ∧
    Example.request.rl.limiters.get Example.request.clientIP = none ∧
    (∀ x, (Example.okEndpoint x).rl = x.rl) ∧
    (serveBurst Example.okEndpoint Example.request (2 + 1) Example.request.rl).map
        (fun e => e.written)
      = [[⟨200, []⟩], [⟨200, []⟩], [⟨429, rateLimitBody⟩]] :=
  ⟨rfl, rfl, fun _ => rfl, by
    rw [(RateLimit_burst_accepts_then_rejects Example.okEndpoint Example.request 2 rfl rfl
      (fun _ => rfl)).1]
    rfl⟩

/-! ## Requests of one client served at the same time -/

theorem Allow_fresh (r : ℚ) (b now : Int) (hb : 1 ≤ b) :
    (NewLimiter r b).Allow now = (true, ⟨r, b, (b : ℚ) - 1, some now⟩) := by
  have h1 : (1 : ℚ) ≤ (b : ℚ) := by exact_mod_cast hb
  simp [NewLimiter, Limiter.Allow, h1]

theorem Allow_spent (l : Limiter) (now : Int) (hlast : l.last = some now) (htokens : l.tokens < 1) :
    l.Allow now = (false, l) := by
  unfold Limiter.Allow
  rw [hlast]
  have hno : ¬ (1 : ℚ) ≤ min ((l.burst : Int) : ℚ)
      (l.tokens + ((max 0 (now - now) : Int) : ℚ) * l.limit / 1000000000) := by
    intro h
    have h2 := le_trans h (min_le_right _ _)
    simp at h2
    linarith
  simp only [hno, if_false]

namespace SharedLimiters

/-- Two requests of a client that has no limiter yet, for a burst of at
least one, each looking the client up before either limiter is created:
each goroutine creates a limiter of its own, full, and both requests are
allowed, whatever the burst. -/
theorem run_racing (sl : SharedLimiters) (ip : Str) (now : Int)
    (hnew : sl.limiters.get ip = none) (hburst : 1 ≤ sl.burst) :
    (run ip now (sl, [.start, .start]) [0, 1, 0, 1, 0, 1]).2
      = [.answered true, .answered true] ∧
    (run ip now (sl, [.start, .start]) [0, 1, 0, 1, 0, 1]).1.objects.length
      = sl.objects.length + 2 := by
  have hget0 : (sl.objects ++ [NewLimiter sl.rate sl.burst]
      ++ [NewLimiter sl.rate sl.burst])[sl.objects.length]?
      = some (NewLimiter sl.rate sl.burst) := by
    rw [List.append_assoc, List.getElem?_append_right (le_refl _)]
    simp
  have hget1 : ∀ x : Limiter, ((sl.objects ++ [NewLimiter sl.rate sl.burst]
      ++ [NewLimiter sl.rate sl.burst]).set sl.objects.length x)[sl.objects.length + 1]?
      = some (NewLimiter sl.rate sl.burst) := by
    intro x
    rw [List.getElem?_set_ne (by omega),
      List.getElem?_append_right (by simp)]
    simp
  simp only [run, step, hnew, List.getElem?_cons_zero, List.getElem?_cons_succ, List.set_cons_zero,
    List.set_cons_succ, List.length_append, List.length_singleton, hget0, hget1,
    Allow_fresh sl.rate sl.burst now hburst, List.length_set]
  exact ⟨trivial, trivial⟩

/-- The same two requests served one after the other: the second finds the
limiter of the first, and with a burst of one it is rejected. -/
theorem run_in_turn (sl : SharedLimiters) (ip : Str) (now : Int)
    (hnew : sl.limiters.get ip = none) (hburst : sl.burst = 1) :
    (run ip now (sl, [.start, .start]) [0, 0, 0, 1, 1]).2
      = [.answered true, .answered false] ∧
    (run ip now (sl, [.start, .start]) [0, 0, 0, 1, 1]).1.objects.length
      = sl.objects.length + 1 := by
  have hget0 : (sl.objects ++ [NewLimiter sl.rate sl.burst])[sl.objects.length]?
      = some (NewLimiter sl.rate sl.burst) := by
    rw [List.getElem?_append_right (le_refl _)]
    simp
  have hfresh := Allow_fresh sl.rate sl.burst now (by omega)
  have hget1 : ∀ x : Limiter, ((sl.objects ++ [NewLimiter sl.rate sl.burst]).set
      sl.objects.length x)[sl.objects.length]? = some x := by
    intro x
    rw [List.getElem?_set_self (by simp)]
  have hspent : (⟨sl.rate, sl.burst, (sl.burst : ℚ) - 1, some now⟩ : Limiter).Allow now
      = (false, ⟨sl.rate, sl.burst, (sl.burst : ℚ) - 1, some now⟩) := by
    apply Allow_spent _ _ rfl
    show (sl.burst : ℚ) - 1 < 1
    rw [hburst]
    norm_num
  simp only [run, step, hnew, List.getElem?_cons_zero, List.getElem?_cons_succ, List.set_cons_zero,
    List.set_cons_succ, hget0, hfresh, hget1, GoMap.get_set_self, hspent, List.length_set,
    List.length_append, List.length_singleton]
  exact ⟨trivial, trivial⟩

end SharedLimiters

/-- C8.  A rate limiter of burst 1 and a client it has not seen; two
requests of that client arrive at the same instant and their goroutines run
`getLimiter` at the same time.  Each looks the client up under the read
lock and finds no limiter; each then creates one under the write lock,
which does not look the client up again.  Two limiters exist for the one
client, each request consumes the token of its own limiter, and both
requests are allowed: more than the burst.  Served one after the other,
the second request is rejected. -/
theorem racing_first_requests_exceed_the_burst :
    ((NewSharedLimiters 10 1).limiters.get "10.0.0.1".toList = none ∧
      (NewSharedLimiters 10 1).burst = 1) ∧
    (SharedLimiters.run "10.0.0.1".toList 0
        (NewSharedLimiters 10 1, [.start, .start]) Example.racingSchedule).2
      = [.answered true, .answered true] ∧
    (SharedLimiters.run "10.0.0.1".toList 0
        (NewSharedLimiters 10 1, [.start, .start]) Example.racingSchedule).1.objects.length
      = 2 ∧
    (SharedLimiters.run "10.0.0.1".toList 0
        (NewSharedLimiters 10 1, [.start, .start]) [0, 0, 0, 1, 1]).2
      = [.answered true, .answered false] :=
  ⟨⟨rfl, rfl⟩,
    (SharedLimiters.run_racing (NewSharedLimiters 10 1) "10.0.0.1".toList 0 rfl (by decide)).1,
    (SharedLimiters.run_racing (NewSharedLimiters 10 1) "10.0.0.1".toList 0 rfl (by decide)).2,
    (SharedLimiters.run_in_turn (NewSharedLimiters 10 1) "10.0.0.1".toList 0 rfl rfl).1⟩

/-! ## The analysis handler -/

/-- C5, at a failing input.  The same file `a.cif` is submitted twice for
`pore_diameter`, one second apart, to a server with the cache enabled.  Both
requests are answered 500 because `SaveUploadedFile` refuses the path it
built itself (`workspace/...` does not start with `./workspace`): the tool
is never started and nothing is cached.  Moreover the path that would be
fingerprinted contains the clock reading and a random number, so the two
requests would write different bytes to the hasher. -/
theorem ProcessAnalysis_second_request_is_not_a_cache_hit :
    Example.firstRequest.map Prod.fst
      = some (.failure 500 (.saveFailed .invalidPath)) ∧
    Example.secondRequest.map Prod.fst
      = some (.failure 500 (.saveFailed .invalidPath)) ∧
    Example.secondRequest.map (fun r => (r.2.toolRuns, r.2.cache.Stats))
      = some (0, (0, 0)) ∧
    file.uploadPath Example.uploadA "pore_diameter".toList 1700000000000000000 42
      = "workspace/pore_diameter_1700000000000000000_42.cif".toList ∧
    strings.HasPrefix
        (file.uploadPath Example.uploadA "pore_diameter".toList 1700000000000000000 42)
        file.workspace = false ∧
    hashInput (file.uploadPath Example.uploadA "pore_diameter".toList 1700000000000000000 42)
        ["-res".toList, "output.res".toList]
      ≠ hashInput (file.uploadPath Example.uploadA "pore_diameter".toList 1700000001000000000 7)
        ["-res".toList, "output.res".toList] := by
  refine ⟨by decide, by decide, by decide, by decide, by decide, by decide⟩

/-! ## Every upload is refused -/

theorem splitSlash_no_slash : ∀ (p : Str) (x : Str), x ∈ strings.splitSlash p → '/' ∉ x
  | [], x, hx => by
    simp only [strings.splitSlash, List.mem_singleton] at hx
    simp [hx]
  | c :: cs, x, hx => by
    unfold strings.splitSlash at hx
    by_cases hc : c = '/'
    · rw [if_pos hc] at hx
      rcases List.mem_cons.1 hx with h | h
      · simp [h]
      · exact splitSlash_no_slash cs x h
    · rw [if_neg hc] at hx
      cases hs : strings.splitSlash cs with
      | nil =>
        rw [hs] at hx
        simp only [List.mem_singleton] at hx
        subst hx
        simpa using fun h => hc h.symm
      | cons y ys =>
        rw [hs] at hx
        have hy : '/' ∉ y := splitSlash_no_slash cs y (by rw [hs]; exact List.mem_cons_self _ _)
        rcases List.mem_cons.1 hx with h | h
        · subst h
          intro hmem
          rcases List.mem_cons.1 hmem with h1 | h1
          · exact hc h1.symm
          · exact hy h1
        · exact splitSlash_no_slash cs x (by rw [hs]; exact List.mem_cons_of_mem _ h)

theorem cleanStep_elements (rooted : Bool) (out : List Str) (elem : Str)
    (hout : ∀ x ∈ out, x ≠ [] ∧ x ≠ ['.'] ∧ '/' ∉ x) (helem : '/' ∉ elem) :
    ∀ x ∈ filepath.cleanStep rooted out elem, x ≠ [] ∧ x ≠ ['.'] ∧ '/' ∉ x := by
  intro x hx
  unfold filepath.cleanStep at hx
  by_cases h1 : elem = [] ∨ elem = ['.']
  · rw [if_pos h1] at hx
    exact hout x hx
  · rw [if_neg h1] at hx
    have hgood : elem ≠ [] ∧ elem ≠ ['.'] ∧ '/' ∉ elem :=
      ⟨fun h => h1 (Or.inl h), fun h => h1 (Or.inr h), helem⟩
    by_cases h2 : elem = ['.', '.']
    · rw [if_pos h2] at hx
      cases out with
      | nil =>
        by_cases hr : rooted = true
        · simp [hr] at hx
        · simp only [hr, Bool.false_eq_true, if_false, List.mem_singleton] at hx
          rw [hx]
          exact hgood
      | cons top rest =>
        simp only at hx
        by_cases ht : top = ['.', '.']
        · rw [if_pos ht] at hx
          rcases List.mem_cons.1 hx with h | h
          · rw [h]
            exact hgood
          · exact hout x h
        · rw [if_neg ht] at hx
          exact hout x (List.mem_cons_of_mem _ hx)
    · rw [if_neg h2] at hx
      rcases List.mem_cons.1 hx with h | h
      · rw [h]
        exact hgood
      · exact hout x h

theorem foldl_cleanStep_elements (rooted : Bool) :
    ∀ (elems : List Str) (out : List Str),
      (∀ x ∈ out, x ≠ [] ∧ x ≠ ['.'] ∧ '/' ∉ x) → (∀ x ∈ elems, '/' ∉ x) →
      ∀ x ∈ elems.foldl (filepath.cleanStep rooted) out, x ≠ [] ∧ x ≠ ['.'] ∧ '/' ∉ x
  | [], _, hout, _ => hout
  | e :: es, out, hout, helems =>
    foldl_cleanStep_elements rooted es (filepath.cleanStep rooted out e)
      (cleanStep_elements rooted out e hout (helems e (List.mem_cons_self _ _)))
      (fun x hx => helems x (List.mem_cons_of_mem _ hx))

theorem joinSlash_ne_dot_slash :
    ∀ (l : List Str), (∀ x ∈ l, x ≠ [] ∧ x ≠ ['.'] ∧ '/' ∉ x) →
      ∀ rest : Str, strings.joinSlash l ≠ '.' :: '/' :: rest
  | [], _, rest => by simp [strings.joinSlash]
  | [x], hl, rest => by
    intro heq
    simp only [strings.joinSlash] at heq
    have := (hl x (List.mem_singleton_self _)).2.2
    rw [heq] at this
    simp at this
  | x :: y :: t, hl, rest => by
    intro heq
    simp only [strings.joinSlash] at heq
    obtain ⟨hne, hdot, hslash⟩ := hl x (List.mem_cons_self _ _)
    cases x with
    | nil => exact hne rfl
    | cons a x1 =>
      simp only [List.cons_append, List.cons.injEq] at heq
      obtain ⟨ha, hrest⟩ := heq
      cases x1 with
      | nil => exact hdot (by rw [ha])
      | cons b x2 =>
        simp only [List.cons_append, List.cons.injEq] at hrest
        apply hslash
        rw [hrest.1]
        simp

theorem Clean_relative_not_dot_slash (p : Str) (hp : filepath.IsAbs p = false) (rest : Str) :
    filepath.Clean p ≠ '.' :: '/' :: rest := by
  unfold filepath.Clean
  by_cases hnil : p = []
  · rw [if_pos hnil]
    simp
  · rw [if_neg hnil]
    simp only [hp, Bool.false_eq_true, if_false]
    have hout := foldl_cleanStep_elements false (strings.splitSlash p) []
      (by simp) (splitSlash_no_slash p)
    have hrev : ∀ x ∈ (List.foldl (filepath.cleanStep false) [] (strings.splitSlash p)).reverse,
        x ≠ [] ∧ x ≠ ['.'] ∧ '/' ∉ x := fun x hx => hout x (List.mem_reverse.1 hx)
    split
    · simp
    · exact joinSlash_ne_dot_slash _ hrev rest

theorem uploadPath_outside_workspace (f : file.FileHeader) (pre : Str) (nano : Int) (rnd : Nat) :
    strings.HasPrefix (file.uploadPath f pre nano rnd) file.workspace = false := by
  cases hpre : strings.HasPrefix (file.uploadPath f pre nano rnd) file.workspace with
  | false => rfl
  | true =>
    exfalso
    unfold strings.HasPrefix at hpre
    obtain ⟨t, ht⟩ := List.isPrefixOf_iff_prefix.1 hpre
    unfold file.uploadPath filepath.Join at ht
    have hw : file.workspace ≠ [] := by decide
    simp only [hw, ne_eq, not_false_eq_true, if_true] at ht
    refine Clean_relative_not_dot_slash _ ?_ ('w' :: 'o' :: 'r' :: 'k' :: 's' :: 'p' :: 'a' :: 'c' :: 'e' :: t) ht.symm
    rfl

theorem SaveUploadedFile_never_saves (s : Sys) (f : file.FileHeader) (pre : Str) (nano : Int)
    (rnd : Nat) :
    ∃ e, (file.SaveUploadedFile s f pre nano rnd).1 = .error e := by
  unfold file.SaveUploadedFile
  by_cases ho : f.opens = true
  · simp only [ho, not_true_eq_false, if_false]
    cases s.MkdirAll file.workspace with
    | none => exact ⟨_, rfl⟩
    | some s1 =>
      simp only [uploadPath_outside_workspace, Bool.false_eq_true, not_false_eq_true, if_true]
      exact ⟨_, rfl⟩
  · simp only [ho, not_false_eq_true, if_true]
    exact ⟨_, rfl⟩

theorem ProcessAnalysis_always_fails {P R : Type} (d : Deps P R) (app : App)
    (form : Option file.FileHeader) (analysisType : Str) (params : P) (now : Int) (rnd : Nat) :
    ∃ status reason app1,
      ProcessAnalysis d app form analysisType params now rnd
        = some (.failure status reason, app1) ∧
      app1.toolRuns = app.toolRuns ∧ app1.cache = app.cache := by
  unfold ProcessAnalysis
  cases form with
  | none => exact ⟨_, _, _, rfl, rfl, rfl⟩
  | some fileHeader =>
    simp only
    by_cases hv : file.IsValidStructureFile fileHeader.Filename = true
    · simp only [hv, not_true_eq_false, if_false]
      obtain ⟨e, he⟩ := SaveUploadedFile_never_saves app.sys fileHeader analysisType now rnd
      cases hsave : file.SaveUploadedFile app.sys fileHeader analysisType now rnd with
      | mk res s =>
        rw [hsave] at he
        simp only at he
        subst he
        exact ⟨_, _, _, rfl, rfl, rfl⟩
    · simp only [hv, not_false_eq_true, if_true]
      exact ⟨_, _, _, rfl, rfl, rfl⟩

/-! ## The execution engine: results, invocation and collection -/

theorem RunCommand_of_prepare_error (cfg : ZeoConfig) (tool : Tool) (s : Sys)
    (structureFile : Str) (args outputFiles : List Str) (e : RunError)
    (hprep : prepare cfg s structureFile = .error e) :
    (RunCommand cfg tool s structureFile args outputFiles).result = .error e ∧
    (RunCommand cfg tool s structureFile args outputFiles).invoked = none := by
  unfold prepare at hprep
  unfold RunCommand
  cases hmk : s.MkdirAll cfg.Workdir with
  | none =>
    rw [hmk] at hprep
    simp only at hprep
    cases hprep
    exact ⟨rfl, rfl⟩
  | some s1 =>
    rw [hmk] at hprep
    simp only at hprep ⊢
    cases hcp : copyFile s1 structureFile
        (filepath.Join cfg.Workdir (filepath.Base structureFile)) with
    | none =>
      rw [hcp] at hprep
      simp only at hprep
      cases hprep
      exact ⟨rfl, rfl⟩
    | some s2 =>
      rw [hcp] at hprep
      cases hprep

theorem RunCommand_of_prepare_ok (cfg : ZeoConfig) (tool : Tool) (s s2 : Sys)
    (structureFile : Str) (args outputFiles : List Str)
    (hprep : prepare cfg s structureFile = .ok s2) :
    RunCommand cfg tool s structureFile args outputFiles
      = ⟨.ok
          { Success := (tool (invocationOf cfg structureFile args) s2).err.isNone
            ExitCode :=
              match (tool (invocationOf cfg structureFile args) s2).err with
              | none => 0
              | some (.exit code _) => code
              | some (.other _) => -1
            Stdout := (tool (invocationOf cfg structureFile args) s2).stdout
            Stderr :=
              match (tool (invocationOf cfg structureFile args) s2).err with
              | none => []
              | some (.exit _ msg) => msg
              | some (.other msg) => msg
            OutputFiles :=
              (collect cfg (afterTool cfg tool s2 structureFile args) outputFiles).2 },
          (collect cfg (afterTool cfg tool s2 structureFile args) outputFiles).1.Remove
            (filepath.Join cfg.Workdir (filepath.Base structureFile)),
          some (invocationOf cfg structureFile args)⟩ := by
  unfold prepare at hprep
  unfold RunCommand
  cases hmk : s.MkdirAll cfg.Workdir with
  | none =>
    rw [hmk] at hprep
    cases hprep
  | some s1 =>
    rw [hmk] at hprep
    simp only at hprep ⊢
    cases hcp : copyFile s1 structureFile
        (filepath.Join cfg.Workdir (filepath.Base structureFile)) with
    | none =>
      rw [hcp] at hprep
      cases hprep
    | some s3 =>
      rw [hcp] at hprep
      simp only [Except.ok.injEq] at hprep
      subst hprep
      rfl

theorem prepare_ok_iff (cfg : ZeoConfig) (s s2 : Sys) (structureFile : Str) :
    prepare cfg s structureFile = .ok s2 ↔
      ∃ s1, s.MkdirAll cfg.Workdir = some s1 ∧
        copyFile s1 structureFile (filepath.Join cfg.Workdir (filepath.Base structureFile))
          = some s2 := by
  unfold prepare
  cases hmk : s.MkdirAll cfg.Workdir with
  | none => simp
  | some s1 =>
    cases hcp : copyFile s1 structureFile
        (filepath.Join cfg.Workdir (filepath.Base structureFile)) with
    | none => simp [hcp]
    | some s3 => simp [hcp]

theorem prepare_error_iff (cfg : ZeoConfig) (s : Sys) (structureFile : Str) :
    (∃ e, prepare cfg s structureFile = .error e) ↔
      (s.MkdirAll cfg.Workdir = none ∨
        ∃ s1, s.MkdirAll cfg.Workdir = some s1 ∧
          copyFile s1 structureFile (filepath.Join cfg.Workdir (filepath.Base structureFile))
            = none) := by
  unfold prepare
  cases hmk : s.MkdirAll cfg.Workdir with
  | none => simp
  | some s1 =>
    cases hcp : copyFile s1 structureFile
        (filepath.Join cfg.Workdir (filepath.Base structureFile)) with
    | none => simp [hcp]
    | some s3 => simp [hcp]

/-- C12.  `RunCommand` returns an error (and no result) exactly when creating
the workdir or copying the input artifact fails.  Otherwise it returns a
result: `Success` holds iff the invocation returned no error; for a tool that
exited non-zero `ExitCode` is its exit code, for any other invocation error
it is `-1`, and `Stderr` is the text of the error; for a successful run
`ExitCode` is 0 and `Stderr` is empty; `Stdout` is the captured output. -/
theorem RunCommand_error_iff_preparation_fails (cfg : ZeoConfig) (tool : Tool) (s : Sys)
    (structureFile : Str) (args outputFiles : List Str) :
    ((∃ e, (RunCommand cfg tool s structureFile args outputFiles).result = .error e) ↔
      (s.MkdirAll cfg.Workdir = none ∨
        ∃ s1, s.MkdirAll cfg.Workdir = some s1 ∧
          copyFile s1 structureFile (filepath.Join cfg.Workdir (filepath.Base structureFile))
            = none)) ∧
    (∀ s1 s2, s.MkdirAll cfg.Workdir = some s1 →
      copyFile s1 structureFile (filepath.Join cfg.Workdir (filepath.Base structureFile))
        = some s2 →
      ∃ r, (RunCommand cfg tool s structureFile args outputFiles).result = .ok r ∧
        (r.Success = true ↔ (tool (invocationOf cfg structureFile args) s2).err = none) ∧
        (∀ code msg, (tool (invocationOf cfg structureFile args) s2).err = some (.exit code msg) →
          r.Success = false ∧ r.ExitCode = code ∧ r.Stderr = msg) ∧
        (∀ msg, (tool (invocationOf cfg structureFile args) s2).err = some (.other msg) →
          r.Success = false ∧ r.ExitCode = -1 ∧ r.Stderr = msg) ∧
        (r.Success = true → r.ExitCode = 0 ∧ r.Stderr = []) ∧
        r.Stdout = (tool (invocationOf cfg structureFile args) s2).stdout) := by
  constructor
  · rw [← prepare_error_iff]
    constructor
    · rintro ⟨e, he⟩
      cases hprep : prepare cfg s structureFile with
      | error e1 => exact ⟨e1, rfl⟩
      | ok s2 =>
        rw [RunCommand_of_prepare_ok cfg tool s s2 structureFile args outputFiles hprep] at he
        cases he
    · rintro ⟨e, he⟩
      exact ⟨e, (RunCommand_of_prepare_error cfg tool s structureFile args outputFiles e he).1⟩
  · intro s1 s2 hmk hcp
    have hprep : prepare cfg s structureFile = .ok s2 :=
      (prepare_ok_iff cfg s s2 structureFile).2 ⟨s1, hmk, hcp⟩
    rw [RunCommand_of_prepare_ok cfg tool s s2 structureFile args outputFiles hprep]
    refine ⟨_, rfl, ?_, ?_, ?_, ?_, rfl⟩
    · cases (tool (invocationOf cfg structureFile args) s2).err <;> simp
    · intro code msg herr
      simp [herr]
    · intro msg herr
      simp [herr]
    · intro hs
      cases herr : (tool (invocationOf cfg structureFile args) s2).err with
      | none => simp
      | some e => simp [herr] at hs

/-- C12, at a run in which the tool exits with status 2. -/
theorem RunCommand_error_iff_preparation_fails_witness :
    (RunCommand Example.wsConfig Example.failingTool Example.machine "/up/a.cif".toList
        ["-res".toList, "output.res".toList] ["output.res".toList]).result.toOption.map
        (fun r => (r.Success, r.ExitCode, r.Stderr, r.Stdout))
      = some (false, 2, "exit status 2".toList, "bad input".toList) ∧
    ((∃ e, (RunCommand Example.wsConfig Example.failingTool Example.machine "/up/a.cif".toList
        ["-res".toList, "output.res".toList] ["output.res".toList]).result = .error e) ↔
      (Example.machine.MkdirAll Example.wsConfig.Workdir = none ∨
        ∃ s1, Example.machine.MkdirAll Example.wsConfig.Workdir = some s1 ∧
          copyFile s1 "/up/a.cif".toList
            (filepath.Join Example.wsConfig.Workdir (filepath.Base "/up/a.cif".toList)) = none)) :=
  ⟨by decide,
    (RunCommand_error_iff_preparation_fails Example.wsConfig Example.failingTool Example.machine
      "/up/a.cif".toList ["-res".toList, "output.res".toList] ["output.res".toList]).1⟩

/-! ## The command that `RunCommand` runs -/

theorem getD_append_length (m : Arrays) (a : List Str) : (m ++ [a]).getD m.length [] = a := by
  rw [List.getD_eq_getElem?_getD, List.getElem?_append_right (le_refl _)]
  simp

theorem set_append_length (m : Arrays) (a b : List Str) :
    (m ++ [a]).set m.length b = m ++ [b] := by
  induction m with
  | nil => rfl
  | cons x t ih => simp [ih]

theorem take_succ_append_cons (xs rest : List Str) (w : Str) :
    (xs ++ w :: rest).take (xs.length + 1) = xs ++ [w] := by
  induction xs with
  | nil => simp
  | cons x t ih =>
    simp only [List.length_cons, List.cons_append, List.take_succ_cons, ih]

/-- Appending to the empty slice allocates: no array allocated before is
touched. -/
theorem goAppend_emptySlice (grow : Nat → Nat) (mem : Arrays) (xs : List Str) (hxs : xs ≠ []) :
    goAppend grow mem emptySlice xs
      = (⟨mem.length, 0, xs.length, max xs.length (grow xs.length)⟩,
          mem ++ [xs ++ List.replicate (max xs.length (grow xs.length) - xs.length) []]) := by
  have hpos : 0 < xs.length := List.length_pos.2 hxs
  unfold goAppend
  rw [if_neg hxs, if_neg (by simp only [emptySlice]; omega)]
  simp [emptySlice, Slice.elems]

/-- Appending one value to a slice that is the only one into the array
allocated last: its elements followed by the value, and no array allocated
before is touched. -/
theorem goAppend_fresh (grow : Nat → Nat) (m : Arrays) (xs pad : List Str) (c : Nat) (w : Str) :
    ((goAppend grow (m ++ [xs ++ pad]) ⟨m.length, 0, xs.length, c⟩ [w]).1.elems
        (goAppend grow (m ++ [xs ++ pad]) ⟨m.length, 0, xs.length, c⟩ [w]).2 = xs ++ [w]) ∧
    (goAppend grow (m ++ [xs ++ pad]) ⟨m.length, 0, xs.length, c⟩ [w]).2.take m.length = m := by
  unfold goAppend
  rw [if_neg (List.cons_ne_nil _ _)]
  by_cases hroom : xs.length + [w].length ≤ c
  · rw [if_pos hroom]
    dsimp only
    rw [getD_append_length, set_append_length]
    constructor
    · unfold Slice.elems
      dsimp only
      rw [getD_append_length]
      simp only [Nat.zero_add, List.drop_zero, List.length_singleton, List.take_left,
        List.append_assoc, List.singleton_append]
      exact take_succ_append_cons _ _ _
    · simp
  · rw [if_neg hroom]
    dsimp only
    constructor
    · unfold Slice.elems
      dsimp only
      rw [getD_append_length, getD_append_length]
      simp only [Nat.zero_add, List.drop_zero, List.length_singleton, List.take_left,
        List.append_assoc, List.singleton_append]
      exact take_succ_append_cons _ _ _
    · rw [List.append_assoc, List.take_left]

/-- Lines 47 and 48 of `RunCommand` on slices: the vector built holds the
elements of the caller's slice followed by the workspace file, and every
array allocated before, the caller's among them, is as it was, whatever the
capacity of the caller's slice. -/
theorem fullArgs_spec (grow : Nat → Nat) (mem : Arrays) (caller : Slice)
    (workspaceFile : Str) :
    (fullArgs grow mem caller workspaceFile).1.elems
        (fullArgs grow mem caller workspaceFile).2 = caller.elems mem ++ [workspaceFile] ∧
    (fullArgs grow mem caller workspaceFile).2.take mem.length = mem := by
  unfold fullArgs
  dsimp only
  by_cases hxs : caller.elems mem = []
  · have hcopy : goAppend grow mem emptySlice (caller.elems mem) = (emptySlice, mem) := by
      unfold goAppend
      rw [if_pos hxs]
    rw [hcopy, hxs]
    dsimp only
    rw [goAppend_emptySlice grow mem [workspaceFile] (List.cons_ne_nil _ _)]
    constructor
    · unfold Slice.elems
      dsimp only
      rw [getD_append_length]
      simp
    · rw [List.take_left]
  · rw [goAppend_emptySlice grow mem (caller.elems mem) hxs]
    dsimp only
    exact goAppend_fresh grow mem (caller.elems mem) _ _ workspaceFile

/-- An `append` made on the caller's slice itself writes into the caller's
array when its capacity has room. -/
theorem goAppend_writes_in_place :
    (goAppend (fun n => 2 * n) Example.callerArrays Example.callerArgs ["/ws/a.cif".toList]).2
      = [["-res".toList, "output.res".toList, "/ws/a.cif".toList]] := by
  decide

/-- C18.  Whenever the workdir is created and the structure file copied,
`RunCommand` runs the command made of the configured executable, of the
caller's arguments followed by exactly one more element,
`Join(workdir, Base(structureFile))`, and of the working directory
`workdir`: for every tool, the output and the success it returns are those
of the tool on that command; so a tool that prints an observation of the
command it is given makes `RunCommand` return the observation of that
command.  The vector is built by appending to a new slice: the array behind
the caller's slice is as it was, also beyond the length of the slice and
whatever its capacity. -/
theorem RunCommand_invocation_shape (cfg : ZeoConfig) (s s2 : Sys) (structureFile : Str)
    (args outputFiles : List Str) (hprep : prepare cfg s structureFile = .ok s2) :
    (∀ tool : Tool, ∃ result,
      (RunCommand cfg tool s structureFile args outputFiles).result = .ok result ∧
      result.Stdout
        = (tool ⟨cfg.ExecutablePath,
            args ++ [filepath.Join cfg.Workdir (filepath.Base structureFile)],
            cfg.Workdir⟩ s2).stdout ∧
      (result.Success = true ↔
        (tool ⟨cfg.ExecutablePath,
            args ++ [filepath.Join cfg.Workdir (filepath.Base structureFile)],
            cfg.Workdir⟩ s2).err.isNone = true)) ∧
    (∀ obs : Invocation → Str, ∃ result,
      (RunCommand cfg (fun inv st => ⟨st.files, obs inv, none⟩) s structureFile args
        outputFiles).result = .ok result ∧
      result.Stdout
        = obs ⟨cfg.ExecutablePath,
            args ++ [filepath.Join cfg.Workdir (filepath.Base structureFile)],
            cfg.Workdir⟩) ∧
    (args ++ [filepath.Join cfg.Workdir (filepath.Base structureFile)]).length
      = args.length + 1 ∧
    (args ++ [filepath.Join cfg.Workdir (filepath.Base structureFile)]).take args.length
      = args ∧
    (∀ (grow : Nat → Nat) (mem : Arrays) (caller : Slice), caller.elems mem = args →
      (fullArgs grow mem caller
            (filepath.Join cfg.Workdir (filepath.Base structureFile))).1.elems
          (fullArgs grow mem caller
            (filepath.Join cfg.Workdir (filepath.Base structureFile))).2
        = args ++ [filepath.Join cfg.Workdir (filepath.Base structureFile)] ∧
      (fullArgs grow mem caller
          (filepath.Join cfg.Workdir (filepath.Base structureFile))).2.take mem.length
        = mem) := by
  refine ⟨?_, ?_, by simp, by simp, ?_⟩
  · intro tool
    rw [RunCommand_of_prepare_ok cfg tool s s2 structureFile args outputFiles hprep]
    exact ⟨_, rfl, rfl, Iff.rfl⟩
  · intro obs
    rw [RunCommand_of_prepare_ok cfg _ s s2 structureFile args outputFiles hprep]
    exact ⟨_, rfl, rfl⟩
  · intro grow mem caller helems
    rw [← helems]
    exact fullArgs_spec grow mem caller _

/-- C18, at a tool that prints the command it is given, and at a caller's
slice of length 2 and capacity 3. -/
theorem RunCommand_invocation_shape_witness :
    prepare Example.wsConfig Example.machine "/up/a.cif".toList = .ok Example.preparedMachine ∧
    (∃ result,
      (RunCommand Example.wsConfig Example.echoTool Example.machine "/up/a.cif".toList
        ["-res".toList, "output.res".toList] ["output.res".toList]).result = .ok result ∧
      result.Stdout = "network\n/ws\n-res\noutput.res\n/ws/a.cif\n".toList) ∧
    (fullArgs (fun n => 2 * n) Example.callerArrays Example.callerArgs "/ws/a.cif".toList).2.take 1
      = Example.callerArrays :=
  ⟨rfl,
    (RunCommand_invocation_shape Example.wsConfig Example.machine Example.preparedMachine
      "/up/a.cif".toList ["-res".toList, "output.res".toList] ["output.res".toList] rfl).2.1
      (fun inv => (inv.path :: inv.dir :: inv.args).flatMap (fun a => a ++ ['\n'])),
    ((RunCommand_invocation_shape Example.wsConfig Example.machine Example.preparedMachine
      "/up/a.cif".toList ["-res".toList, "output.res".toList] ["output.res".toList] rfl).2.2.2.2
      (fun n => 2 * n) Example.callerArrays Example.callerArgs rfl).2⟩

/-! ## The collection loop -/

namespace GoMap

variable {V : Type}

theorem find_cons_ne (e : Str × V) (t : List (Str × V)) {k1 : Str} (h : e.1 ≠ k1) :
    (e :: t).find? (fun e => decide (e.1 = k1)) = t.find? (fun e => decide (e.1 = k1)) := by
  simp [List.find?_cons, h]

theorem find_cons_eq (e : Str × V) (t : List (Str × V)) {k1 : Str} (h : e.1 = k1) :
    (e :: t).find? (fun e => decide (e.1 = k1)) = some e := by
  simp [List.find?_cons, h]

theorem find_dropKey_ne {k k1 : Str} (hne : k1 ≠ k) (l : List (Str × V)) :
    (dropKey k l).find? (fun e => decide (e.1 = k1)) = l.find? (fun e => decide (e.1 = k1)) := by
  induction l with
  | nil => rfl
  | cons e t ih =>
    by_cases hk : e.1 = k
    · have hd : dropKey k (e :: t) = dropKey k t := by simp [dropKey, hk]
      have he : e.1 ≠ k1 := fun h1 => hne (h1 ▸ hk)
      rw [hd, ih, find_cons_ne e t he]
    · have hd : dropKey k (e :: t) = e :: dropKey k t := by simp [dropKey, hk]
      rw [hd]
      by_cases h1 : e.1 = k1
      · rw [find_cons_eq e _ h1, find_cons_eq e _ h1]
      · rw [find_cons_ne e _ h1, find_cons_ne e _ h1, ih]

theorem get_delete_ne (m : GoMap V) {k k1 : Str} (hne : k1 ≠ k) :
    (m.delete k).get k1 = m.get k1 := by
  unfold get delete
  simp only [find_dropKey_ne hne]

theorem get_set_ne (m : GoMap V) {k k1 : Str} (v : V) (hne : k1 ≠ k) :
    (m.set k v).get k1 = m.get k1 := by
  unfold get set
  have hhead : ((k, v) : Str × V).1 ≠ k1 := fun h => hne h.symm
  simp only [find_cons_ne _ _ hhead, find_dropKey_ne hne]

theorem get_delete_of_none (m : GoMap V) (k k1 : Str) (hnone : m.get k1 = none) :
    (m.delete k).get k1 = none := by
  by_cases hk : k1 = k
  · rw [hk]
    exact get_delete_self m k
  · rw [get_delete_ne m hk]
    exact hnone

end GoMap

namespace Sys

theorem Remove_cwd (s : Sys) (p : Str) :
    (s.Remove p).cwd = s.cwd ∧ (s.Remove p).getwdOk = s.getwdOk := by
  unfold Remove
  simp only
  split
  · exact ⟨rfl, rfl⟩
  · split
    · exact ⟨rfl, rfl⟩
    · exact ⟨rfl, rfl⟩
  · exact ⟨rfl, rfl⟩

theorem resolve_congr (s t : Sys) (p : Str) (hcwd : t.cwd = s.cwd) : t.resolve p = s.resolve p := by
  unfold resolve
  rw [hcwd]

theorem Remove_get_of_none (s : Sys) (p key : Str) (hnone : s.files.get key = none) :
    (s.Remove p).files.get key = none := by
  unfold Remove
  simp only
  split
  · exact GoMap.get_delete_of_none _ _ _ hnone
  · split
    · exact hnone
    · exact GoMap.get_delete_of_none _ _ _ hnone
  · exact hnone

theorem Remove_get_ne (s : Sys) (p key : Str) (hne : key ≠ s.resolve p) :
    (s.Remove p).files.get key = s.files.get key := by
  unfold Remove
  simp only
  split
  · exact GoMap.get_delete_ne _ hne
  · split
    · rfl
    · exact GoMap.get_delete_ne _ hne
  · rfl

theorem Remove_get_file (s : Sys) (p : Str) (content : Str) (size : Nat) (readable : Bool)
    (hfile : s.files.get (s.resolve p) = some (Node.file content size readable)) :
    (s.Remove p).files.get (s.resolve p) = none := by
  unfold Remove
  simp only [hfile]
  exact GoMap.get_delete_self _ _

theorem Stat_congr (s t : Sys) (p : Str) (hcwd : t.cwd = s.cwd)
    (hget : t.files.get (s.resolve p) = s.files.get (s.resolve p)) :
    t.Stat p = s.Stat p := by
  unfold Stat
  rw [resolve_congr s t p hcwd, hget]

theorem Stat_eq_none_iff (s : Sys) (p : Str) :
    s.Stat p = none ↔ s.resolve p ≠ ['/'] ∧ s.files.get (s.resolve p) = none := by
  unfold Stat
  by_cases hroot : s.resolve p = ['/']
  · simp [hroot]
  · simp [hroot]

theorem Remove_Stat_of_none (s : Sys) (p q : Str) (hnone : s.Stat q = none) :
    (s.Remove p).Stat q = none := by
  rw [Stat_eq_none_iff] at hnone ⊢
  rw [resolve_congr s _ q (Remove_cwd s p).1]
  exact ⟨hnone.1, Remove_get_of_none s p _ hnone.2⟩

end Sys

theorem collectOne_cases (cfg : ZeoConfig) (st : Sys × GoMap Str) (n : Str) :
    collectOne cfg st n = st ∨
    collectOne cfg st n = (st.1.Remove (filepath.Join cfg.Workdir n), st.2) ∨
    ∃ content, collectOne cfg st n
      = (st.1.Remove (filepath.Join cfg.Workdir n), st.2.set n content) := by
  unfold collectOne
  simp only
  split
  · exact Or.inl rfl
  · split
    · split
      · exact Or.inr (Or.inl rfl)
      · split
        · exact Or.inr (Or.inl rfl)
        · split
          · exact Or.inl rfl
          · exact Or.inr (Or.inr ⟨_, rfl⟩)
    · exact Or.inl rfl

theorem collectOne_cwd (cfg : ZeoConfig) (st : Sys × GoMap Str) (n : Str) :
    (collectOne cfg st n).1.cwd = st.1.cwd ∧ (collectOne cfg st n).1.getwdOk = st.1.getwdOk := by
  rcases collectOne_cases cfg st n with h | h | ⟨c, h⟩
  · rw [h]
    exact ⟨rfl, rfl⟩
  · rw [h]
    exact Sys.Remove_cwd _ _
  · rw [h]
    exact Sys.Remove_cwd _ _

theorem collectOne_Stat_of_none (cfg : ZeoConfig) (st : Sys × GoMap Str) (n q : Str)
    (hnone : st.1.Stat q = none) : (collectOne cfg st n).1.Stat q = none := by
  rcases collectOne_cases cfg st n with h | h | ⟨c, h⟩
  · rw [h]
    exact hnone
  · rw [h]
    exact Sys.Remove_Stat_of_none _ _ _ hnone
  · rw [h]
    exact Sys.Remove_Stat_of_none _ _ _ hnone

theorem collectOne_Stat_of_other (cfg : ZeoConfig) (st : Sys × GoMap Str) (n q : Str)
    (hne : st.1.resolve (filepath.Join cfg.Workdir n) ≠ st.1.resolve q) :
    (collectOne cfg st n).1.Stat q = st.1.Stat q := by
  have hrm : (st.1.Remove (filepath.Join cfg.Workdir n)).Stat q = st.1.Stat q :=
    Sys.Stat_congr _ _ _ (Sys.Remove_cwd _ _).1 (Sys.Remove_get_ne _ _ _ (Ne.symm hne))
  rcases collectOne_cases cfg st n with h | h | ⟨c, h⟩
  · rw [h]
  · rw [h]
    exact hrm
  · rw [h]
    exact hrm

theorem collectOne_get_of_ne (cfg : ZeoConfig) (st : Sys × GoMap Str) (n k : Str)
    (hne : k ≠ n) : (collectOne cfg st n).2.get k = st.2.get k := by
  rcases collectOne_cases cfg st n with h | h | ⟨c, h⟩
  · rw [h]
  · rw [h]
  · rw [h]
    exact GoMap.get_set_ne _ _ hne

theorem collectOne_of_absent (cfg : ZeoConfig) (st : Sys × GoMap Str) (n : Str)
    (hnone : st.1.Stat (filepath.Join cfg.Workdir n) = none) : collectOne cfg st n = st := by
  unfold collectOne
  simp only [file.FileExists, hnone, Option.isSome_none, Bool.false_eq_true, if_false, ite_self]

theorem collectOne_too_large (cfg : ZeoConfig) (st : Sys × GoMap Str) (n : Str) (node : Node)
    (hwithin : withinWorkspace cfg st.1 n = true)
    (hstat : st.1.Stat (filepath.Join cfg.Workdir n) = some node)
    (hbig : node.size > maxFileSize) :
    collectOne cfg st n = (st.1.Remove (filepath.Join cfg.Workdir n), st.2) := by
  unfold collectOne
  simp only [hwithin, not_true_eq_false, if_false, file.FileExists, hstat, Option.isSome_some,
    if_true, hbig]

theorem collectOne_readable (cfg : ZeoConfig) (st : Sys × GoMap Str) (n : Str) (node : Node)
    (content : Str)
    (hwithin : withinWorkspace cfg st.1 n = true)
    (hstat : st.1.Stat (filepath.Join cfg.Workdir n) = some node)
    (hsmall : node.size ≤ maxFileSize)
    (hread : st.1.ReadFile (filepath.Join cfg.Workdir n) = some content) :
    collectOne cfg st n
      = (st.1.Remove (filepath.Join cfg.Workdir n), st.2.set n content) := by
  unfold collectOne
  have hnb : ¬ node.size > maxFileSize := by omega
  simp only [hwithin, not_true_eq_false, if_false, file.FileExists, hstat, Option.isSome_some,
    if_true, hnb, file.GetFileContent, hread]

theorem Remove_Stat_of_regular (s : Sys) (p : Str) (content : Str) (size : Nat)
    (readable : Bool) (hstat : s.Stat p = some (Node.file content size readable)) :
    (s.Remove p).Stat p = none := by
  have hroot : s.resolve p ≠ ['/'] := by
    intro hroot
    unfold Sys.Stat at hstat
    rw [if_pos hroot] at hstat
    cases hstat
  have hget : s.files.get (s.resolve p) = some (Node.file content size readable) := by
    unfold Sys.Stat at hstat
    rw [if_neg hroot] at hstat
    exact hstat
  rw [Sys.Stat_eq_none_iff, Sys.resolve_congr s _ p (Sys.Remove_cwd s p).1]
  exact ⟨hroot, Sys.Remove_get_file s p content size readable hget⟩

theorem foldl_collectOne_absent (cfg : ZeoConfig) (name : Str) :
    ∀ (post : List Str) (st : Sys × GoMap Str),
      st.1.Stat (filepath.Join cfg.Workdir name) = none →
      (post.foldl (collectOne cfg) st).1.Stat (filepath.Join cfg.Workdir name) = none ∧
      (post.foldl (collectOne cfg) st).2.get name = st.2.get name
  | [], _, hnone => ⟨hnone, rfl⟩
  | n :: post, st, hnone => by
    have hnext := collectOne_Stat_of_none cfg st n _ hnone
    obtain ⟨h1, h2⟩ := foldl_collectOne_absent cfg name post (collectOne cfg st n) hnext
    refine ⟨h1, ?_⟩
    rw [List.foldl_cons, h2]
    by_cases hn : name = n
    · subst hn
      rw [collectOne_of_absent cfg st name hnone]
    · exact collectOne_get_of_ne cfg st n name hn

theorem foldl_collectOne_cwd (cfg : ZeoConfig) :
    ∀ (l : List Str) (st : Sys × GoMap Str),
      (l.foldl (collectOne cfg) st).1.cwd = st.1.cwd ∧
      (l.foldl (collectOne cfg) st).1.getwdOk = st.1.getwdOk
  | [], _ => ⟨rfl, rfl⟩
  | n :: l, st => by
    obtain ⟨h1, h2⟩ := foldl_collectOne_cwd cfg l (collectOne cfg st n)
    obtain ⟨h3, h4⟩ := collectOne_cwd cfg st n
    exact ⟨h1.trans h3, h2.trans h4⟩

theorem foldl_collectOne_other (cfg : ZeoConfig) (name : Str) :
    ∀ (pre : List Str) (st : Sys × GoMap Str),
      (∀ n ∈ pre, st.1.resolve (filepath.Join cfg.Workdir n)
        ≠ st.1.resolve (filepath.Join cfg.Workdir name)) →
      (pre.foldl (collectOne cfg) st).1.Stat (filepath.Join cfg.Workdir name)
        = st.1.Stat (filepath.Join cfg.Workdir name) ∧
      (pre.foldl (collectOne cfg) st).1.ReadFile (filepath.Join cfg.Workdir name)
        = st.1.ReadFile (filepath.Join cfg.Workdir name) ∧
      (pre.foldl (collectOne cfg) st).2.get name = st.2.get name
  | [], _, _ => ⟨rfl, rfl, rfl⟩
  | n :: pre, st, hdist => by
    have hn := hdist n (List.mem_cons_self _ _)
    have hcwd := (collectOne_cwd cfg st n).1
    have hstat := collectOne_Stat_of_other cfg st n _ hn
    have hne : name ≠ n := by
      intro h
      exact hn (by rw [h])
    have hrest : ∀ n1 ∈ pre,
        (collectOne cfg st n).1.resolve (filepath.Join cfg.Workdir n1)
          ≠ (collectOne cfg st n).1.resolve (filepath.Join cfg.Workdir name) := by
      intro n1 hn1
      rw [Sys.resolve_congr st.1 _ _ hcwd, Sys.resolve_congr st.1 _ _ hcwd]
      exact hdist n1 (List.mem_cons_of_mem _ hn1)
    obtain ⟨h1, h2, h3⟩ := foldl_collectOne_other cfg name pre (collectOne cfg st n) hrest
    refine ⟨h1.trans hstat, ?_, ?_⟩
    · rw [List.foldl_cons, h2]
      unfold Sys.ReadFile
      rw [hstat]
    · rw [List.foldl_cons, h3]
      exact collectOne_get_of_ne cfg st n name hne

theorem withinWorkspace_congr (cfg : ZeoConfig) (s t : Sys) (n : Str)
    (hcwd : t.cwd = s.cwd) (hok : t.getwdOk = s.getwdOk) :
    withinWorkspace cfg t n = withinWorkspace cfg s n := by
  unfold withinWorkspace filepath.Abs
  rw [hcwd, hok]

/-- C11.  A run that reaches the tool, and an expected output name that
passes the containment check and names an existing file not named by an
earlier expected output.  If the size of the file exceeds the ceiling of
100*1024*1024 bytes, the loop only removes it (there is no read on that
path): it is absent from `OutputFiles` and gone from the sandbox afterwards.
If its size is at most the ceiling and it is readable, `OutputFiles[name]`
is exactly its bytes. -/
theorem RunCommand_size_containment (cfg : ZeoConfig) (tool : Tool) (s s2 : Sys)
    (structureFile : Str) (args pre post : List Str) (name : Str) (node : Node)
    (hprep : prepare cfg s structureFile = .ok s2)
    (hdistinct : ∀ n ∈ pre,
      (afterTool cfg tool s2 structureFile args).resolve (filepath.Join cfg.Workdir n)
        ≠ (afterTool cfg tool s2 structureFile args).resolve (filepath.Join cfg.Workdir name))
    (hwithin : withinWorkspace cfg (afterTool cfg tool s2 structureFile args) name = true)
    (hstat : (afterTool cfg tool s2 structureFile args).Stat (filepath.Join cfg.Workdir name)
      = some node) :
    maxFileSize = 100 * 1024 * 1024 ∧
    (node.size > maxFileSize →
      collectOne cfg (pre.foldl (collectOne cfg)
          (afterTool cfg tool s2 structureFile args, GoMap.empty)) name
        = ((pre.foldl (collectOne cfg)
              (afterTool cfg tool s2 structureFile args, GoMap.empty)).1.Remove
            (filepath.Join cfg.Workdir name),
          (pre.foldl (collectOne cfg)
              (afterTool cfg tool s2 structureFile args, GoMap.empty)).2) ∧
      (RunCommand cfg tool s structureFile args (pre ++ name :: post)).outputs.get name = none ∧
      (RunCommand cfg tool s structureFile args (pre ++ name :: post)).sys.Stat
          (filepath.Join cfg.Workdir name) = none) ∧
    (node.size ≤ maxFileSize →
      ∀ content,
        (afterTool cfg tool s2 structureFile args).ReadFile (filepath.Join cfg.Workdir name)
          = some content →
        (RunCommand cfg tool s structureFile args (pre ++ name :: post)).outputs.get name
          = some content) := by
  have hrun := RunCommand_of_prepare_ok cfg tool s s2 structureFile args (pre ++ name :: post)
    hprep
  obtain ⟨hpstat, hpread, hpget⟩ := foldl_collectOne_other cfg name pre
    (afterTool cfg tool s2 structureFile args, GoMap.empty) hdistinct
  obtain ⟨hpcwd, hpok⟩ := foldl_collectOne_cwd cfg pre
    (afterTool cfg tool s2 structureFile args, GoMap.empty)
  have hwithin1 : withinWorkspace cfg (pre.foldl (collectOne cfg)
      (afterTool cfg tool s2 structureFile args, GoMap.empty)).1 name = true := by
    rw [withinWorkspace_congr cfg _ _ name hpcwd hpok]
    exact hwithin
  have hstat1 := hpstat.trans hstat
  have hfold : collect cfg (afterTool cfg tool s2 structureFile args) (pre ++ name :: post)
      = post.foldl (collectOne cfg)
          (collectOne cfg (pre.foldl (collectOne cfg)
            (afterTool cfg tool s2 structureFile args, GoMap.empty)) name) := by
    unfold collect
    rw [List.foldl_append, List.foldl_cons]
  refine ⟨rfl, ?_, ?_⟩
  · intro hbig
    have hstep := collectOne_too_large cfg _ name node hwithin1 hstat1 hbig
    have hfile : ∃ content size readable, node = Node.file content size readable := by
      cases node with
      | file c n r => exact ⟨c, n, r, rfl⟩
      | dir => simp [Node.size] at hbig
    obtain ⟨c, n, r, hnode⟩ := hfile
    have hgone := Remove_Stat_of_regular _ _ c n r (hnode ▸ hstat1)
    have hpost := foldl_collectOne_absent cfg name post
      ((pre.foldl (collectOne cfg)
          (afterTool cfg tool s2 structureFile args, GoMap.empty)).1.Remove
        (filepath.Join cfg.Workdir name),
       (pre.foldl (collectOne cfg)
          (afterTool cfg tool s2 structureFile args, GoMap.empty)).2) hgone
    refine ⟨hstep, ?_, ?_⟩
    · rw [hrun]
      show (collect cfg (afterTool cfg tool s2 structureFile args)
        (pre ++ name :: post)).2.get name = none
      rw [hfold, hstep, hpost.2, hpget]
      rfl
    · rw [hrun]
      show ((collect cfg (afterTool cfg tool s2 structureFile args)
        (pre ++ name :: post)).1.Remove _).Stat _ = none
      rw [hfold, hstep]
      exact Sys.Remove_Stat_of_none _ _ _ hpost.1
  · intro hsmall content hread
    have hread1 := hpread.trans hread
    have hstep := collectOne_readable cfg _ name node content hwithin1 hstat1 hsmall hread1
    have hnode : ∃ size, node = Node.file content size true := by
      unfold Sys.ReadFile at hread
      rw [hstat] at hread
      cases node with
      | dir => simp at hread
      | file c n r =>
        cases r with
        | false => simp at hread
        | true =>
          simp only [Option.some.injEq] at hread
          exact ⟨n, by rw [hread]⟩
    obtain ⟨n, hnode⟩ := hnode
    have hgone := Remove_Stat_of_regular _ _ content n true (hnode ▸ hstat1)
    have hpost := foldl_collectOne_absent cfg name post
      ((pre.foldl (collectOne cfg)
          (afterTool cfg tool s2 structureFile args, GoMap.empty)).1.Remove
        (filepath.Join cfg.Workdir name),
       (pre.foldl (collectOne cfg)
          (afterTool cfg tool s2 structureFile args, GoMap.empty)).2.set name content) hgone
    rw [hrun]
    show (collect cfg (afterTool cfg tool s2 structureFile args)
      (pre ++ name :: post)).2.get name = some content
    rw [hfold, hstep, hpost.2]
    exact GoMap.get_set_self _ _ _

/-- C11, at a run whose tool leaves an `output.res` one byte above the
ceiling. -/
theorem RunCommand_size_containment_witness :
    prepare Example.wsConfig Example.machine "/up/a.cif".toList = .ok Example.preparedMachine ∧
    withinWorkspace Example.wsConfig
      (afterTool Example.wsConfig Example.hugeTool Example.preparedMachine "/up/a.cif".toList
        ["-res".toList, "output.res".toList]) "output.res".toList = true ∧
    (Node.file (List.replicate 104857601 'x') 104857601 true).size > maxFileSize ∧
    (RunCommand Example.wsConfig Example.hugeTool Example.machine "/up/a.cif".toList
        ["-res".toList, "output.res".toList] ([] ++ "output.res".toList :: [])).outputs.get
        "output.res".toList = none ∧
    (RunCommand Example.wsConfig Example.hugeTool Example.machine "/up/a.cif".toList
        ["-res".toList, "output.res".toList] ([] ++ "output.res".toList :: [])).sys.Stat
        (filepath.Join Example.wsConfig.Workdir "output.res".toList) = none :=
  ⟨rfl, by decide, by decide,
    ((RunCommand_size_containment Example.wsConfig Example.hugeTool Example.machine
      Example.preparedMachine "/up/a.cif".toList ["-res".toList, "output.res".toList] [] []
      "output.res".toList (Node.file (List.replicate 104857601 'x') 104857601 true) rfl
      (fun _ h => absurd h (List.not_mem_nil _)) (by decide) rfl).2.1 (by decide)).2⟩

/-! ## The analysis handler: cache writes -/

/-- C13.  The part of `ProcessAnalysis` from the execution on.  The cache
after it is the cache before it unless `RunCommand` returned a result with
`Success = true`, the main output is among its `OutputFiles`, it parsed, and
caching is enabled; the cache is then the result of one `Set` under the
given key of the one-entry map from the main output name to the collected
bytes, and the answer is the uncached success.  For a run that returned an
error or a result without success (non-zero exit, timeout) the cache is
unchanged.  The key the handler passes is `GenerateCacheKey` of the saved
path and the arguments. -/
theorem runAndStore_writes_cache_only_on_success {P R : Type} (d : Deps P R) (app : App)
    (analysisType savedPath : Str) (zeoArgs : List Str) (cacheKey : Str) (now : Int)
    (resp : AnalysisResponse R) (app1 : App)
    (hrun : runAndStore d app analysisType savedPath zeoArgs cacheKey now = some (resp, app1)) :
    (app1.cache = app.cache ∨
      ∃ result data parsed,
        (RunCommand d.zeo d.tool app.sys savedPath zeoArgs (getOutputFiles analysisType)).result
          = .ok result ∧
        result.Success = true ∧
        result.OutputFiles.get ((getOutputFiles analysisType).headD []) = some data ∧
        d.ParseOutputFile analysisType data = some parsed ∧
        app.cache.config.Enabled = true ∧
        app.cache.Set d.hash cacheKey
            (GoMap.empty.set ((getOutputFiles analysisType).headD []) data) now
          = some app1.cache ∧
        resp = .success parsed false) ∧
    ((∀ result,
        (RunCommand d.zeo d.tool app.sys savedPath zeoArgs (getOutputFiles analysisType)).result
          = .ok result → result.Success = false) →
      app1.cache = app.cache) ∧
    (∀ (params : P) (args : List Str) (out : AnalysisResponse R × App),
      d.BuildZeoArgs analysisType params = some args →
      analyseSaved d app analysisType params savedPath now = some out →
      (∃ data, out.1 = .success data true) ∨
      ∃ c, runAndStore d { app with cache := c } analysisType savedPath args
        (GenerateCacheKey d.hash savedPath args) now = some out) := by
  have hmain : app1.cache = app.cache ∨
      ∃ result data parsed,
        (RunCommand d.zeo d.tool app.sys savedPath zeoArgs (getOutputFiles analysisType)).result
          = .ok result ∧
        result.Success = true ∧
        result.OutputFiles.get ((getOutputFiles analysisType).headD []) = some data ∧
        d.ParseOutputFile analysisType data = some parsed ∧
        app.cache.config.Enabled = true ∧
        app.cache.Set d.hash cacheKey
            (GoMap.empty.set ((getOutputFiles analysisType).headD []) data) now
          = some app1.cache ∧
        resp = .success parsed false := by
    unfold runAndStore at hrun
    simp only at hrun
    cases hres : (RunCommand d.zeo d.tool app.sys savedPath zeoArgs
        (getOutputFiles analysisType)).result with
    | error e =>
      rw [hres] at hrun
      simp only [Option.some.injEq, Prod.mk.injEq] at hrun
      left
      rw [← hrun.2]
    | ok result =>
      rw [hres] at hrun
      simp only at hrun
      by_cases hs : result.Success = true
      · simp only [hs, not_true_eq_false, if_false] at hrun
        cases hout : result.OutputFiles.get ((getOutputFiles analysisType).headD []) with
        | none =>
          rw [hout] at hrun
          simp only [Option.some.injEq, Prod.mk.injEq] at hrun
          left
          rw [← hrun.2]
        | some data =>
          rw [hout] at hrun
          simp only at hrun
          cases hparse : d.ParseOutputFile analysisType data with
          | none =>
            rw [hparse] at hrun
            simp only [Option.some.injEq, Prod.mk.injEq] at hrun
            left
            rw [← hrun.2]
          | some parsed =>
            rw [hparse] at hrun
            simp only at hrun
            by_cases hen : app.cache.config.Enabled = true
            · simp only [hen, if_true] at hrun
              cases hset : app.cache.Set d.hash cacheKey
                  (GoMap.empty.set ((getOutputFiles analysisType).headD []) data) now with
              | none =>
                rw [hset] at hrun
                cases hrun
              | some c =>
                rw [hset] at hrun
                simp only [Option.some.injEq, Prod.mk.injEq] at hrun
                right
                refine ⟨result, data, parsed, rfl, hs, hout, hparse, hen, ?_, hrun.1.symm⟩
                rw [← hrun.2]
                exact hset
            · simp only [hen, Bool.false_eq_true, if_false, Option.some.injEq,
                Prod.mk.injEq] at hrun
              left
              rw [← hrun.2]
      · have hs1 : result.Success = false := by simpa using hs
        simp only [hs1, Bool.false_eq_true, not_false_eq_true, if_true, Option.some.injEq,
          Prod.mk.injEq] at hrun
        left
        rw [← hrun.2]
  refine ⟨hmain, ?_, ?_⟩
  · intro hfail
    rcases hmain with h | ⟨result, _, _, hres, hs, _⟩
    · exact h
    · rw [hfail result hres] at hs
      cases hs
  · intro params args out hbuild hsaved
    unfold analyseSaved at hsaved
    rw [hbuild] at hsaved
    simp only at hsaved
    by_cases hen : app.cache.config.Enabled = true
    · simp only [hen, if_true] at hsaved
      cases hget : app.cache.Get d.hash (GenerateCacheKey d.hash savedPath args) now with
      | none =>
        rw [hget] at hsaved
        cases hsaved
      | some r =>
        obtain ⟨found, c⟩ := r
        rw [hget] at hsaved
        simp only at hsaved
        split at hsaved
        · split at hsaved
          · left
            simp only [Option.some.injEq] at hsaved
            exact ⟨_, by rw [← hsaved]⟩
          · exact Or.inr ⟨c, hsaved⟩
        · exact Or.inr ⟨c, hsaved⟩
    · simp only [hen, Bool.false_eq_true, if_false] at hsaved
      exact Or.inr ⟨app.cache, hsaved⟩

/-- C13, at a saved upload whose analysis succeeds: the entry is stored. -/
theorem runAndStore_writes_cache_only_on_success_witness :
    runAndStore Example.deps Example.savedServer "pore_diameter".toList
        "workspace/x.cif".toList ["-res".toList, "output.res".toList] Example.savedKey 5
      = some (.success "1.0 2.0 3.0".toList false, Example.storedServer) ∧
    (Example.storedServer.cache = Example.savedServer.cache ∨
      ∃ result data parsed,
        (RunCommand Example.deps.zeo Example.deps.tool Example.savedServer.sys
            "workspace/x.cif".toList ["-res".toList, "output.res".toList]
            (getOutputFiles "pore_diameter".toList)).result = .ok result ∧
        result.Success = true ∧
        result.OutputFiles.get ((getOutputFiles "pore_diameter".toList).headD []) = some data ∧
        Example.deps.ParseOutputFile "pore_diameter".toList data = some parsed ∧
        Example.savedServer.cache.config.Enabled = true ∧
        Example.savedServer.cache.Set Example.deps.hash Example.savedKey
            (GoMap.empty.set ((getOutputFiles "pore_diameter".toList).headD []) data) 5
          = some Example.storedServer.cache ∧
        (.success "1.0 2.0 3.0".toList false : AnalysisResponse Str) = .success parsed false) :=
  ⟨rfl,
    (runAndStore_writes_cache_only_on_success Example.deps Example.savedServer
      "pore_diameter".toList "workspace/x.cif".toList ["-res".toList, "output.res".toList]
      Example.savedKey 5 (.success "1.0 2.0 3.0".toList false) Example.storedServer rfl).1⟩

/-! ## The result cache: placement of keys -/

namespace GoMap

variable {V : Type}

theorem mem_keys_dropKey {k k1 : Str} {l : List (Str × V)}
    (hmem : k1 ∈ (dropKey k l).map Prod.fst) : k1 ∈ l.map Prod.fst :=
  ((List.filter_sublist l).map Prod.fst).subset hmem

theorem mem_keys_set {m : GoMap V} {k k1 : Str} {v : V} (hmem : k1 ∈ (m.set k v).keys) :
    k1 = k ∨ k1 ∈ m.keys := by
  unfold keys set at hmem
  simp only [List.map_cons, List.mem_cons] at hmem
  rcases hmem with h | h
  · exact Or.inl h
  · exact Or.inr (mem_keys_dropKey h)

theorem mem_keys_delete {m : GoMap V} {k k1 : Str} (hmem : k1 ∈ (m.delete k).keys) :
    k1 ∈ m.keys :=
  mem_keys_dropKey hmem

theorem countP_eq_zero_of_not_mem (k : Str) (l : List Str) (hnot : k ∉ l) :
    l.countP (fun k1 => decide (k1 = k)) = 0 := by
  rw [List.countP_eq_zero]
  intro a ha hak
  simp only [decide_eq_true_eq] at hak
  exact hnot (hak ▸ ha)

theorem countP_le_one_of_nodup (k : Str) :
    ∀ l : List Str, l.Nodup → l.countP (fun k1 => decide (k1 = k)) ≤ 1
  | [], _ => by simp
  | a :: t, hnd => by
    rw [List.nodup_cons] at hnd
    by_cases hak : a = k
    · rw [List.countP_cons_of_pos _ _ (by simpa using hak),
        countP_eq_zero_of_not_mem k t (hak ▸ hnd.1)]
    · rw [List.countP_cons_of_neg _ _ (by simpa using hak)]
      exact countP_le_one_of_nodup k t hnd.2

theorem count_keys_le_one (m : GoMap V) (k : Str) :
    m.keys.countP (fun k1 => decide (k1 = k)) ≤ 1 :=
  countP_le_one_of_nodup k _ m.nodup

end GoMap

theorem sum_eq_getD_of_zero_elsewhere :
    ∀ (l : List Nat) (i0 : Nat), (∀ j x, l[j]? = some x → j ≠ i0 → x = 0) →
      l.sum = (l[i0]?).getD 0
  | [], _, _ => by simp
  | a :: t, 0, hz => by
    have ht : t.sum = (t[t.length]?).getD 0 :=
      sum_eq_getD_of_zero_elsewhere t t.length (fun j x hj _ => hz (j + 1) x (by simpa using hj)
        (by omega))
    simp only [List.sum_cons, ht, List.getElem?_cons_zero, Option.getD_some]
    simp
  | a :: t, n + 1, hz => by
    have ha : a = 0 := hz 0 a (by simp) (by omega)
    have ht : t.sum = (t[n]?).getD 0 :=
      sum_eq_getD_of_zero_elsewhere t n (fun j x hj hne => hz (j + 1) x (by simpa using hj)
        (by omega))
    simp only [List.sum_cons, ha, ht, zero_add, List.getElem?_cons_succ]

namespace Cache

theorem keysInPlace_update {h : Hash} {c : Cache} {i : Nat} {k : Str}
    (items1 : GoMap cacheItem) (hin : c.keysInPlace h) (hi : c.getShard h k = some i)
    (hkeys : ∀ k1 ∈ items1.keys, k1 = k ∨ k1 ∈ (c.shards.getD i GoMap.empty).keys) :
    keysInPlace h { c with shards := c.shards.set i items1 } := by
  intro j items hj k1 hk1
  have hlen : ({ c with shards := c.shards.set i items1 } : Cache).shards.length
      = c.shards.length := by simp
  rw [shardIndex_congr h c _ k1 hlen]
  simp only [List.getElem?_set] at hj
  by_cases hij : i = j
  · subst hij
    rw [if_pos rfl] at hj
    split at hj
    · simp only [Option.some.injEq] at hj
      subst hj
      rcases hkeys k1 hk1 with hk | hk
      · rw [hk]
        exact hi
      · have hlt := shardIndex_lt hi
        have hsome : c.shards[i]? = some (c.shards.getD i GoMap.empty) := by
          rw [List.getD_eq_getElem?_getD, List.getElem?_eq_getElem hlt]
          rfl
        exact hin i _ hsome k1 hk
    · cases hj
  · rw [if_neg hij] at hj
    exact hin j items hj k1 hk1

theorem keysInPlace_step {h : Hash} {c c1 : Cache} {op : CacheOp} (hin : c.keysInPlace h)
    (hstep : c.step h op = some c1) : c1.keysInPlace h := by
  cases op with
  | set key data now =>
    simp only [step, Set] at hstep
    cases hi : c.getShard h key with
    | none => simp [hi] at hstep
    | some i =>
      rw [hi] at hstep
      simp only [Option.some.injEq] at hstep
      subst hstep
      exact keysInPlace_update _ hin hi (fun k1 hk1 => GoMap.mem_keys_set hk1)
  | get key now =>
    simp only [step, Get] at hstep
    cases hi : c.getShard h key with
    | none => simp [hi] at hstep
    | some i =>
      rw [hi] at hstep
      simp only at hstep
      split at hstep
      · simp only [Option.map_some', Option.some.injEq] at hstep
        subst hstep
        exact hin
      · split at hstep
        · simp only [Option.map_some', Option.some.injEq] at hstep
          subst hstep
          exact keysInPlace_update _ hin hi (fun k1 hk1 => Or.inr (GoMap.mem_keys_delete hk1))
        · simp only [Option.map_some', Option.some.injEq] at hstep
          subst hstep
          exact keysInPlace_update _ hin hi (fun k1 hk1 => GoMap.mem_keys_set hk1)
  | delete key =>
    simp only [step, Delete] at hstep
    cases hi : c.getShard h key with
    | none => simp [hi] at hstep
    | some i =>
      rw [hi] at hstep
      simp only [Option.some.injEq] at hstep
      subst hstep
      exact keysInPlace_update _ hin hi (fun k1 hk1 => Or.inr (GoMap.mem_keys_delete hk1))
  | clearExpired now =>
    simp only [step, ClearExpired, Option.some.injEq] at hstep
    subst hstep
    intro j items hj k1 hk1
    have hlen : ({ c with shards := c.shards.map (c.clearShard now) } : Cache).shards.length
        = c.shards.length := by simp
    rw [shardIndex_congr h c _ k1 hlen]
    simp only [List.getElem?_map, Option.map_eq_some'] at hj
    obtain ⟨items0, h0, hclear⟩ := hj
    subst hclear
    apply hin j items0 h0 k1
    exact ((List.filter_sublist items0.entries).map Prod.fst).subset hk1

theorem keysInPlace_run {h : Hash} :
    ∀ (ops : List CacheOp) {c c1 : Cache}, c.keysInPlace h → c.run h ops = some c1 →
      c1.keysInPlace h
  | [], c, c1, hin, hrun => by
    simp only [run, Option.some.injEq] at hrun
    subst hrun
    exact hin
  | op :: ops, c, c1, hin, hrun => by
    simp only [run] at hrun
    cases hs : c.step h op with
    | none => simp [hs] at hrun
    | some c2 =>
      rw [hs] at hrun
      exact keysInPlace_run ops (keysInPlace_step hin hs) hrun

theorem Reachable.keysInPlace {h : Hash} {cfg : CacheConfig} {baseDir : Str} {c : Cache}
    (hc : c.Reachable h cfg baseDir) : c.keysInPlace h := by
  obtain ⟨ops, hops⟩ := hc
  unfold NewCache at hops
  split at hops
  · simp at hops
  · simp only [Option.bind_eq_bind, Option.some_bind] at hops
    refine keysInPlace_run ops ?_ hops
    intro i items hi k hk
    simp only [List.getElem?_replicate] at hi
    split at hi
    · simp only [Option.some.injEq] at hi
      subst hi
      simp [GoMap.keys, GoMap.empty] at hk
    · cases hi

theorem countKey_le_one {h : Hash} {c : Cache} (hin : c.keysInPlace h) (k : Str) :
    c.countKey k ≤ 1 := by
  unfold countKey
  cases hi : c.getShard h k with
  | none =>
    have hlen : c.shards.length = 0 := by
      unfold getShard at hi
      by_contra hne
      rw [if_neg hne] at hi
      cases hi
    have hnil : c.shards = [] := List.length_eq_zero.1 hlen
    simp [hnil]
  | some i0 =>
    rw [sum_eq_getD_of_zero_elsewhere _ i0]
    · simp only [List.getElem?_map]
      cases hs : c.shards[i0]? with
      | none => simp
      | some items =>
        simp only [Option.map_some', Option.getD_some]
        exact GoMap.count_keys_le_one items k
    · intro j x hj hne
      simp only [List.getElem?_map, Option.map_eq_some'] at hj
      obtain ⟨items, hitems, hx⟩ := hj
      rw [← hx]
      apply GoMap.countP_eq_zero_of_not_mem
      intro hmem
      have := hin j items hitems k hmem
      rw [hi] at this
      simp only [Option.some.injEq] at this
      exact hne this.symm

end Cache

/-- C15.  In every cache state reachable from `NewCache` by `Set`, `Get`,
`Delete` and `ClearExpired` calls, a key stored in a shard is stored in the
shard `getShard` selects for it, hence in no other shard, and at most one
entry exists for it over all shards; `getShard` depends on the cache only
through the number of shards, which stays the configured one. -/
theorem Cache_keys_in_selected_shard_only (h : Hash) (cfg : CacheConfig) (baseDir : Str)
    (c : Cache) (hc : c.Reachable h cfg baseDir) :
    (∀ (i : Nat) (items : GoMap cacheItem), c.shards[i]? = some items →
      ∀ k ∈ items.keys, c.getShard h k = some i) ∧
    (∀ (i j : Nat) (items1 items2 : GoMap cacheItem) (k : Str),
      c.shards[i]? = some items1 → c.shards[j]? = some items2 →
      k ∈ items1.keys → k ∈ items2.keys → i = j) ∧
    (∀ k, c.countKey k ≤ 1) ∧
    c.shards.length = cfg.Shards.toNat ∧
    (∀ (c1 : Cache) (k : Str), c1.shards.length = c.shards.length →
      c1.getShard h k = c.getShard h k) := by
  have hin := hc.keysInPlace
  refine ⟨hin, ?_, fun k => Cache.countKey_le_one hin k, hc.shape.1, ?_⟩
  · intro i j items1 items2 k hi hj hk1 hk2
    have h1 := hin i items1 hi k hk1
    have h2 := hin j items2 hj k hk2
    rw [h1] at h2
    simpa using h2
  · intro c1 k hlen
    exact Cache.shardIndex_congr h c c1 k hlen

/-- C15, at the cache that holds one entry for `k`. -/
theorem Cache_keys_in_selected_shard_only_witness :
    Cache.Reachable Example.sampleHash Example.hourCache [] Example.staleCache ∧
    Example.staleCache.countKey "k".toList ≤ 1 ∧
    Example.staleCache.getShard Example.sampleHash "k".toList = some 11 :=
  ⟨⟨[.set "k".toList Example.oneOutput 0], rfl⟩,
    (Cache_keys_in_selected_shard_only Example.sampleHash Example.hourCache []
      Example.staleCache ⟨[.set "k".toList Example.oneOutput 0], rfl⟩).2.2.1 "k".toList,
    by decide⟩

/-! ## The result cache: overwriting and hit accounting -/

namespace Cache

theorem entry_eq {h : Hash} {c : Cache} {k : Str} {i : Nat} (hi : c.getShard h k = some i) :
    c.entry h k = (c.shards.getD i GoMap.empty).get k := by
  unfold entry
  rw [hi]

theorem getShard_set {h : Hash} {c : Cache} {k : Str} {i : Nat} (j : Nat)
    (items : GoMap cacheItem) (hi : c.getShard h k = some i) :
    getShard h { c with shards := c.shards.set j items } k = some i := by
  rw [shardIndex_congr h c _ k (by simp), hi]

theorem countKey_eq {h : Hash} {c : Cache} {k : Str} {i : Nat} (hin : c.keysInPlace h)
    (hi : c.getShard h k = some i) :
    c.countKey k = (c.shards.getD i GoMap.empty).keys.countP (fun k1 => decide (k1 = k)) := by
  unfold countKey
  rw [sum_eq_getD_of_zero_elsewhere _ i]
  · have hlt := shardIndex_lt hi
    simp only [List.getElem?_map, List.getD_eq_getElem?_getD, List.getElem?_eq_getElem hlt,
      Option.map_some', Option.getD_some]
  · intro j x hj hne
    simp only [List.getElem?_map, Option.map_eq_some'] at hj
    obtain ⟨items, hitems, hx⟩ := hj
    rw [← hx]
    apply GoMap.countP_eq_zero_of_not_mem
    intro hmem
    have := hin j items hitems k hmem
    rw [hi] at this
    simp only [Option.some.injEq] at this
    exact hne this.symm

theorem mem_keys_of_find (k : Str) :
    ∀ (l : List (Str × cacheItem)),
      (l.find? (fun e => decide (e.1 = k))).isSome = true → k ∈ l.map Prod.fst
  | [], hf => by simp at hf
  | e :: t, hf => by
    by_cases hk : e.1 = k
    · exact List.mem_map.2 ⟨e, List.mem_cons_self _ _, hk⟩
    · rw [GoMap.find_cons_ne e t hk] at hf
      exact List.mem_cons_of_mem _ (mem_keys_of_find k t hf)

theorem countKey_eq_one_of_entry {h : Hash} {c : Cache} {k : Str} {item : cacheItem}
    (hin : c.keysInPlace h) (hentry : c.entry h k = some item) : c.countKey k = 1 := by
  cases hi : c.getShard h k with
  | none =>
    unfold entry at hentry
    rw [hi] at hentry
    cases hentry
  | some i =>
    rw [entry_eq hi] at hentry
    rw [countKey_eq hin hi]
    have hle := GoMap.count_keys_le_one (c.shards.getD i GoMap.empty) k
    have hmem : k ∈ (c.shards.getD i GoMap.empty).keys := by
      apply mem_keys_of_find
      unfold GoMap.get at hentry
      cases hf : (c.shards.getD i GoMap.empty).entries.find? (fun e => decide (e.1 = k)) with
      | none =>
        rw [hf] at hentry
        cases hentry
      | some e => rfl
    have hpos : 0 < (c.shards.getD i GoMap.empty).keys.countP (fun k1 => decide (k1 = k)) := by
      rw [List.countP_pos_iff]
      exact ⟨k, hmem, by simp⟩
    omega

theorem Set_spec {h : Hash} {c : Cache} {k : Str} {i : Nat} (v : GoMap Str) (t : Int)
    (hin : c.keysInPlace h) (hi : c.getShard h k = some i) :
    ∃ c1, c.Set h k v t = some c1 ∧ c1.getShard h k = some i ∧ c1.keysInPlace h ∧
      c1.config = c.config ∧ c1.entry h k = some ⟨v, t, 0⟩ ∧
      (c1.shards.getD i GoMap.empty).get k = some ⟨v, t, 0⟩ := by
  have hset := Set_eq v t hi
  have hstep : c.step h (.set k v t) = some _ := hset
  have hi1 := getShard_set i ((c.shards.getD i GoMap.empty).set k ⟨v, t, 0⟩) hi
  have hitem : (List.getD (c.shards.set i ((c.shards.getD i GoMap.empty).set k ⟨v, t, 0⟩)) i
      GoMap.empty).get k = some ⟨v, t, 0⟩ := by
    rw [getD_set_self _ _ _ _ (shardIndex_lt hi), GoMap.get_set_self]
  refine ⟨_, hset, hi1, keysInPlace_step hin hstep, rfl, ?_, hitem⟩
  rw [entry_eq hi1]
  exact hitem

end Cache

/-- C14.  For a cache created by `NewCache` with at least one shard, in any
state reached by later calls: after `Set(k, v1)` followed by `Set(k, v2)`
the entry stored for `k` has exactly the data `v2`, the time of the second
`Set` as creation time and a hit counter of zero; it is the only entry for
`k` over all shards; and `Get(k)`, issued at once or at any time at which
the TTL has not elapsed, returns `v2`. -/
theorem Cache_Set_overwrites_entry (h : Hash) (cfg : CacheConfig) (baseDir : Str)
    (c : Cache) (k : Str) (v1 v2 : GoMap Str) (t1 t2 t3 : Int)
    (hshards : 1 ≤ cfg.Shards) (hc : c.Reachable h cfg baseDir) :
    ∃ c1 c2, c.Set h k v1 t1 = some c1 ∧ c1.Set h k v2 t2 = some c2 ∧
      c2.entry h k = some ⟨v2, t2, 0⟩ ∧
      c2.countKey k = 1 ∧
      (∃ c3, c2.Get h k t2 = some (some v2, c3)) ∧
      ((cfg.TTL ≤ 0 ∨ t3 - t2 ≤ cfg.TTL) → ∃ c3, c2.Get h k t3 = some (some v2, c3)) := by
  obtain ⟨hlen, hcfg⟩ := hc.shape
  have hpos : 1 ≤ c.shards.length := by omega
  obtain ⟨i, hi⟩ := Cache.shardIndex_isSome h c k hpos
  obtain ⟨c1, hset1, hi1, hin1, hcfg1, _, _⟩ := Cache.Set_spec v1 t1 hc.keysInPlace hi
  obtain ⟨c2, hset2, hi2, hin2, hcfg2, hentry, hitem⟩ := Cache.Set_spec v2 t2 hin1 hi1
  have hget : ∀ t : Int, (cfg.TTL ≤ 0 ∨ t - t2 ≤ cfg.TTL) →
      ∃ c3, c2.Get h k t = some (some v2, c3) := by
    intro t hfresh
    have hexp : c2.expired ⟨v2, t2, 0⟩ t = false := by
      have hno : ¬ (cfg.TTL > 0 ∧ t - t2 > cfg.TTL) := by
        rintro ⟨h1, h2⟩
        omega
      simp only [Cache.expired, hcfg2, hcfg1, hcfg]
      exact decide_eq_false hno
    exact ⟨_, Cache.Get_hit hi2 hitem hexp⟩
  refine ⟨c1, c2, hset1, hset2, hentry, Cache.countKey_eq_one_of_entry hin2 hentry, ?_,
    hget t3⟩
  by_cases hT : cfg.TTL ≤ 0
  · exact hget t2 (Or.inl hT)
  · exact hget t2 (Or.inr (by omega))

/-- C14, at the fresh cache of 32 shards: two maps stored for `k`. -/
theorem Cache_Set_overwrites_entry_witness :
    (1 : Int) ≤ Example.hourCache.Shards ∧
    ∃ c1 c2,
      Cache.Set Example.sampleHash ⟨List.replicate 32 GoMap.empty, Example.hourCache, []⟩
          "k".toList (GoMap.ofList [("old.res".toList, "0".toList)]) 0 = some c1 ∧
        c1.Set Example.sampleHash "k".toList Example.oneOutput 7 = some c2 ∧
        c2.entry Example.sampleHash "k".toList = some ⟨Example.oneOutput, 7, 0⟩ ∧
        c2.countKey "k".toList = 1 ∧
        (∃ c3, c2.Get Example.sampleHash "k".toList 7 = some (some Example.oneOutput, c3)) ∧
        ((Example.hourCache.TTL ≤ 0 ∨ (9 : Int) - 7 ≤ Example.hourCache.TTL) →
          ∃ c3, c2.Get Example.sampleHash "k".toList 9 = some (some Example.oneOutput, c3)) :=
  ⟨by decide,
    Cache_Set_overwrites_entry Example.sampleHash Example.hourCache []
      ⟨List.replicate 32 GoMap.empty, Example.hourCache, []⟩ "k".toList
      (GoMap.ofList [("old.res".toList, "0".toList)]) Example.oneOutput 0 7 9 (by decide)
      ⟨[], rfl⟩⟩

theorem getD_set_ne {α : Type} (x d : α) :
    ∀ (l : List α) (i j : Nat), i ≠ j → (l.set i x).getD j d = l.getD j d
  | [], _, _, _ => rfl
  | _ :: _, 0, 0, hne => absurd rfl hne
  | _ :: _, 0, _ + 1, _ => rfl
  | _ :: _, _ + 1, 0, _ => rfl
  | _ :: t, i + 1, j + 1, hne => by
    simpa using getD_set_ne x d t i j (by omega)

namespace GoMap

theorem len_set_of_find (m : GoMap cacheItem) (k : Str) (w : cacheItem)
    (hfind : (m.entries.find? (fun e => decide (e.1 = k))).isSome = true) :
    (m.set k w).len = m.len := by
  have := length_dropKey_of_find k m.entries m.nodup hfind
  show ((k, w) :: dropKey k m.entries).length = m.entries.length
  rw [List.length_cons]
  exact this

theorem sum_hits_of_find (k : Str) :
    ∀ (l : List (Str × cacheItem)) (e : Str × cacheItem), (l.map Prod.fst).Nodup →
      l.find? (fun e => decide (e.1 = k)) = some e →
      (l.map (fun e => e.2.HitCount)).sum
        = e.2.HitCount + ((dropKey k l).map (fun e => e.2.HitCount)).sum
  | [], _, _, hf => by cases hf
  | a :: t, e, hnd, hf => by
    simp only [List.map_cons, List.nodup_cons] at hnd
    by_cases hk : a.1 = k
    · rw [find_cons_eq a t hk] at hf
      simp only [Option.some.injEq] at hf
      subst hf
      have hdrop : dropKey k (a :: t) = dropKey k t := by simp [dropKey, hk]
      rw [hdrop, dropKey_eq_self_of_not_mem k t (hk ▸ hnd.1)]
      rfl
    · rw [find_cons_ne a t hk] at hf
      have hdrop : dropKey k (a :: t) = a :: dropKey k t := by simp [dropKey, hk]
      rw [hdrop, List.map_cons, List.sum_cons, List.map_cons, List.sum_cons,
        sum_hits_of_find k t e hnd.2 hf]
      ring

theorem sum_hits_set (m : GoMap cacheItem) (k : Str) (w : cacheItem) :
    ((m.set k w).entries.map (fun e => e.2.HitCount)).sum
      = w.HitCount + ((dropKey k m.entries).map (fun e => e.2.HitCount)).sum := by
  show (((k, w) :: dropKey k m.entries).map (fun e => e.2.HitCount)).sum = _
  rw [List.map_cons, List.sum_cons]

theorem find_of_get {m : GoMap cacheItem} {k : Str} {item : cacheItem}
    (hget : m.get k = some item) :
    ∃ e, m.entries.find? (fun e => decide (e.1 = k)) = some e ∧ e.2 = item := by
  unfold get at hget
  cases hf : m.entries.find? (fun e => decide (e.1 = k)) with
  | none =>
    rw [hf] at hget
    cases hget
  | some e =>
    rw [hf] at hget
    simp only [Option.map_some', Option.some.injEq] at hget
    exact ⟨e, rfl, hget⟩

end GoMap

theorem int64_of_range (x : Int) (hlo : -9223372036854775808 ≤ x)
    (hhi : x < 9223372036854775808) : int64 x = x := by
  unfold int64
  omega

theorem int64_add_int64 (a b : Int) : int64 (int64 a + b) = int64 (a + b) := by
  unfold int64
  omega

namespace Cache

theorem stats_snd_inner (l : List (Str × cacheItem)) :
    ∀ a : Int, l.foldl (fun hits e => int64 (hits + e.2.HitCount)) (int64 a)
      = int64 (a + (l.map (fun e => e.2.HitCount)).sum) := by
  induction l with
  | nil => intro a; simp
  | cons e t ih =>
    intro a
    rw [List.foldl_cons, int64_add_int64, ih]
    simp only [List.map_cons, List.sum_cons]
    congr 1
    ring

theorem stats_snd_foldl (l : List (GoMap cacheItem)) :
    ∀ (n a : Int),
      (l.foldl
        (fun acc items =>
          (acc.1 + (items.len : Int),
            items.entries.foldl (fun hits e => int64 (hits + e.2.HitCount)) acc.2))
        (n, int64 a)).2
        = int64 (a + (l.map (fun items =>
            (items.entries.map (fun e => e.2.HitCount)).sum)).sum) := by
  induction l with
  | nil => intro n a; simp
  | cons m t ih =>
    intro n a
    rw [List.foldl_cons]
    dsimp only
    rw [stats_snd_inner, ih]
    simp only [List.map_cons, List.sum_cons]
    congr 1
    ring

/-- `Stats()` is the number of entries over all shards and the sum of their
hit counters, reduced to an `int64`. -/
theorem Stats_eq (c : Cache) : c.Stats = (c.totalEntries, int64 c.totalHits) := by
  have h1 := Stats_fst c
  have h0 : (0 : Int) = int64 0 := by
    unfold int64
    omega
  have h2 : c.Stats.2 = int64 c.totalHits := by
    unfold Stats totalHits
    rw [show ((0 : Int), (0 : Int)) = (0, int64 0) from by rw [← h0], stats_snd_foldl]
    simp
  exact Prod.ext h1 h2

theorem totals_after_store {c : Cache} {k : Str} {i : Nat} {item : cacheItem}
    (w : cacheItem) (hilt : i < c.shards.length)
    (hitem : (c.shards.getD i GoMap.empty).get k = some item) :
    totalEntries
        { c with shards := c.shards.set i ((c.shards.getD i GoMap.empty).set k w) }
      = c.totalEntries ∧
    totalHits
        { c with shards := c.shards.set i ((c.shards.getD i GoMap.empty).set k w) }
      = c.totalHits - item.HitCount + w.HitCount := by
  obtain ⟨e, hfind, he⟩ := GoMap.find_of_get hitem
  have hsome : ((c.shards.getD i GoMap.empty).entries.find?
      (fun e => decide (e.1 = k))).isSome = true := by
    rw [hfind]
    rfl
  constructor
  · unfold totalEntries
    dsimp only
    rw [sum_map_set (fun items : GoMap cacheItem => (items.len : Int)) _ GoMap.empty _ _ hilt,
      GoMap.len_set_of_find _ k _ hsome]
    ring
  · unfold totalHits
    dsimp only
    rw [sum_map_set
      (fun items : GoMap cacheItem => (items.entries.map (fun e => e.2.HitCount)).sum) _
      GoMap.empty _ _ hilt]
    rw [GoMap.sum_hits_of_find k (c.shards.getD i GoMap.empty).entries e
      (c.shards.getD i GoMap.empty).nodup hfind, he, GoMap.sum_hits_set]
    ring

theorem entry_after_hit_of_ne {h : Hash} {c : Cache} {k k1 : Str} {i : Nat}
    (w : cacheItem) (hi : c.getShard h k = some i) (hne : k1 ≠ k) :
    entry h { c with shards := c.shards.set i ((c.shards.getD i GoMap.empty).set k w) } k1
      = c.entry h k1 := by
  unfold entry
  rw [shardIndex_congr h c _ k1 (by simp)]
  cases hj : c.getShard h k1 with
  | none => rfl
  | some j =>
    dsimp only
    by_cases hij : i = j
    · subst hij
      rw [getD_set_self _ _ _ _ (shardIndex_lt hi), GoMap.get_set_ne _ _ hne]
    · rw [getD_set_ne _ _ _ _ _ hij]

/-- A call of `Get` that runs alone and finds an entry that has not
expired: the data is returned, the entry is stored with its counter raised
by one in `int64`, and nothing else changes. -/
theorem Get_hit_spec {h : Hash} {c : Cache} {k : Str} {i : Nat} {item : cacheItem} {now : Int}
    (hi : c.getShard h k = some i)
    (hitem : (c.shards.getD i GoMap.empty).get k = some item)
    (hexp : c.expired item now = false) :
    ∃ c1, c.Get h k now = some (some item.Data, c1) ∧ c1.config = c.config ∧
      c1.getShard h k = some i ∧
      (c1.shards.getD i GoMap.empty).get k
        = some { item with HitCount := int64 (item.HitCount + 1) } ∧
      c1.totalEntries = c.totalEntries ∧
      c1.totalHits = c.totalHits - item.HitCount + int64 (item.HitCount + 1) ∧
      (∀ k1, k1 ≠ k → c1.entry h k1 = c.entry h k1) := by
  have hilt := shardIndex_lt hi
  obtain ⟨hent, hhits⟩ :=
    totals_after_store { item with HitCount := int64 (item.HitCount + 1) } hilt hitem
  refine ⟨_, Get_hit hi hitem hexp, rfl, getShard_set i _ hi, ?_, hent, hhits, ?_⟩
  · show (List.getD (c.shards.set i _) i GoMap.empty).get k = _
    rw [getD_set_self _ _ _ _ hilt, GoMap.get_set_self]
  · intro k1 hne
    exact entry_after_hit_of_ne _ hi hne

theorem run_gets {h : Hash} {cfg : CacheConfig} {k : Str} {i : Nat} (v : GoMap Str)
    (t0 : Int) :
    ∀ (ts : List Int) (c : Cache) (j : Int),
      c.config = cfg → c.getShard h k = some i →
      (c.shards.getD i GoMap.empty).get k = some ⟨v, t0, j⟩ →
      (∀ t ∈ ts, cfg.TTL ≤ 0 ∨ t - t0 ≤ cfg.TTL) →
      0 ≤ j → j + ts.length < 9223372036854775808 →
      ∃ c2, c.run h (ts.map (fun t => CacheOp.get k t)) = some c2 ∧
        c2.totalEntries = c.totalEntries ∧ c2.totalHits = c.totalHits + ts.length
  | [], c, _, _, _, _, _, _, _ => ⟨c, rfl, rfl, by simp⟩
  | t :: ts, c, j, hcfg, hi, hitem, hfresh, hj, hbound => by
    have hexp : c.expired ⟨v, t0, j⟩ t = false := by
      have hno : ¬ (cfg.TTL > 0 ∧ t - t0 > cfg.TTL) := by
        rintro ⟨h1, h2⟩
        rcases hfresh t (List.mem_cons_self _ _) with h3 | h3 <;> omega
      simp only [expired, hcfg]
      exact decide_eq_false hno
    simp only [List.length_cons, Nat.cast_add, Nat.cast_one] at hbound
    have hwrap : int64 (j + 1) = j + 1 := int64_of_range _ (by omega) (by omega)
    obtain ⟨c1, hget, hcfg1, hi1, hitem1, hent, hhits, _⟩ := Get_hit_spec hi hitem hexp
    dsimp only at hitem1 hhits
    rw [hwrap] at hitem1 hhits
    obtain ⟨c2, hrun, h1, h2⟩ := run_gets v t0 ts c1 (j + 1) (hcfg1.trans hcfg) hi1 hitem1
      (fun t1 ht1 => hfresh t1 (List.mem_cons_of_mem _ ht1)) (by omega) (by omega)
    refine ⟨c2, ?_, h1.trans hent, ?_⟩
    · simp only [List.map_cons, run, step, hget, Option.map_some', Option.some_bind]
      exact hrun
    · rw [h2, hhits]
      simp only [List.length_cons]
      push_cast
      ring

theorem totals_fresh_set (n i : Nat) (cfg : CacheConfig) (baseDir k : Str) (item : cacheItem)
    (hi : i < n) :
    totalEntries ⟨(List.replicate n GoMap.empty).set i (GoMap.empty.set k item), cfg, baseDir⟩
      = 1 ∧
    totalHits ⟨(List.replicate n GoMap.empty).set i (GoMap.empty.set k item), cfg, baseDir⟩
      = item.HitCount := by
  have hlt : i < (List.replicate n (GoMap.empty : GoMap cacheItem)).length := by simpa using hi
  have hgetD : (List.replicate n (GoMap.empty : GoMap cacheItem)).getD i GoMap.empty
      = GoMap.empty := by
    rw [List.getD_eq_getElem?_getD, List.getElem?_replicate_of_lt hi]
    rfl
  constructor
  · unfold totalEntries
    dsimp only
    rw [sum_map_set (fun items : GoMap cacheItem => (items.len : Int)) _ GoMap.empty _ _ hlt,
      hgetD]
    simp [GoMap.len, GoMap.empty, GoMap.set, GoMap.dropKey]
  · unfold totalHits
    dsimp only
    rw [sum_map_set
      (fun items : GoMap cacheItem => (items.entries.map (fun e => e.2.HitCount)).sum) _
      GoMap.empty _ _ hlt, hgetD]
    simp [GoMap.empty, GoMap.set, GoMap.dropKey]

/-- The two steps of a call of `Get`, made one after the other with no
other call between them, are `Get`. -/
theorem getStep_twice (h : Hash) (c : Cache) (key : Str) (now : Int) :
    c.Get h key now =
      match c.getStep h key now .start with
      | some (.returned data, c1) => some (data, c1)
      | some (.found item, c1) =>
        match c1.getStep h key now (.found item) with
        | some (.returned data, c2) => some (data, c2)
        | _ => none
      | _ => none := by
  unfold Get getStep
  cases hi : c.getShard h key with
  | none => rfl
  | some i =>
    dsimp only
    cases hitem : (c.shards.getD i GoMap.empty).get key with
    | none => rfl
    | some item =>
      dsimp only
      rw [hi]
      dsimp only
      by_cases hexp : c.expired item now = true
      · rw [if_pos hexp, if_pos hexp]
      · rw [if_neg hexp, if_neg hexp]

end Cache

/-- Calls of `Get` made one after the other.  `Stats()` returns the number
of entries stored over all shards and the sum of their hit counters, as an
`int64`.  A call that runs alone and finds an entry whose counter is below
the largest `int64` returns the data of the entry, raises its hit counter
by exactly one, leaves its data and creation time and the entry of every
other key as they were.  On a cache fresh from `NewCache`, `Set(k, v)`
followed by `n` successful `Get(k)`, one after the other, gives
`Stats() = (1, n)`. -/
theorem Get_counts_hits_in_sequence (h : Hash) (cfg : CacheConfig) (baseDir : Str) (c : Cache)
    (k : Str) (item : cacheItem) (now : Int)
    (hentry : c.entry h k = some item) (hfresh : c.expired item now = false)
    (hlo : -9223372036854775808 ≤ item.HitCount)
    (hhi : item.HitCount < 9223372036854775807) :
    c.Stats = (c.totalEntries, int64 c.totalHits) ∧
    (∃ c1, c.Get h k now = some (some item.Data, c1) ∧
      c1.entry h k = some { item with HitCount := item.HitCount + 1 } ∧
      (∀ k1, k1 ≠ k → c1.entry h k1 = c.entry h k1) ∧
      c1.Stats = (c.Stats.1, int64 (c.totalHits + 1))) ∧
    (∀ (v : GoMap Str) (t0 : Int) (ts : List Int), 1 ≤ cfg.Shards →
      (∀ t ∈ ts, cfg.TTL ≤ 0 ∨ t - t0 ≤ cfg.TTL) →
      (ts.length : Int) < 9223372036854775808 →
      ∃ c2, (NewCache cfg baseDir).bind
          (fun c0 => c0.run h (.set k v t0 :: ts.map (fun t => CacheOp.get k t))) = some c2 ∧
        c2.Stats = (1, (ts.length : Int))) := by
  have hwrap : int64 (item.HitCount + 1) = item.HitCount + 1 :=
    int64_of_range _ (by omega) (by omega)
  refine ⟨Cache.Stats_eq c, ?_, ?_⟩
  · cases hi : c.getShard h k with
    | none =>
      unfold Cache.entry at hentry
      rw [hi] at hentry
      cases hentry
    | some i =>
      rw [Cache.entry_eq hi] at hentry
      obtain ⟨c1, hget, _, hi1, hitem1, hent, hhits, hothers⟩ :=
        Cache.Get_hit_spec hi hentry hfresh
      rw [hwrap] at hitem1 hhits
      refine ⟨c1, hget, ?_, hothers, ?_⟩
      · rw [Cache.entry_eq hi1]
        exact hitem1
      · rw [Cache.Stats_eq c1, Cache.Stats_eq c, hent, hhits]
        dsimp only
        congr 2
        ring
  · intro v t0 ts hshards hts hlen
    have hnot : ¬ cfg.Shards < 0 := by omega
    have hn : 1 ≤ cfg.Shards.toNat := by omega
    have hlen1 : (⟨List.replicate cfg.Shards.toNat GoMap.empty, cfg, baseDir⟩
        : Cache).shards.length = cfg.Shards.toNat := by simp
    obtain ⟨i, hi⟩ := Cache.shardIndex_isSome h
      ⟨List.replicate cfg.Shards.toNat GoMap.empty, cfg, baseDir⟩ k (by rw [hlen1]; exact hn)
    have hilt : i < cfg.Shards.toNat := by
      have := Cache.shardIndex_lt hi
      rwa [hlen1] at this
    have hgetD : (List.replicate cfg.Shards.toNat (GoMap.empty : GoMap cacheItem)).getD i
        GoMap.empty = GoMap.empty := by
      rw [List.getD_eq_getElem?_getD, List.getElem?_replicate_of_lt hilt]
      rfl
    have hset := Cache.Set_eq v t0 hi
    dsimp only at hset
    rw [hgetD] at hset
    obtain ⟨htot1, htot2⟩ := Cache.totals_fresh_set cfg.Shards.toNat i cfg baseDir k
      ⟨v, t0, 0⟩ hilt
    have hi1 := Cache.getShard_set i ((GoMap.empty : GoMap cacheItem).set k ⟨v, t0, 0⟩) hi
    have hitem1 : (List.getD ((List.replicate cfg.Shards.toNat GoMap.empty).set i
        ((GoMap.empty : GoMap cacheItem).set k ⟨v, t0, 0⟩)) i GoMap.empty).get k
        = some ⟨v, t0, 0⟩ := by
      rw [getD_set_self _ _ _ _ (by simpa using hilt), GoMap.get_set_self]
    obtain ⟨c2, hrun, h1, h2⟩ := Cache.run_gets v t0 ts
      ⟨(List.replicate cfg.Shards.toNat GoMap.empty).set i (GoMap.empty.set k ⟨v, t0, 0⟩), cfg,
        baseDir⟩ 0 rfl hi1 hitem1 hts (le_refl 0) (by omega)
    refine ⟨c2, ?_, ?_⟩
    · unfold NewCache
      rw [if_neg hnot]
      simp only [Option.bind_eq_bind, Option.some_bind, Cache.run, Cache.step, hset]
      exact hrun
    · rw [Cache.Stats_eq c2, h1, h2, htot1, htot2]
      simp only [zero_add]
      rw [int64_of_range _ (by omega) hlen]

/-- C19.  Two calls of `Get(k)` run at the same time on a cache that holds
one entry for `k` with no hit; `Get` takes only the read lock of the shard,
which both calls hold.  Each call reads the entry before the other has
stored it: both return the data, and the hit counter of the entry is 1
afterwards, not 2, as is the hit total of `Stats()`.  When the calls are
made one after the other the counter is 2.  And a call that finds the
counter at the largest `int64` leaves it at the least. -/
theorem concurrent_Gets_lose_a_hit :
    ((Cache.getCalls Example.sampleHash "k".toList 5
        (Example.staleCache, [GetCall.start, GetCall.start]) Example.racingGets).map
      (fun st => (st.2.map GetCall.result,
        (st.1.entry Example.sampleHash "k".toList).map (fun item => item.HitCount),
        st.1.Stats)))
      = some ([some (some Example.oneOutput), some (some Example.oneOutput)], some 1, (1, 1)) ∧
    ((Cache.getCalls Example.sampleHash "k".toList 5
        (Example.staleCache, [GetCall.start, GetCall.start]) [0, 0, 1, 1]).map
      (fun st => (st.2.map GetCall.result,
        (st.1.entry Example.sampleHash "k".toList).map (fun item => item.HitCount),
        st.1.Stats)))
      = some ([some (some Example.oneOutput), some (some Example.oneOutput)], some 2, (1, 2)) ∧
    int64 (9223372036854775807 + 1) = -9223372036854775808 := by
  refine ⟨rfl, rfl, by decide⟩

/-! ## The sweep of the rate limiter -/

namespace GoMap

variable {V : Type}

theorem get_isSome_of_mem_keys {m : GoMap V} {k : Str} (hmem : k ∈ m.keys) :
    ∃ v, m.get k = some v := by
  rcases List.mem_map.1 hmem with ⟨e, he, hk⟩
  cases hf : m.entries.find? (fun e => decide (e.1 = k)) with
  | none =>
    rw [List.find?_eq_none] at hf
    have := hf e he
    simp [hk] at this
  | some e1 =>
    refine ⟨e1.2, ?_⟩
    unfold get
    rw [hf]
    rfl

theorem not_mem_keys_of_get_none {m : GoMap V} {k : Str} (hnone : m.get k = none) :
    k ∉ m.keys := by
  intro hmem
  obtain ⟨v, hv⟩ := get_isSome_of_mem_keys hmem
  rw [hv] at hnone
  cases hnone

theorem len_le_len_delete_succ (m : GoMap V) (k : Str) : m.len ≤ (m.delete k).len + 1 := by
  cases hget : m.get k with
  | some v => exact le_of_eq (len_delete_of_get hget).symm
  | none =>
    have hsame : dropKey k m.entries = m.entries :=
      dropKey_eq_self_of_not_mem k m.entries (not_mem_keys_of_get_none hget)
    have hlen : (m.delete k).len = m.len := by
      unfold len delete
      simp only [hsame]
    omega

theorem get_delete_cases (m : GoMap V) (k k1 : Str) :
    (m.delete k).get k1 = m.get k1 ∨ (k1 = k ∧ (m.delete k).get k1 = none) := by
  by_cases hk : k1 = k
  · right
    refine ⟨hk, ?_⟩
    rw [hk]
    exact get_delete_self m k
  · left
    exact get_delete_ne m hk

end GoMap

namespace RateLimiter

theorem cleanupLoop_of_le (m : GoMap Limiter) (hle : m.len ≤ 1000) :
    ∀ order : List Str, cleanupLoop m order = m
  | [] => rfl
  | ip :: rest => by
    unfold cleanupLoop
    rw [if_neg (by omega)]
    exact cleanupLoop_of_le m hle rest

theorem cleanupLoop_of_gt (m : GoMap Limiter) (ip : Str) (rest : List Str)
    (hgt : 1000 < m.len) : cleanupLoop m (ip :: rest) = m.delete ip := by
  unfold cleanupLoop
  rw [if_pos hgt]

/-- A pass of the loop deletes at most one address, whatever the order of the visit. -/
theorem len_le_cleanupLoop_succ (m : GoMap Limiter) :
    ∀ order : List Str, m.len ≤ (cleanupLoop m order).len + 1
  | [] => Nat.le_succ _
  | ip :: rest => by
    unfold cleanupLoop
    split
    · exact GoMap.len_le_len_delete_succ m ip
    · exact len_le_cleanupLoop_succ m rest

/-- Over the bound, the pass deletes the address that `range` visits first. -/
theorem cleanupLoop_over (m : GoMap Limiter) (order : List Str)
    (horder : order.Perm m.keys) (hgt : 1000 < m.len) :
    ∃ ip, ip ∈ m.keys ∧ order.head? = some ip ∧ cleanupLoop m order = m.delete ip ∧
      (m.delete ip).len + 1 = m.len := by
  cases order with
  | nil =>
    have hlen := horder.length_eq
    simp only [List.length_nil, GoMap.keys, List.length_map] at hlen
    unfold GoMap.len at hgt
    omega
  | cons ip rest =>
    have hmem : ip ∈ m.keys := horder.subset (List.mem_cons_self _ _)
    obtain ⟨l, hl⟩ := GoMap.get_isSome_of_mem_keys hmem
    exact ⟨ip, hmem, rfl, cleanupLoop_of_gt m ip rest hgt, GoMap.len_delete_of_get hl⟩

theorem cleanupTick_len_over (rl : RateLimiter) (order : List Str)
    (horder : order.Perm rl.limiters.keys) (hgt : 1000 < rl.limiters.len) :
    (rl.cleanupTick order).limiters.len + 1 = rl.limiters.len := by
  obtain ⟨ip, _, _, hloop, hdel⟩ := cleanupLoop_over rl.limiters order horder hgt
  unfold cleanupTick
  simp only [hloop]
  exact hdel

theorem len_le_Cleanup_add (order : GoMap Limiter → List Str) :
    ∀ (ticks : Nat) (rl : RateLimiter),
      rl.limiters.len ≤ (Cleanup order ticks rl).limiters.len + ticks
  | 0, _ => Nat.le_refl _
  | ticks + 1, rl => by
    unfold Cleanup
    have h1 := len_le_Cleanup_add order ticks (rl.cleanupTick (order rl.limiters))
    have h2 : rl.limiters.len ≤ (rl.cleanupTick (order rl.limiters)).limiters.len + 1 :=
      len_le_cleanupLoop_succ rl.limiters (order rl.limiters)
    omega

end RateLimiter

theorem Example.crowd_len (n : Nat) : (Example.crowd n).len = n := by
  simp [Example.crowd, GoMap.len]

/-- C16.  One pass of the sweep of `Cleanup`, with `range` visiting every
tracked client in some order: with at most 1000 tracked clients the rate
limiter is left as it was; with more than 1000 the pass removes exactly
the client visited first, so at least one client and no more than the
excess over 1000, and at least 1000 clients stay tracked.  Every limiter
still tracked after the pass is the limiter tracked before, and the pass
tracks no new client. -/
theorem Cleanup_pass_removes_only_what_is_needed (rl : RateLimiter) (order : List Str)
    (horder : order.Perm rl.limiters.keys) :
    (rl.limiters.len ≤ 1000 → rl.cleanupTick order = rl) ∧
    (1000 < rl.limiters.len →
      ∃ ip, ip ∈ rl.limiters.keys ∧ order.head? = some ip ∧
        (rl.cleanupTick order).limiters = rl.limiters.delete ip ∧
        (rl.cleanupTick order).limiters.get ip = none ∧
        (rl.cleanupTick order).limiters.len + 1 = rl.limiters.len ∧
        1 ≤ rl.limiters.len - (rl.cleanupTick order).limiters.len ∧
        rl.limiters.len - (rl.cleanupTick order).limiters.len ≤ rl.limiters.len - 1000 ∧
        1000 ≤ (rl.cleanupTick order).limiters.len) ∧
    (∀ ip, (rl.cleanupTick order).limiters.get ip = rl.limiters.get ip ∨
      (rl.cleanupTick order).limiters.get ip = none) ∧
    (rl.cleanupTick order).rate = rl.rate ∧ (rl.cleanupTick order).burst = rl.burst := by
  refine ⟨?_, ?_, ?_, rfl, rfl⟩
  · intro hle
    unfold RateLimiter.cleanupTick
    rw [RateLimiter.cleanupLoop_of_le rl.limiters hle order]
  · intro hgt
    obtain ⟨ip, hmem, hhead, hloop, hlen⟩ :=
      RateLimiter.cleanupLoop_over rl.limiters order horder hgt
    have htick : (rl.cleanupTick order).limiters = rl.limiters.delete ip := hloop
    refine ⟨ip, hmem, hhead, htick, ?_, ?_, ?_, ?_, ?_⟩
    · rw [htick]
      exact GoMap.get_delete_self _ _
    · rw [htick]
      exact hlen
    · rw [htick]
      omega
    · rw [htick]
      omega
    · rw [htick]
      omega
  · intro ip
    by_cases hgt : 1000 < rl.limiters.len
    · obtain ⟨ip1, _, _, hloop, _⟩ := RateLimiter.cleanupLoop_over rl.limiters order horder hgt
      have htick : (rl.cleanupTick order).limiters = rl.limiters.delete ip1 := hloop
      rw [htick]
      rcases GoMap.get_delete_cases rl.limiters ip1 ip with h | ⟨_, h⟩
      · exact Or.inl h
      · exact Or.inr h
    · left
      have htick : (rl.cleanupTick order).limiters = rl.limiters :=
        RateLimiter.cleanupLoop_of_le rl.limiters (by omega) order
      rw [htick]

/-- C16, at a rate limiter that tracks 1002 clients: the pass removes one. -/
theorem Cleanup_pass_removes_only_what_is_needed_witness :
    Example.crowded.limiters.keys.Perm Example.crowded.limiters.keys ∧
    ∃ ip, (Example.crowded.cleanupTick Example.crowded.limiters.keys).limiters
        = Example.crowded.limiters.delete ip ∧
      (Example.crowded.cleanupTick Example.crowded.limiters.keys).limiters.len + 1
        = Example.crowded.limiters.len :=
  ⟨List.Perm.refl _,
    match (Cleanup_pass_removes_only_what_is_needed Example.crowded
      Example.crowded.limiters.keys (List.Perm.refl _)).2.1
      (by rw [show Example.crowded.limiters = Example.crowd 1002 from rfl,
        Example.crowd_len]; decide) with
    | ⟨ip, _, _, htick, _, hlen, _⟩ => ⟨ip, htick, hlen⟩⟩

/-- C17.  A pass of the sweep of `Cleanup` removes at most one client,
whatever the order of the visit, and `t` passes remove at most `t`: from
1002 tracked clients, 1001 are tracked after the pass, which is more than
the bound of 1000. -/
theorem Cleanup_pass_leaves_more_than_the_bound :
    Example.crowded.limiters.len = 1002 ∧
    (Example.crowded.cleanupTick Example.crowded.limiters.keys).limiters.len = 1001 ∧
    (∀ order : List Str, 1000 < (Example.crowded.cleanupTick order).limiters.len) ∧
    (∀ (rl : RateLimiter) (order : List Str),
      rl.limiters.len ≤ (rl.cleanupTick order).limiters.len + 1) ∧
    (∀ (order : GoMap Limiter → List Str) (ticks : Nat) (rl : RateLimiter),
      rl.limiters.len ≤ (RateLimiter.Cleanup order ticks rl).limiters.len + ticks) := by
  have hlen : Example.crowded.limiters.len = 1002 := Example.crowd_len 1002
  have hone : ∀ (rl : RateLimiter) (order : List Str),
      rl.limiters.len ≤ (rl.cleanupTick order).limiters.len + 1 :=
    fun rl order => RateLimiter.len_le_cleanupLoop_succ rl.limiters order
  refine ⟨hlen, ?_, ?_, hone, fun order ticks rl => RateLimiter.len_le_Cleanup_add order ticks rl⟩
  · have hpass := RateLimiter.cleanupTick_len_over Example.crowded
      Example.crowded.limiters.keys (List.Perm.refl _) (by omega)
    omega
  · intro order
    have := hone Example.crowded order
    omega

/-! ## The worker pool -/

namespace pool

theorem countP_set {α : Type} (p : α → Bool) (x y : α) :
    ∀ (l : List α) (w : Nat), l[w]? = some y →
      (l.set w x).countP p + (if p y then 1 else 0) = l.countP p + (if p x then 1 else 0)
  | [], w, h => by simp at h
  | a :: t, 0, h => by
    simp only [List.getElem?_cons_zero, Option.some.injEq] at h
    subst h
    simp only [List.set_cons_zero, List.countP_cons]
    omega
  | a :: t, w + 1, h => by
    simp only [List.getElem?_cons_succ] at h
    have ih := countP_set p x y t w h
    simp only [List.set_cons_succ, List.countP_cons]
    omega

theorem Submit_keeps (wp wp1 : WorkerPool) (task : Task) (c : SelectCase) (r : SubmitResult)
    (hsub : wp.Submit task c = some (r, wp1)) :
    wp1.wg = wp.wg ∧ wp1.goroutines = wp.goroutines := by
  cases c with
  | queue =>
    simp only [WorkerPool.Submit] at hsub
    split at hsub
    · simp only [Option.some.injEq, Prod.mk.injEq] at hsub
      rw [← hsub.2]
      exact ⟨rfl, rfl⟩
    · split at hsub
      · simp only [Option.some.injEq, Prod.mk.injEq] at hsub
        rw [← hsub.2]
        exact ⟨rfl, rfl⟩
      · simp at hsub
  | done =>
    simp only [WorkerPool.Submit] at hsub
    split at hsub
    · simp only [Option.some.injEq, Prod.mk.injEq] at hsub
      rw [← hsub.2]
      exact ⟨rfl, rfl⟩
    · simp at hsub

/-- The counter of the wait group is the number of goroutines that have
not left `worker()`. -/
theorem wg_counts_step (wp wp1 : WorkerPool) (e : Event)
    (hinv : wp.wg = (wp.goroutines.countP Worker.alive : Nat))
    (hstep : wp.step e = some wp1) :
    wp1.wg = (wp1.goroutines.countP Worker.alive : Nat) := by
  cases e with
  | Start =>
    simp only [WorkerPool.step, Option.some.injEq] at hstep
    subst hstep
    simp only [WorkerPool.Start, List.countP_append, hinv, Nat.cast_add]
    congr 1
    rw [List.countP_eq_length.2]
    · simp
    · intro g hg
      rw [List.eq_of_mem_replicate hg]
      rfl
  | Submit task c =>
    have hsame : wp1.wg = wp.wg ∧ wp1.goroutines = wp.goroutines := by
      simp only [WorkerPool.step] at hstep
      cases hsub : wp.Submit task c with
      | none =>
        rw [hsub] at hstep
        simp at hstep
      | some out =>
        obtain ⟨r, wp2⟩ := out
        have hkeep := Submit_keeps wp wp2 task c r hsub
        rw [hsub] at hstep
        cases r with
        | panics => simp at hstep
        | nil =>
          simp only [Option.some.injEq] at hstep
          subst hstep
          exact hkeep
        | Canceled =>
          simp only [Option.some.injEq] at hstep
          subst hstep
          exact hkeep
    rw [hsame.1, hsame.2]
    exact hinv
  | worker w c =>
    simp only [WorkerPool.step, WorkerPool.worker] at hstep
    cases hg : wp.goroutines[w]? with
    | none =>
      rw [hg] at hstep
      simp at hstep
    | some g =>
      rw [hg] at hstep
      have hcount := fun x =>
        countP_set Worker.alive x g wp.goroutines w hg
      cases g with
      | returned => simp at hstep
      | running task =>
        simp only [Option.some.injEq] at hstep
        subst hstep
        have := hcount Worker.selecting
        simp only [Worker.alive, if_true] at this
        simp only [hinv]
        congr 1
        omega
      | selecting =>
        have hret := hcount Worker.returned
        simp only [Worker.alive, if_true, Bool.false_eq_true, if_false, Nat.add_zero] at hret
        cases c with
        | queue =>
          cases hq : wp.taskQueue with
          | nil =>
            rw [hq] at hstep
            simp only at hstep
            split at hstep
            · simp only [Option.some.injEq] at hstep
              subst hstep
              simp only [hinv]
              omega
            · simp at hstep
          | cons task rest =>
            rw [hq] at hstep
            simp only [Option.some.injEq] at hstep
            subst hstep
            have := hcount (Worker.running task)
            simp only [Worker.alive, if_true] at this
            simp only [hinv]
            congr 1
            omega
        | done =>
          simp only at hstep
          split at hstep
          · simp only [Option.some.injEq] at hstep
            subst hstep
            simp only [hinv]
            omega
          · simp at hstep
  | Stop =>
    have hsame : wp1.wg = wp.wg ∧ wp1.goroutines = wp.goroutines := by
      simp only [WorkerPool.step, WorkerPool.Stop] at hstep
      split at hstep
      · simp only [Option.some.injEq] at hstep
        subst hstep
        exact ⟨rfl, rfl⟩
      · split at hstep
        · simp at hstep
        · simp only [Option.some.injEq] at hstep
          subst hstep
          exact ⟨rfl, rfl⟩
      · split at hstep
        · simp only [Option.some.injEq] at hstep
          subst hstep
          exact ⟨rfl, rfl⟩
        · simp at hstep
      · simp at hstep
    rw [hsame.1, hsame.2]
    exact hinv

theorem wg_counts_run : ∀ (es : List Event) (wp wp1 : WorkerPool),
    wp.wg = (wp.goroutines.countP Worker.alive : Nat) →
    wp.run es = some wp1 →
    wp1.wg = (wp1.goroutines.countP Worker.alive : Nat)
  | [], wp, wp1, hinv, hrun => by
    simp only [WorkerPool.run, Option.some.injEq] at hrun
    subst hrun
    exact hinv
  | e :: es, wp, wp1, hinv, hrun => by
    simp only [WorkerPool.run] at hrun
    cases hstep : wp.step e with
    | none =>
      rw [hstep] at hrun
      simp at hrun
    | some wp2 =>
      rw [hstep] at hrun
      exact wg_counts_run es wp2 wp1 (wg_counts_step wp wp2 e hinv hstep) hrun

/-- `Stop` returns only when every goroutine started by `Start` has left
`worker()`: on every schedule from a new pool, in the state in which the
`wg.Wait()` of `Stop` returns all goroutines have returned. -/
theorem Stop_returns_after_all_workers (numCPU workers : Int) (es : List Event)
    (wp wp1 : WorkerPool) (hrun : (NewWorkerPool numCPU workers).run es = some wp)
    (hstop : wp.Stop = some wp1) (hret : wp1.stop = StopPhase.returned) :
    ∀ g ∈ wp1.goroutines, g = Worker.returned := by
  have hinv := wg_counts_run es (NewWorkerPool numCPU workers) wp (by simp [NewWorkerPool]) hrun
  unfold WorkerPool.Stop at hstop
  split at hstop
  · simp only [Option.some.injEq] at hstop
    subst hstop
    cases hret
  · split at hstop
    · simp at hstop
    · simp only [Option.some.injEq] at hstop
      subst hstop
      cases hret
  · split at hstop
    · rename_i hwg
      simp only [Option.some.injEq] at hstop
      subst hstop
      rw [hwg] at hinv
      have hzero : wp.goroutines.countP Worker.alive = 0 := by
        omega
      intro g hg
      have hdead := (List.countP_eq_zero.1 hzero) g hg
      cases g with
      | returned => rfl
      | selecting => exact absurd rfl hdead
      | running task => exact absurd rfl hdead
    · simp at hstop
  · simp at hstop

end pool

/-- C20.  A pool of one worker is started and two tasks are enqueued, both
calls of `Submit` returning `nil`; then `Stop` is called.  After
`wp.cancel()` the worker, waiting in its `select`, takes the case of the
cancelled context and returns.  `Stop` returns, the only worker has
exited, and the two tasks are still in the queue: none has been
executed. -/
theorem Stop_returns_with_enqueued_tasks_not_executed :
    pool.enqueuedBeforeStop (pool.NewWorkerPool 4 1) Example.stopSchedule
      = [Example.task1, Example.task2] ∧
    ((pool.NewWorkerPool 4 1).run Example.stopSchedule).map
        (fun wp => (wp.stop, wp.goroutines, wp.taskQueue, wp.executed))
      = some (pool.StopPhase.returned, [pool.Worker.returned],
          [Example.task1, Example.task2], []) := by
  decide

/-! ## Submission to the pool -/

namespace pool

/-- While the channel is open and has room, the send of `Submit` proceeds:
the task is appended to the queue and `nil` is returned, without a step of
any worker. -/
theorem Submit_queue_of_room (wp : WorkerPool) (task : Task) (hopen : wp.closed = false)
    (hroom : (wp.taskQueue.length : Int) < wp.capacity) :
    wp.Submit task .queue = some (.nil, { wp with taskQueue := wp.taskQueue ++ [task] }) := by
  simp [WorkerPool.Submit, hopen, hroom]

/-- Once the context of the pool is cancelled, the other case of `Submit`
proceeds: `context.Canceled` is returned and the pool is as before. -/
theorem Submit_done_of_cancelled (wp : WorkerPool) (task : Task) (hdone : wp.ctxDone = true) :
    wp.Submit task .done = some (.Canceled, wp) := by
  simp [WorkerPool.Submit, hdone]

/-- On a closed channel the send of `Submit` proceeds by a panic. -/
theorem Submit_queue_of_closed (wp : WorkerPool) (task : Task) (hclosed : wp.closed = true) :
    wp.Submit task .queue = some (.panics, wp) := by
  simp [WorkerPool.Submit, hclosed]

/-- The case of the caller's context in `SubmitWithContext`: once that
context has ended its error is returned and the pool is as before. -/
theorem SubmitWithContext_ctx (wp : WorkerPool) (task : Task) (e : ContextError) :
    wp.SubmitWithContext (some e) task .ctx = some (.err e, wp) := rfl

/-- From the moment `close(wp.taskQueue)` of `Stop` has run the channel is
closed and the context cancelled, on every schedule. -/
theorem closed_of_stop_step (wp wp1 : WorkerPool) (e : Event)
    (hinv : (wp.stop = .closed ∨ wp.stop = .returned) → wp.closed = true ∧ wp.ctxDone = true)
    (hcancel : wp.stop = .cancelled → wp.ctxDone = true)
    (hstep : wp.step e = some wp1) :
    ((wp1.stop = .closed ∨ wp1.stop = .returned) → wp1.closed = true ∧ wp1.ctxDone = true) ∧
    (wp1.stop = .cancelled → wp1.ctxDone = true) := by
  have hsame : wp1.stop = wp.stop → wp1.closed = wp.closed → wp1.ctxDone = wp.ctxDone →
      ((wp1.stop = .closed ∨ wp1.stop = .returned) → wp1.closed = true ∧ wp1.ctxDone = true) ∧
      (wp1.stop = .cancelled → wp1.ctxDone = true) := by
    intro h1 h2 h3
    rw [h1, h2, h3]
    exact ⟨hinv, hcancel⟩
  cases e with
  | Start =>
    simp only [WorkerPool.step, Option.some.injEq] at hstep
    subst hstep
    exact hsame rfl rfl rfl
  | Submit task c =>
    simp only [WorkerPool.step] at hstep
    cases hsub : wp.Submit task c with
    | none =>
      rw [hsub] at hstep
      simp at hstep
    | some out =>
      obtain ⟨r, wp2⟩ := out
      have hkeep : wp2.stop = wp.stop ∧ wp2.closed = wp.closed ∧ wp2.ctxDone = wp.ctxDone := by
        cases c with
        | queue =>
          simp only [WorkerPool.Submit] at hsub
          split at hsub
          · simp only [Option.some.injEq, Prod.mk.injEq] at hsub
            rw [← hsub.2]
            exact ⟨rfl, rfl, rfl⟩
          · split at hsub
            · simp only [Option.some.injEq, Prod.mk.injEq] at hsub
              rw [← hsub.2]
              exact ⟨rfl, rfl, rfl⟩
            · simp at hsub
        | done =>
          simp only [WorkerPool.Submit] at hsub
          split at hsub
          · simp only [Option.some.injEq, Prod.mk.injEq] at hsub
            rw [← hsub.2]
            exact ⟨rfl, rfl, rfl⟩
          · simp at hsub
      rw [hsub] at hstep
      cases r with
      | panics => simp at hstep
      | nil =>
        simp only [Option.some.injEq] at hstep
        subst hstep
        exact hsame hkeep.1 hkeep.2.1 hkeep.2.2
      | Canceled =>
        simp only [Option.some.injEq] at hstep
        subst hstep
        exact hsame hkeep.1 hkeep.2.1 hkeep.2.2
  | worker w c =>
    simp only [WorkerPool.step, WorkerPool.worker] at hstep
    cases hg : wp.goroutines[w]? with
    | none =>
      rw [hg] at hstep
      simp at hstep
    | some g =>
      rw [hg] at hstep
      cases g with
      | returned => simp at hstep
      | running task =>
        simp only [Option.some.injEq] at hstep
        subst hstep
        exact hsame rfl rfl rfl
      | selecting =>
        cases c with
        | queue =>
          cases hq : wp.taskQueue with
          | nil =>
            rw [hq] at hstep
            simp only at hstep
            split at hstep
            · simp only [Option.some.injEq] at hstep
              subst hstep
              exact hsame rfl rfl rfl
            · simp at hstep
          | cons task rest =>
            rw [hq] at hstep
            simp only [Option.some.injEq] at hstep
            subst hstep
            exact hsame rfl rfl rfl
        | done =>
          simp only at hstep
          split at hstep
          · simp only [Option.some.injEq] at hstep
            subst hstep
            exact hsame rfl rfl rfl
          · simp at hstep
  | Stop =>
    simp only [WorkerPool.step, WorkerPool.Stop] at hstep
    split at hstep
    · simp only [Option.some.injEq] at hstep
      subst hstep
      simp
    · rename_i hphase
      split at hstep
      · simp at hstep
      · simp only [Option.some.injEq] at hstep
        subst hstep
        simp [hcancel hphase]
    · rename_i hphase
      split at hstep
      · simp only [Option.some.injEq] at hstep
        subst hstep
        simp [hinv (Or.inl hphase)]
      · simp at hstep
    · simp at hstep

theorem closed_of_stop_run : ∀ (es : List Event) (wp wp1 : WorkerPool),
    ((wp.stop = .closed ∨ wp.stop = .returned) → wp.closed = true ∧ wp.ctxDone = true) →
    (wp.stop = .cancelled → wp.ctxDone = true) →
    wp.run es = some wp1 →
    ((wp1.stop = .closed ∨ wp1.stop = .returned) → wp1.closed = true ∧ wp1.ctxDone = true) ∧
    (wp1.stop = .cancelled → wp1.ctxDone = true)
  | [], wp, wp1, hinv, hcancel, hrun => by
    simp only [WorkerPool.run, Option.some.injEq] at hrun
    subst hrun
    exact ⟨hinv, hcancel⟩
  | e :: es, wp, wp1, hinv, hcancel, hrun => by
    simp only [WorkerPool.run] at hrun
    cases hstep : wp.step e with
    | none =>
      rw [hstep] at hrun
      simp at hrun
    | some wp2 =>
      rw [hstep] at hrun
      obtain ⟨h1, h2⟩ := closed_of_stop_step wp wp2 e hinv hcancel hstep
      exact closed_of_stop_run es wp2 wp1 h1 h2 hrun

/-- On every schedule from a new pool, once `Stop` has returned both cases
of the `select` of `Submit` can proceed: the receive from the cancelled
context, which returns `context.Canceled`, and the send on the closed
channel, which panics. -/
theorem Submit_after_Stop (numCPU workers : Int) (es : List Event) (wp : WorkerPool)
    (task : Task) (hrun : (NewWorkerPool numCPU workers).run es = some wp)
    (hret : wp.stop = StopPhase.returned) :
    wp.Submit task .done = some (.Canceled, wp) ∧ wp.Submit task .queue = some (.panics, wp) := by
  have hinv := (closed_of_stop_run es (NewWorkerPool numCPU workers) wp
    (by simp [NewWorkerPool]) (by simp [NewWorkerPool]) hrun).1 (Or.inr hret)
  exact ⟨Submit_done_of_cancelled wp task hinv.2, Submit_queue_of_closed wp task hinv.1⟩

/-- A worker that receives a task and runs it to its end is back at its
`select`, and the counter of active workers, raised for the run, is what
it was before; so is `AvailableWorkers`.  The error of the task plays no
part. -/
theorem worker_runs_task (wp : WorkerPool) (w : Nat) (c : SelectCase) (task : Task)
    (rest : List Task) (hsel : wp.goroutines[w]? = some Worker.selecting)
    (hqueue : wp.taskQueue = task :: rest) :
    ∃ wp1 wp2, wp.worker w .queue = some wp1 ∧ wp1.worker w c = some wp2 ∧
      wp1.goroutines[w]? = some (Worker.running task) ∧
      wp1.activeWorkers = wp.activeWorkers + 1 ∧
      wp2.goroutines[w]? = some Worker.selecting ∧
      wp2.activeWorkers = wp.activeWorkers ∧
      wp2.AvailableWorkers = wp.AvailableWorkers ∧
      wp2.taskQueue = rest ∧ wp2.wg = wp.wg ∧
      wp2.executed = wp.executed ++ [task] := by
  have hlt : w < wp.goroutines.length := by
    rcases Nat.lt_or_ge w wp.goroutines.length with h | h
    · exact h
    · rw [List.getElem?_eq_none h] at hsel
      cases hsel
  have hrun : (wp.goroutines.set w (Worker.running task))[w]? = some (Worker.running task) := by
    rw [List.getElem?_set_self hlt]
  refine ⟨{ wp with
      taskQueue := rest,
      activeWorkers := wp.activeWorkers + 1,
      goroutines := wp.goroutines.set w (.running task) },
    { wp with
      taskQueue := rest,
      activeWorkers := wp.activeWorkers + 1 - 1,
      goroutines := (wp.goroutines.set w (.running task)).set w .selecting,
      executed := wp.executed ++ [task] }, ?_, ?_, hrun, rfl, ?_, ?_, ?_, rfl, rfl, rfl⟩
  · simp only [WorkerPool.worker, hsel, hqueue]
  · simp only [WorkerPool.worker, hrun]
  · simp only [List.set_set]
    rw [List.getElem?_set_self hlt]
  · simp
  · simp [WorkerPool.AvailableWorkers]

end pool

/-- C21.  The pool of one worker is started and stopped, and `Stop` has
returned: the channel is closed and the context cancelled.  A call of
`Submit` whose `select` takes the send panics (send on a closed channel),
as does one of `SubmitWithContext`; the other case returns
`context.Canceled`.  On any pool whose channel is closed the send case
panics. -/
theorem Submit_on_stopped_pool_may_panic :
    (pool.NewWorkerPool 4 1).run Example.shutdownSchedule = some Example.stoppedPool ∧
    Example.stoppedPool.stop = pool.StopPhase.returned ∧
    Example.stoppedPool.Submit Example.task1 .queue
      = some (pool.SubmitResult.panics, Example.stoppedPool) ∧
    Example.stoppedPool.Submit Example.task1 .done
      = some (pool.SubmitResult.Canceled, Example.stoppedPool) ∧
    Example.stoppedPool.SubmitWithContext none Example.task1 .queue
      = some (pool.SubmitCtxResult.panics, Example.stoppedPool) ∧
    (∀ (wp : pool.WorkerPool) (task : pool.Task),
      ({ wp with closed := true } : pool.WorkerPool).Submit task .queue
        = some (pool.SubmitResult.panics, { wp with closed := true })) := by
  refine ⟨by decide, rfl, rfl, rfl, rfl, ?_⟩
  intro wp task
  rfl

/-- C22.  A task whose `Func` returns an error and a task whose `Func`
returns `nil` leave the pool in the same state: for both, `Submit` returns
`nil`, the worker is back at its `select`, the counter of active workers is
zero again and every field of the pool is the same.  The error is read by
no statement of the worker, whatever the pool. -/
theorem failing_task_is_not_observable :
    ((pool.NewWorkerPool 4 1).Start.Submit Example.failingTask .queue).map Prod.fst
      = some pool.SubmitResult.nil ∧
    ((pool.NewWorkerPool 4 1).Start.Submit Example.task1 .queue).map Prod.fst
      = some pool.SubmitResult.nil ∧
    ((pool.NewWorkerPool 4 1).run (Example.taskSchedule Example.failingTask)).map
        (fun wp => (wp.goroutines, wp.activeWorkers, wp.AvailableWorkers, wp.QueueSize))
      = some ([pool.Worker.selecting], 0, 1, 0) ∧
    ((pool.NewWorkerPool 4 1).run (Example.taskSchedule Example.failingTask)).map
        pool.WorkerPool.fields
      = ((pool.NewWorkerPool 4 1).run (Example.taskSchedule Example.task1)).map
        pool.WorkerPool.fields ∧
    (∀ (wp : pool.WorkerPool) (w : Nat) (c : pool.SelectCase) (task : pool.Task) (err : Str),
      (({ wp with goroutines := wp.goroutines.set w (.running { task with Func := some err }) }
          : pool.WorkerPool).worker w c).map pool.WorkerPool.fields
        = (({ wp with goroutines := wp.goroutines.set w (.running { task with Func := none }) }
          : pool.WorkerPool).worker w c).map pool.WorkerPool.fields) := by
  refine ⟨by decide, by decide, by decide, by decide, ?_⟩
  intro wp w c task err
  by_cases hlt : w < wp.goroutines.length
  · simp [pool.WorkerPool.worker, pool.WorkerPool.fields, List.getElem?_set_self hlt]
  · have hnone : ∀ g, (wp.goroutines.set w g)[w]? = none := by
      intro g
      apply List.getElem?_eq_none
      simpa using hlt
    simp [pool.WorkerPool.worker, hnone]

/-! ## Argument construction -/

/-- The range check on a `float64` lets through the finite values of the
range and NaN, and nothing else. -/
theorem validateFloatParam_eq_none_iff (x : Float64) (lo hi : ℚ) (name : Str) :
    validateFloatParam x (.finite lo) (.finite hi) name = none ↔
      x = .NaN ∨ ∃ q, x = .finite q ∧ lo ≤ q ∧ q ≤ hi := by
  cases x with
  | NaN => simp [validateFloatParam, Float64.lt]
  | inf negative => cases negative <;> simp [validateFloatParam, Float64.lt]
  | finite q =>
    simp only [validateFloatParam, Float64.lt, Bool.or_eq_true, decide_eq_true_eq,
      ite_eq_right_iff, reduceCtorEq, imp_false, not_or, not_lt, false_or, Float64.finite.injEq,
      exists_eq_left']

/-- The range check on an `int` lets through exactly the values of the
range. -/
theorem validateIntParam_eq_none_iff (v lo hi : Int) (name : Str) :
    validateIntParam v lo hi name = none ↔ lo ≤ v ∧ v ≤ hi := by
  simp only [validateIntParam, ite_eq_right_iff, reduceCtorEq, imp_false, not_or, not_lt,
    gt_iff_lt]

/-- A parameter that holds a value of another type than `float64` or
`float32`, such as an `int`, is read as if it were absent: the default is
taken. -/
theorem getFloatParam_of_int (params : GoMap Value) (key : Str) (n : Int) (d : Float64)
    (hint : params.get key = some (.int n)) : getFloatParam params key d = d := by
  simp [getFloatParam, hint]

/-- An analysis type outside the nine of the `switch` is refused. -/
theorem BuildZeoArgs_unsupported (analysisType : Str) (params : GoMap Value)
    (hnot : analysisType ∉ analysisTypes) :
    BuildZeoArgs analysisType params
      = .error ("unsupported analysis type: ".toList ++ analysisType) := by
  simp only [analysisTypes, List.mem_cons, List.mem_singleton, not_or, List.not_mem_nil,
    or_false] at hnot
  obtain ⟨h1, h2, h3, h4, h5, h6, h7, h8, h9⟩ := hnot
  unfold BuildZeoArgs
  simp only [if_neg h1, if_neg h2, if_neg h3, if_neg h4, if_neg h5, if_neg h6, if_neg h7,
    if_neg h8, if_neg h9]

/-- Whenever `BuildZeoArgs` returns arguments, `-ha` is their first token
exactly when `params["ha"]` is the boolean `true`. -/
theorem BuildZeoArgs_ha_first (analysisType : Str) (params : GoMap Value) (args : List Str)
    (hok : BuildZeoArgs analysisType params = .ok args) :
    args.head? = some "-ha".toList ↔ params.get "ha".toList = some (.bool true) := by
  unfold BuildZeoArgs at hok
  simp only at hok
  split_ifs at hok with h1 h2 h3 h4 h5 h6 h7 h8 h9
  all_goals try split at hok
  all_goals try split at hok
  all_goals try split at hok
  all_goals try split at hok
  all_goals first
    | (exfalso; exact Except.noConfusion hok)
    | (injection hok with hok
       subst hok
       first
       | exact ⟨fun _ => by assumption, fun _ => rfl⟩
       | (rename_i hno
          refine ⟨fun h => ?_, fun h => absurd h hno⟩
          simp only [List.nil_append, List.head?_cons, Option.some.injEq] at h
          exact absurd h (by decide)))

/-- C23.  The form field `probe_radius=NaN` gives the parameter map that
holds the `float64` NaN for `probe_radius`.  `validateFloatParam` lets NaN
through, both of its comparisons being false, and `BuildZeoArgs` returns
arguments that carry the token `NaN`: for `channel_analysis`, and for
`pore_size_dist`, where the channel radius defaults to the probe radius. -/
theorem BuildZeoArgs_accepts_NaN_radius :
    Example.nanParams.get "probe_radius".toList = some (Value.float64 Float64.NaN) ∧
    (∀ name : Str, validateFloatParam .NaN (.finite (1 / 10)) (.finite 10) name = none) ∧
    BuildZeoArgs "channel_analysis".toList Example.nanParams
      = .ok ["-chan".toList, "NaN".toList, "output.chan".toList] ∧
    BuildZeoArgs "pore_size_dist".toList Example.nanParams
      = .ok ["-psd".toList, "NaN".toList, "NaN".toList, "100".toList, "50000".toList,
          "output.psd".toList] :=
  ⟨rfl, fun _ => rfl, rfl, rfl⟩

/-- C24.  Whenever `BuildZeoArgs` returns arguments, the analysis type is
one of the nine of its `switch`, `getOutputFiles` of that type is a list of
one name, and the last token of the arguments is that name. -/
theorem BuildZeoArgs_last_token_is_output_file (analysisType : Str) (params : GoMap Value)
    (args : List Str) (hok : BuildZeoArgs analysisType params = .ok args) :
    analysisType ∈ analysisTypes ∧
    ∃ name, getOutputFiles analysisType = [name] ∧ (getOutputFiles analysisType)[0]? = some name ∧
      args.getLast? = some name := by
  unfold BuildZeoArgs at hok
  simp only at hok
  split_ifs at hok with h1 h2 h3 h4 h5 h6 h7 h8 h9
  all_goals subst_vars
  all_goals refine ⟨by decide, _, rfl, rfl, ?_⟩
  all_goals try split at hok
  all_goals try split at hok
  all_goals try split at hok
  all_goals first
    | (exfalso; exact Except.noConfusion hok)
    | (injection hok with hok; subst hok; simp)

/-- C24, at the type `pore_diameter` with the high-accuracy flag. -/
theorem BuildZeoArgs_last_token_is_output_file_witness :
    BuildZeoArgs "pore_diameter".toList Example.haParams
      = .ok ["-ha".toList, "-res".toList, "output.res".toList] ∧
    ∃ name, getOutputFiles "pore_diameter".toList = [name] ∧
      (getOutputFiles "pore_diameter".toList)[0]? = some name ∧
      ["-ha".toList, "-res".toList, "output.res".toList].getLast? = some name :=
  ⟨rfl, (BuildZeoArgs_last_token_is_output_file "pore_diameter".toList Example.haParams
    ["-ha".toList, "-res".toList, "output.res".toList] rfl).2⟩

/-! ## The configuration and the shard index -/

namespace config

/-- A configuration returned by `LoadConfig` has at least one shard, and a
TTL that is not negative. -/
theorem LoadConfig_Shards_pos (Unmarshal : Str → Option Config) (numCPU : Int) (s : Sys)
    (path : Str) (cfg : Config) (hload : LoadConfig Unmarshal numCPU s path = some cfg) :
    1 ≤ cfg.Cache.Shards ∧ 0 ≤ cfg.Cache.TTL := by
  unfold LoadConfig at hload
  split at hload
  · cases hload
  · split at hload
    · cases hload
    · simp only [Option.some.injEq] at hload
      subst hload
      split_ifs <;> (try dsimp only at *) <;> constructor <;> omega

theorem LoadDefaultConfig_Shards (numCPU : Int) :
    (LoadDefaultConfig numCPU).Cache.Shards = 32 := rfl

/-- The configuration `main` hands to `NewCache` has at least one shard. -/
theorem mainConfig_Shards_pos (Unmarshal : Str → Option Config) (numCPU : Int) (s : Sys) :
    1 ≤ (mainConfig Unmarshal numCPU s).Cache.Shards := by
  unfold mainConfig
  cases hload : LoadConfig Unmarshal numCPU s "config/config.yaml".toList with
  | none =>
    simp only [LoadDefaultConfig_Shards]
    decide
  | some cfg => exact (LoadConfig_Shards_pos Unmarshal numCPU s _ cfg hload).1

end config

/-- C25.  For a configuration with at least one shard `NewCache` creates
that many shards, and in every state of the cache reached by later calls
`getShard` computes, for every key, the first digest byte modulo the number
of shards, with a divisor of at least one and an index below the number of
shards; so `Get`, `Set` and `Delete` do not panic.  A configuration that
`LoadConfig` returns has `Shards >= 1`, that of `LoadDefaultConfig` has 32,
and so has the configuration `main` uses. -/
theorem getShard_index_in_range (h : Hash) (cfg : CacheConfig) (baseDir : Str) (c : Cache)
    (key : Str) (data : GoMap Str) (now : Int)
    (hshards : 1 ≤ cfg.Shards) (hc : c.Reachable h cfg baseDir) :
    (∃ c0, NewCache cfg baseDir = some c0 ∧ c0.shards.length = cfg.Shards.toNat) ∧
    c.shards.length = cfg.Shards.toNat ∧ 1 ≤ c.shards.length ∧
    (∃ i, c.getShard h key = some i ∧ i < c.shards.length ∧
      i = ((h key).headD (Char.ofNat 0)).toNat % c.shards.length) ∧
    (c.Get h key now).isSome = true ∧ (c.Set h key data now).isSome = true ∧
    (c.Delete h key).isSome = true ∧
    (∀ (Unmarshal : Str → Option config.Config) (numCPU : Int) (s : Sys) (path : Str)
      (loaded : config.Config),
      config.LoadConfig Unmarshal numCPU s path = some loaded → 1 ≤ loaded.Cache.Shards) ∧
    (∀ numCPU : Int, (config.LoadDefaultConfig numCPU).Cache.Shards = 32) ∧
    (∀ (Unmarshal : Str → Option config.Config) (numCPU : Int) (s : Sys),
      1 ≤ (config.mainConfig Unmarshal numCPU s).Cache.Shards) := by
  obtain ⟨hlen, _⟩ := hc.shape
  have hpos : 1 ≤ c.shards.length := by omega
  obtain ⟨i, hi⟩ := Cache.shardIndex_isSome h c key hpos
  have hval : i = ((h key).headD (Char.ofNat 0)).toNat % c.shards.length := by
    unfold Cache.getShard at hi
    rw [if_neg (by omega)] at hi
    exact (Option.some.inj hi).symm
  refine ⟨?_, hlen, hpos, ⟨i, hi, Cache.shardIndex_lt hi, hval⟩, ?_, ?_, ?_,
    fun Unmarshal numCPU s path loaded hload =>
      (config.LoadConfig_Shards_pos Unmarshal numCPU s path loaded hload).1,
    config.LoadDefaultConfig_Shards, config.mainConfig_Shards_pos⟩
  · refine ⟨⟨List.replicate cfg.Shards.toNat GoMap.empty, cfg, baseDir⟩, ?_, by simp⟩
    unfold NewCache
    rw [if_neg (by omega)]
  · unfold Cache.Get
    rw [hi]
    dsimp only
    split
    · rfl
    · split <;> rfl
  · unfold Cache.Set
    rw [hi]
    rfl
  · unfold Cache.Delete
    rw [hi]
    rfl

/-- C25, at the cache of 32 shards that holds one entry. -/
theorem getShard_index_in_range_witness :
    (1 : Int) ≤ Example.hourCache.Shards ∧
    Cache.Reachable Example.sampleHash Example.hourCache [] Example.staleCache ∧
    Example.staleCache.shards.length = 32 ∧
    ∃ i, Example.staleCache.getShard Example.sampleHash "output".toList = some i ∧
      i < Example.staleCache.shards.length :=
  ⟨by decide, ⟨[.set "k".toList Example.oneOutput 0], rfl⟩,
    (getShard_index_in_range Example.sampleHash Example.hourCache [] Example.staleCache
      "output".toList GoMap.empty 0 (by decide)
      ⟨[.set "k".toList Example.oneOutput 0], rfl⟩).2.1,
    match (getShard_index_in_range Example.sampleHash Example.hourCache [] Example.staleCache
      "output".toList GoMap.empty 0 (by decide)
      ⟨[.set "k".toList Example.oneOutput 0], rfl⟩).2.2.2.1 with
    | ⟨i, hi, hlt, _⟩ => ⟨i, hi, hlt⟩⟩

/-! ## Sanitising the name of an upload -/

theorem filepath.Base_ne_nil (p : Str) : filepath.Base p ≠ [] := by
  unfold filepath.Base
  by_cases h1 : p = []
  · rw [if_pos h1]
    exact List.cons_ne_nil _ _
  · rw [if_neg h1]
    dsimp only
    by_cases h2 : ((stripTrailingSlashes p).reverse.takeWhile
        (fun c => decide (c ≠ '/'))).reverse = []
    · rw [if_pos h2]
      exact List.cons_ne_nil _ _
    · rw [if_neg h2]
      exact h2

namespace file

theorem sanitizeChar_allowed (r : Char) :
    (sanitizeChar r ≥ 'a' ∧ sanitizeChar r ≤ 'z') ∨ (sanitizeChar r ≥ 'A' ∧ sanitizeChar r ≤ 'Z') ∨
      (sanitizeChar r ≥ '0' ∧ sanitizeChar r ≤ '9') ∨ sanitizeChar r = '.' ∨
      sanitizeChar r = '-' ∨ sanitizeChar r = '_' := by
  unfold sanitizeChar
  split_ifs with h
  · exact h
  · decide

end file

/-- C26.  For every input, `sanitizeFilename` returns a string that is not
empty and whose characters are all among a-z, A-Z, 0-9, `.`, `-` and `_`,
so that it holds no slash; when the base name of the input is empty or `.`
the result is `uploaded_file`, as it is for the empty input. -/
theorem sanitizeFilename_is_safe (filename : Str) :
    file.sanitizeFilename filename ≠ [] ∧
    (∀ c ∈ file.sanitizeFilename filename,
      (c ≥ 'a' ∧ c ≤ 'z') ∨ (c ≥ 'A' ∧ c ≤ 'Z') ∨ (c ≥ '0' ∧ c ≤ '9') ∨
        c = '.' ∨ c = '-' ∨ c = '_') ∧
    '/' ∉ file.sanitizeFilename filename ∧
    ((filepath.Base filename = [] ∨ filepath.Base filename = ['.']) →
      file.sanitizeFilename filename = "uploaded_file".toList) ∧
    file.sanitizeFilename [] = "uploaded_file".toList := by
  have hallowed : ∀ c ∈ file.sanitizeFilename filename,
      (c ≥ 'a' ∧ c ≤ 'z') ∨ (c ≥ 'A' ∧ c ≤ 'Z') ∨ (c ≥ '0' ∧ c ≤ '9') ∨
        c = '.' ∨ c = '-' ∨ c = '_' := by
    intro c hc
    unfold file.sanitizeFilename at hc
    simp only at hc
    split_ifs at hc with h
    · revert c
      decide
    · rcases List.mem_map.1 hc with ⟨r, _, hr⟩
      rw [← hr]
      exact file.sanitizeChar_allowed r
  refine ⟨?_, hallowed, ?_, ?_, by decide⟩
  · unfold file.sanitizeFilename
    simp only
    split_ifs with h
    · decide
    · exact fun hnil => h (Or.inl hnil)
  · intro hmem
    have := hallowed '/' hmem
    revert this
    decide
  · intro hbase
    unfold file.sanitizeFilename
    simp only
    rw [if_pos]
    rcases hbase with h | h
    · left
      rw [h]
      rfl
    · right
      rw [h]
      rfl

/-- C26, at a path with directories, a space and a character outside
ASCII. -/
theorem sanitizeFilename_is_safe_witness :
    file.sanitizeFilename "../../etc/pass wdé".toList = "pass_wd_".toList ∧
    '/' ∉ file.sanitizeFilename "../../etc/pass wdé".toList ∧
    file.sanitizeFilename "a/.".toList = "uploaded_file".toList :=
  ⟨by decide, (sanitizeFilename_is_safe "../../etc/pass wdé".toList).2.2.1,
    (sanitizeFilename_is_safe "a/.".toList).2.2.2.1 (Or.inr (by decide))⟩

/-! ## The parser of the pore diameters -/

namespace strings

/-- `strings.Split` never returns an empty slice: the empty string gives
one empty piece. -/
theorem Split_ne_nil (sep : Char) : ∀ s : Str, Split sep s ≠ []
  | [] => by simp [Split]
  | c :: cs => by
    unfold Split
    split_ifs
    · simp
    · split <;> simp

theorem Split_nil (sep : Char) : Split sep [] = [[]] := rfl

end strings

namespace parser

theorem invalid_format_ne_empty_output (x : Str) :
    "invalid format: expected 3 values, got ".toList ++ x ≠ "empty output".toList := by
  intro h
  have h1 : "invalid format: expected 3 values, got ".toList
      = 'i' :: "nvalid format: expected 3 values, got ".toList := rfl
  have h2 : "empty output".toList = 'e' :: "mpty output".toList := rfl
  rw [h1, h2, List.cons_append, List.cons.injEq] at h
  exact absurd h.1 (by decide)

theorem failed_to_parse_ne_empty_output (x : Str) :
    "failed to parse values: ".toList ++ x ≠ "empty output".toList := by
  intro h
  have h1 : "failed to parse values: ".toList = 'f' :: "ailed to parse values: ".toList := rfl
  have h2 : "empty output".toList = 'e' :: "mpty output".toList := rfl
  rw [h1, h2, List.cons_append, List.cons.injEq] at h
  exact absurd h.1 (by decide)

/-- What `ParsePoreDiameter` does, by the fields of the last line of the
trimmed input: that last line always exists. -/
theorem ParsePoreDiameter_cases (ParseFloat : Str → Except Str Float64) (data : Str) :
    ∃ last, (strings.Split '\n' (strings.TrimSpace data)).getLast? = some last ∧
      ParsePoreDiameter ParseFloat data =
        match strings.Fields last with
        | p0 :: p1 :: p2 :: _ =>
          match ParseFloat p0, ParseFloat p1, ParseFloat p2 with
          | .ok included, .ok free, .ok includedAlong =>
            some (.ok ⟨included, free, includedAlong⟩)
          | r1, r2, r3 =>
            some (.error ("failed to parse values: ".toList ++ errText r1 ++ ", ".toList ++
              errText r2 ++ ", ".toList ++ errText r3))
        | parts =>
          some (.error ("invalid format: expected 3 values, got ".toList ++
            fmt.d parts.length)) := by
  have hne := strings.Split_ne_nil '\n' (strings.TrimSpace data)
  cases hl : (strings.Split '\n' (strings.TrimSpace data)).getLast? with
  | none =>
    rw [List.getLast?_eq_none_iff] at hl
    exact absurd hl hne
  | some last =>
    refine ⟨last, rfl, ?_⟩
    unfold ParsePoreDiameter
    simp only
    rw [if_neg (by simpa [List.length_eq_zero] using hne), ← List.getLast?_eq_getElem?, hl]
    simp only
    rcases strings.Fields last with _ | ⟨p0, _ | ⟨p1, _ | ⟨p2, rest⟩⟩⟩
    · rfl
    · rfl
    · rfl
    · rw [if_neg (by simp)]
      simp only [List.getElem?_cons_zero, List.getElem?_cons_succ]

/-- `ParsePoreDiameter` returns a result exactly when the last line of the
trimmed input has at least three fields and each of the first three is
read as a float; the result holds those three values in order. -/
theorem ParsePoreDiameter_ok_iff (ParseFloat : Str → Except Str Float64) (data : Str)
    (r : PoreDiameterResult) :
    ParsePoreDiameter ParseFloat data = some (.ok r) ↔
      ∃ last p0 p1 p2 rest,
        (strings.Split '\n' (strings.TrimSpace data)).getLast? = some last ∧
        strings.Fields last = p0 :: p1 :: p2 :: rest ∧
        ParseFloat p0 = .ok r.IncludedDiameter ∧ ParseFloat p1 = .ok r.FreeDiameter ∧
        ParseFloat p2 = .ok r.IncludedAlongFree := by
  obtain ⟨last, hl, heq⟩ := ParsePoreDiameter_cases ParseFloat data
  rw [heq]
  constructor
  · intro h
    rcases hf : strings.Fields last with _ | ⟨p0, _ | ⟨p1, _ | ⟨p2, rest⟩⟩⟩
    · rw [hf] at h
      simp at h
    · rw [hf] at h
      simp at h
    · rw [hf] at h
      simp at h
    · rw [hf] at h
      refine ⟨last, p0, p1, p2, rest, hl, hf, ?_⟩
      cases h0 : ParseFloat p0 <;> cases h1 : ParseFloat p1 <;> cases h2 : ParseFloat p2 <;>
        simp only [h0, h1, h2, Option.some.injEq, reduceCtorEq, Except.ok.injEq] at h
      subst h
      exact ⟨rfl, rfl, rfl⟩
  · rintro ⟨last1, p0, p1, p2, rest, hl1, hf, h0, h1, h2⟩
    rw [hl] at hl1
    cases hl1
    rw [hf]
    simp only [h0, h1, h2]

/-- `ParsePoreDiameter` returns for every input: no index is out of
range. -/
theorem ParsePoreDiameter_isSome (ParseFloat : Str → Except Str Float64) (data : Str) :
    (ParsePoreDiameter ParseFloat data).isSome = true := by
  obtain ⟨last, _, heq⟩ := ParsePoreDiameter_cases ParseFloat data
  rw [heq]
  split
  · split <;> rfl
  · rfl

/-- The error `empty output` is returned for no input. -/
theorem ParsePoreDiameter_ne_empty_output (ParseFloat : Str → Except Str Float64) (data : Str) :
    ParsePoreDiameter ParseFloat data ≠ some (.error "empty output".toList) := by
  obtain ⟨last, _, heq⟩ := ParsePoreDiameter_cases ParseFloat data
  rw [heq]
  split
  · split
    · simp
    · intro h
      simp only [Option.some.injEq, Except.error.injEq, List.append_assoc] at h
      exact failed_to_parse_ne_empty_output _ h
  · intro h
    simp only [Option.some.injEq, Except.error.injEq] at h
    exact invalid_format_ne_empty_output _ h

end parser

/-- C27.  For the empty input, and for an input of white space only,
`ParsePoreDiameter` returns the error `invalid format: expected 3 values,
got 0`, not `empty output`: `strings.Split` gives one empty line, never an
empty slice, so the test `len(lines) == 0` is never true, and the error
`empty output` is returned for no input at all.  The function returns for
every input. -/
theorem ParsePoreDiameter_empty_input_is_invalid_format :
    (∀ ParseFloat : Str → Except Str Float64,
      parser.ParsePoreDiameter ParseFloat []
        = some (.error "invalid format: expected 3 values, got 0".toList)) ∧
    (∀ ParseFloat : Str → Except Str Float64,
      parser.ParsePoreDiameter ParseFloat " \n\t ".toList
        = some (.error "invalid format: expected 3 values, got 0".toList)) ∧
    "invalid format: expected 3 values, got 0".toList ≠ "empty output".toList ∧
    strings.Split '\n' (strings.TrimSpace []) = [[]] ∧
    (∀ (ParseFloat : Str → Except Str Float64) (data : Str),
      parser.ParsePoreDiameter ParseFloat data ≠ some (.error "empty output".toList)) ∧
    (∀ (ParseFloat : Str → Except Str Float64) (data : Str),
      (parser.ParsePoreDiameter ParseFloat data).isSome = true) :=
  ⟨fun _ => rfl, fun _ => rfl, by decide, rfl, parser.ParsePoreDiameter_ne_empty_output,
    parser.ParsePoreDiameter_isSome⟩

/-- A sample: the last line of the output holds three numbers and a
further field. -/
theorem ParsePoreDiameter_sample :
    parser.ParsePoreDiameter Example.sampleParseFloat "header\n 4.5 3.25\t4 rest\n".toList
      = some (.ok ⟨.finite (9 / 2), .finite (13 / 4), .finite 4⟩) := rfl

end ZeoApi
